import Mathlib

/-!
# NMPC waypoint planner: pose kinematics, rollout, costs, optimizers, waypoint generation and fusion

Shallow embedding of `cpp/include/waypoints_planner.hpp`.

The planner is templated over a `Scalar` type. The embedding keeps that
parameter: every function below is written once, over any type `α` carrying
the arithmetic the source uses (`Scalar α`). Results that only depend on
the control flow are proved for every such arithmetic. Results about values
(trigonometry, square roots) are proved for the exact real arithmetic
`realScalar`, which is what the rounding arithmetic of `double` approximates.
Where a result depends on a NaN of `double`, it is evaluated in `nanScalar`,
the real numbers with a NaN.
-/

set_option autoImplicit false

namespace WaypointsPlanner

/-! ## Scalars, vectors, matrices -/

/-- Arithmetic used by the planner on its `Scalar` template parameter:
the operators `+ - * /` and unary minus, numeric literals, `std::sqrt`,
`std::sin`, `std::cos`, `std::atan2`, `std::acos`, `std::exp`, the constant
`M_PI_2`, the comparison `<` (a Boolean, as in the source), the conversions
from `size_t` and from `int`, and the truncating `static_cast<int>`. -/
class Scalar (α : Type) extends Add α, Sub α, Mul α, Div α, Neg α where
  lit : ℚ → α
  sqrt : α → α
  sin : α → α
  cos : α → α
  atan2 : α → α → α
  acos : α → α
  exp : α → α
  half_pi : α
  lt : α → α → Bool
  ofNat : Nat → α
  ofInt : Int → α
  toInt : α → Int

/-- Column vector with three entries, `Eigen::Matrix<Scalar, 3, 1>`. -/
structure Vec3 (α : Type) where
  x : α
  y : α
  z : α

/-- Square matrix, `Eigen::Matrix<Scalar, 3, 3>`; `mij` is `mat(i, j)`. -/
structure Mat3 (α : Type) where
  m00 : α
  m01 : α
  m02 : α
  m10 : α
  m11 : α
  m12 : α
  m20 : α
  m21 : α
  m22 : α

/-- Rigid transform, `Eigen::Transform<Scalar, 3, Eigen::Isometry>`: for an
isometry `rotation()` is the linear part itself. -/
structure Isometry (α : Type) where
  linear : Mat3 α
  translation : Vec3 α

/-- Column vector with six entries (a state, a control step or a pose
error), `Eigen::Matrix<Scalar, 6, 1>`. -/
abbrev Vec6 (α : Type) := Fin 6 → α

/-- What the planner uses of a `pcl::KdTreeFLANN`: the cloud behind
`getInputCloud()` (a null pointer is `none`) and the answer of
`nearestKSearch(query_pt, 1, nn_index, nn_dist2)`, which is `none` when the
search reports `found <= 0` and the squared distance `nn_dist2[0]`
otherwise. The search itself is library code. -/
structure KdTreeFLANN (α : Type) where
  getInputCloud : Option (List (Vec3 α))
  nearestKSearch : Vec3 α → Option α

/-- The two point-cloud filters of the PCL library that the planner runs:
`pcl::FrustumCulling` (input cloud, horizontal and vertical field of view,
near and far plane distance, camera pose) and `pcl::CropBox` (input cloud,
transform, minimum and maximum corner). Each returns the points it keeps. -/
structure PclFilters (α : Type) where
  frustumCulling : List (Vec3 α) → α → α → α → α → Isometry α → List (Vec3 α)
  cropBox : List (Vec3 α) → Isometry α → Vec3 α → Vec3 α → List (Vec3 α)

section Generic

variable {α : Type} [Scalar α]

/-- Componentwise difference of two 3-vectors. -/
def Vec3.sub (a b : Vec3 α) : Vec3 α :=
  ⟨a.x - b.x, a.y - b.y, a.z - b.z⟩

/-- Scaling of a 3-vector, `s * v`. -/
def Vec3.smul (s : α) (v : Vec3 α) : Vec3 α :=
  ⟨s * v.x, s * v.y, s * v.z⟩

/-- Euclidean norm as Eigen computes it, `sqrt` of the sum of squares. -/
def Vec3.norm (v : Vec3 α) : α :=
  Scalar.sqrt (v.x * v.x + v.y * v.y + v.z * v.z)

/-- First three entries, `v.head(3)`. -/
def head3 (v : Vec6 α) : Vec3 α := ⟨v 0, v 1, v 2⟩

/-- Last three entries, `v.tail(3)`. -/
def tail3 (v : Vec6 α) : Vec3 α := ⟨v 3, v 4, v 5⟩

/-- Six-vector with the given head and tail. -/
def mkVec6 (h t : Vec3 α) : Vec6 α := ![h.x, h.y, h.z, t.x, t.y, t.z]

/-- Identity matrix. -/
def Mat3.identity : Mat3 α :=
  ⟨Scalar.lit 1, Scalar.lit 0, Scalar.lit 0,
   Scalar.lit 0, Scalar.lit 1, Scalar.lit 0,
   Scalar.lit 0, Scalar.lit 0, Scalar.lit 1⟩

/-- Matrix transpose. -/
def Mat3.transpose (a : Mat3 α) : Mat3 α :=
  ⟨a.m00, a.m10, a.m20,
   a.m01, a.m11, a.m21,
   a.m02, a.m12, a.m22⟩

/-- Matrix product, each entry the row-by-column sum of three products. -/
def Mat3.mul (a b : Mat3 α) : Mat3 α :=
  ⟨a.m00 * b.m00 + a.m01 * b.m10 + a.m02 * b.m20,
   a.m00 * b.m01 + a.m01 * b.m11 + a.m02 * b.m21,
   a.m00 * b.m02 + a.m01 * b.m12 + a.m02 * b.m22,
   a.m10 * b.m00 + a.m11 * b.m10 + a.m12 * b.m20,
   a.m10 * b.m01 + a.m11 * b.m11 + a.m12 * b.m21,
   a.m10 * b.m02 + a.m11 * b.m12 + a.m12 * b.m22,
   a.m20 * b.m00 + a.m21 * b.m10 + a.m22 * b.m20,
   a.m20 * b.m01 + a.m21 * b.m11 + a.m22 * b.m21,
   a.m20 * b.m02 + a.m21 * b.m12 + a.m22 * b.m22⟩

/-- Trace of a matrix. -/
def Mat3.trace (a : Mat3 α) : α := a.m00 + a.m11 + a.m22

/-- Rotation denoted by `Eigen::AngleAxis(angle, UnitZ())`. -/
def angleAxisZ (angle : α) : Mat3 α :=
  ⟨Scalar.cos angle, -Scalar.sin angle, Scalar.lit 0,
   Scalar.sin angle, Scalar.cos angle, Scalar.lit 0,
   Scalar.lit 0, Scalar.lit 0, Scalar.lit 1⟩

/-- Rotation denoted by `Eigen::AngleAxis(angle, UnitY())`. -/
def angleAxisY (angle : α) : Mat3 α :=
  ⟨Scalar.cos angle, Scalar.lit 0, Scalar.sin angle,
   Scalar.lit 0, Scalar.lit 1, Scalar.lit 0,
   -Scalar.sin angle, Scalar.lit 0, Scalar.cos angle⟩

/-- Rotation denoted by `Eigen::AngleAxis(angle, UnitX())`. -/
def angleAxisX (angle : α) : Mat3 α :=
  ⟨Scalar.lit 1, Scalar.lit 0, Scalar.lit 0,
   Scalar.lit 0, Scalar.cos angle, -Scalar.sin angle,
   Scalar.lit 0, Scalar.sin angle, Scalar.cos angle⟩

/-- Identity transform, `IsometryT::Identity()`. -/
def Isometry.identity : Isometry α :=
  ⟨Mat3.identity, ⟨Scalar.lit 0, Scalar.lit 0, Scalar.lit 0⟩⟩

/-! ## Pose and error kinematics -/

/-- Source `stateToIsometry`: the linear part is
`AngleAxis(eulZYX.z, Z) * AngleAxis(eulZYX.y, Y) * AngleAxis(eulZYX.x, X)`
and the translation is copied. Eigen forms the first product through unit
quaternions; the embedding takes the rotations those objects denote and
multiplies them left to right. -/
def stateToIsometry (translation eulZYX : Vec3 α) : Isometry α :=
  { linear := ((angleAxisZ eulZYX.z).mul (angleAxisY eulZYX.y)).mul (angleAxisX eulZYX.x),
    translation := translation }

/-- Relative rotation `Re = H1.rotation() * H2.rotation().transpose()` of
`homogeneousError`. -/
def relativeRotation (H1 H2 : Isometry α) : Mat3 α :=
  H1.linear.mul H2.linear.transpose

/-- Vector `eps` of `homogeneousError`:
`(Re(2,1) - Re(1,2), Re(0,2) - Re(2,0), Re(1,0) - Re(0,1))`. -/
def rotationEps (Re : Mat3 α) : Vec3 α :=
  ⟨Re.m21 - Re.m12, Re.m02 - Re.m20, Re.m10 - Re.m01⟩

/-- Orientation part of `homogeneousError`, the three-branch formula. -/
def orientationError (Re : Mat3 α) : Vec3 α :=
  let t := Re.trace
  let eps := rotationEps Re
  let eps_norm := eps.norm
  if Scalar.lt (Scalar.lit (-99 / 100)) t || Scalar.lt (Scalar.lit (1 / 10000000000)) eps_norm then
    if Scalar.lt eps_norm (Scalar.lit (1 / 1000)) then
      Vec3.smul (Scalar.lit (3 / 4) - t / Scalar.lit 12) eps
    else
      Vec3.smul (Scalar.atan2 eps_norm (t - Scalar.lit 1) / eps_norm) eps
  else
    ⟨Scalar.half_pi * (Re.m00 + Scalar.lit 1),
     Scalar.half_pi * (Re.m11 + Scalar.lit 1),
     Scalar.half_pi * (Re.m22 + Scalar.lit 1)⟩

/-- Source `homogeneousError`: head is the translational error
`H1.translation() - H2.translation()`, tail the orientation error. -/
def homogeneousError (H1 H2 : Isometry α) : Vec6 α :=
  mkVec6 (H1.translation.sub H2.translation) (orientationError (relativeRotation H1 H2))

/-- Source `mat_to_rpy_intrinsic`: roll, pitch, yaw of a rotation matrix. -/
def mat_to_rpy_intrinsic (mat : Mat3 α) : Vec3 α :=
  ⟨Scalar.atan2 mat.m21 mat.m22,
   Scalar.atan2 (-mat.m20) (Scalar.sqrt (mat.m21 * mat.m21 + mat.m22 * mat.m22)),
   Scalar.atan2 mat.m10 mat.m00⟩

/-! ## Planner state -/

/-- Template parameter `ActionDim`. The source adds a control column to a
state and fills a state from a translation and three Euler angles, so
`StateDim = ActionDim = 6` is the only instantiation that builds. -/
def ActionDim : Nat := 6

/-- Data members of `PlannerMpc` with the defaults of the source. Point
clouds are lists of points, and a null cloud or tree pointer is `none`
(`ee_mesh_cloud` is a list: a null and an empty mesh cloud are treated alike
by the code that reads it). The box corners leave out the homogeneous `1`. -/
structure PlannerMpc (α : Type) [Scalar α] where
  H_0 : Isometry α := Isometry.identity
  H_goal : Isometry α := Isometry.identity
  w_p : α := Scalar.lit 100
  w_q : α := Scalar.lit 10
  w_p_term : α := Scalar.lit 1000
  w_q_term : α := Scalar.lit 1000
  w_look_at_goal : α := Scalar.lit 10
  alpha_visibility : α := Scalar.lit (1 / 5)
  visibility_fov : α := Scalar.lit 60
  visibility_min_range : α := Scalar.lit 0
  visibility_max_range : α := Scalar.lit (1 / 2)
  min_visible_ratio : α := Scalar.lit (1 / 2)
  min_visible_points : Int := 0
  look_at_goal_distance : α := Scalar.lit (11 / 100)
  w_obs : α := Scalar.lit 5
  obstacle_cloud : Option (List (Vec3 α)) := none
  ee_mesh_cloud : List (Vec3 α) := []
  kd_tree : Option (KdTreeFLANN α) := none
  collision_margin : α := Scalar.lit (1 / 20)
  box_min : Vec3 α := ⟨Scalar.lit (-2 / 25), Scalar.lit (-2 / 25), Scalar.lit (-2 / 25)⟩
  box_max : Vec3 α := ⟨Scalar.lit (2 / 25), Scalar.lit (2 / 25), Scalar.lit (2 / 25)⟩
  dp_min : α := Scalar.lit (-1 / 10)
  dp_max : α := Scalar.lit (1 / 10)
  dtheta_min : α := Scalar.lit (-1 / 10)
  dtheta_max : α := Scalar.lit (1 / 10)
  num_samples : Int := 2048
  mppi_lambda : α := Scalar.lit 1
  noise_std_pos : α := Scalar.lit (1 / 100)
  noise_std_ori : α := Scalar.lit (1 / 20)
  U : List α := []
  position_tolerance : α := Scalar.lit (1 / 100)
  orientation_tolerance : α := Scalar.lit (1 / 100)
  max_iterations : Int := 20
  fusion_position_tolerance : α := Scalar.lit (1 / 100)
  fusion_orientation_tolerance : α := Scalar.lit (1 / 10)

/-! ## Dynamics rollout -/

/-- Column `U_mat.col(k)` of `rollout`: entry `i` is `U_in[ActionDim * k + i]`.
The source reads inside the buffer only when `U_in` has `ActionDim *
HorizonDim` entries; a read outside it is the zero literal here. -/
def controlColumn (U_in : List α) (k : Nat) : Vec6 α :=
  fun i => U_in.getD (ActionDim * k + i.val) (Scalar.lit 0)

/-- Start state of `rollout`:
`trajectory[0] << H_0.translation(), mat_to_rpy_intrinsic(H_0.rotation())`. -/
def initialState (H_0 : Isometry α) : Vec6 α :=
  mkVec6 H_0.translation (mat_to_rpy_intrinsic H_0.linear)

/-- Integrator loop of `rollout`: `steps` more states after the state
`s = trajectory[k]`, each `trajectory[k + 1] = trajectory[k] + U_mat.col(k)`. -/
def rolloutFrom (U_in : List α) : Nat → Nat → Vec6 α → List (Vec6 α)
  | 0, _, s => [s]
  | steps + 1, k, s => s :: rolloutFrom U_in steps (k + 1) (s + controlColumn U_in k)

/-- Source `PlannerMpc::rollout`, for the current pose `H_0`. -/
def rollout (HorizonDim : Nat) (H_0 : Isometry α) (U_in : List α) : List (Vec6 α) :=
  rolloutFrom U_in HorizonDim 0 (initialState H_0)

/-! ## Waypoint fusion -/

/-- Body of the loop of `fuseWaypoints` for the interior waypoint `w`:
`fused.back()` is compared with `w`; within both tolerances nothing is
stored (the averaging is commented out in the source), otherwise `w` is
pushed. `fused` is never empty there, so the default of `getLastD` is not
used. -/
def fuseStep (p : PlannerMpc α) (fused : List (Isometry α)) (w : Isometry α) :
    List (Isometry α) :=
  let diff := homogeneousError (fused.getLastD w) w
  let pos_diff := (head3 diff).norm
  let ori_diff := (tail3 diff).norm
  if Scalar.lt pos_diff p.fusion_position_tolerance
      && Scalar.lt ori_diff p.fusion_orientation_tolerance then
    fused
  else
    fused ++ [w]

/-- Source `PlannerMpc::fuseWaypoints`: the front is pushed, the loop runs
over the indices `1 .. size - 2`, and the back is pushed. -/
def fuseWaypoints (p : PlannerMpc α) (waypoints : List (Isometry α)) : List (Isometry α) :=
  match waypoints with
  | [] => []
  | front :: rest => rest.dropLast.foldl (fuseStep p) [front] ++ [rest.getLastD front]

/-! ## Waypoint generation -/

/-- Pose `H_next` of one iteration of `generateWaypoints`: the state
`states[1]` of the rollout of `U_opt`, turned into an isometry. `states[1]`
exists when `HorizonDim >= 1`. -/
def nextPose (HorizonDim : Nat) (H_0 : Isometry α) (U_opt : List α) : Isometry α :=
  let states := rollout HorizonDim H_0 U_opt
  let next_s := states.getD 1 (fun _ => Scalar.lit 0)
  stateToIsometry (head3 next_s) (tail3 next_s)

/-- Convergence test of `generateWaypoints`:
`pos_err < position_tolerance && ori_err < orientation_tolerance`. -/
def withinTolerance (p : PlannerMpc α) (H_next H_goal : Isometry α) : Bool :=
  let err := homogeneousError H_next H_goal
  let pos_err := (head3 err).norm
  let ori_err := (tail3 err).norm
  Scalar.lt pos_err p.position_tolerance && Scalar.lt ori_err p.orientation_tolerance

/-- Assignment `waypoints.back() = H`. -/
def setBack (waypoints : List (Isometry α)) (H : Isometry α) : List (Isometry α) :=
  waypoints.dropLast ++ [H]

/-- The `for (iter = 0; iter < max_iterations; ++iter)` loop of
`generateWaypoints`, entered at `iter` with current pose `H_0`. The
optimizer call `getAction(H_0)` is a parameter: it stands for whatever
control sequence the solver returns at its `calls`-th invocation. The
result is the raw waypoint list and the number of optimizer invocations. -/
def generateWaypointsLoop (HorizonDim : Nat) (p : PlannerMpc α)
    (getAction : Nat → Isometry α → List α) (H_goal : Isometry α)
    (iter : Int) (H_0 : Isometry α) (waypoints : List (Isometry α)) (calls : Nat) :
    List (Isometry α) × Nat :=
  if iter < p.max_iterations then
    let U_opt := getAction calls H_0
    let H_next := nextPose HorizonDim H_0 U_opt
    if withinTolerance p H_next H_goal || iter == p.max_iterations - 1 then
      (setBack waypoints H_goal, calls + 1)
    else
      generateWaypointsLoop HorizonDim p getAction H_goal (iter + 1) H_next
        (waypoints ++ [H_next]) (calls + 1)
  else
    (waypoints, calls)
termination_by (p.max_iterations - iter).toNat
decreasing_by omega

/-- What a call of `generateWaypoints` leaves behind: the returned
waypoints, how often the optimizer ran, and the member
`min_visible_points` it set. -/
structure GenerateResult (α : Type) where
  waypoints : List (Isometry α)
  optimizer_calls : Nat
  min_visible_points : Int

/-- Source `PlannerMpc::generateWaypoints`. The first statement after the
assignments reads `obstacle_cloud->points.size()`: with a null cloud there
is no result. Timing and the printed visibility average do not reach the
returned list. -/
def generateWaypoints (HorizonDim : Nat) (p : PlannerMpc α)
    (getAction : Nat → Isometry α → List α) (init goal : Isometry α) :
    Option (GenerateResult α) :=
  match p.obstacle_cloud with
  | none => none
  | some cloud =>
    let raw := generateWaypointsLoop HorizonDim p getAction goal 0 init [init] 0
    some { waypoints := fuseWaypoints p raw.1,
           optimizer_calls := raw.2,
           min_visible_points := Scalar.toInt (p.min_visible_ratio * Scalar.ofNat cloud.length) }

end Generic

/-! ## Spatial queries and cost model -/

section CostModel

variable {α : Type} [Scalar α]

/-- Componentwise sum of two 3-vectors. -/
def Vec3.add (a b : Vec3 α) : Vec3 α :=
  ⟨a.x + b.x, a.y + b.y, a.z + b.z⟩

/-- Dot product, `a.dot(b)`. -/
def Vec3.dot (a b : Vec3 α) : α :=
  a.x * b.x + a.y * b.y + a.z * b.z

/-- Sum of the squares of the entries, `v.squaredNorm()`. -/
def Vec3.squaredNorm (v : Vec3 α) : α :=
  v.x * v.x + v.y * v.y + v.z * v.z

/-- Division of every entry by a scalar, `v /= s`. -/
def Vec3.divScalar (v : Vec3 α) (s : α) : Vec3 α :=
  ⟨v.x / s, v.y / s, v.z / s⟩

/-- Matrix times column vector. -/
def Mat3.mulVec (a : Mat3 α) (v : Vec3 α) : Vec3 α :=
  ⟨a.m00 * v.x + a.m01 * v.y + a.m02 * v.z,
   a.m10 * v.x + a.m11 * v.y + a.m12 * v.z,
   a.m20 * v.x + a.m21 * v.y + a.m22 * v.z⟩

/-- Third column, `mat.col(2)`. -/
def Mat3.col2 (a : Mat3 α) : Vec3 α := ⟨a.m02, a.m12, a.m22⟩

/-- Inverse of an isometry as Eigen computes it for the `Isometry` mode:
the transposed rotation and the translation `-(Rᵀ t)`. -/
def Isometry.inverse (H : Isometry α) : Isometry α :=
  let Rt := H.linear.transpose
  let t := Rt.mulVec H.translation
  ⟨Rt, ⟨-t.x, -t.y, -t.z⟩⟩

/-- Rotation block of the constant `cam2robot` of `getFrustrumCloud`
(`0 0 1 / 0 -1 0 / 1 0 0`); its translation column is zero. -/
def cam2robot : Mat3 α :=
  ⟨Scalar.lit 0, Scalar.lit 0, Scalar.lit 1,
   Scalar.lit 0, Scalar.lit (-1), Scalar.lit 0,
   Scalar.lit 1, Scalar.lit 0, Scalar.lit 0⟩

/-- Source `getFrustrumCloud`: a null pointer (`none`) for a null or empty
cloud, otherwise the points the frustum filter keeps for the camera pose
`pose.matrix() * cam2robot`, with the same field of view in both directions. -/
def getFrustrumCloud (pcl : PclFilters α) (cloud : Option (List (Vec3 α)))
    (fov_degs near_plane far_plane : α) (pose : Isometry α) : Option (List (Vec3 α)) :=
  match cloud with
  | none => none
  | some points =>
    if points.isEmpty then none
    else
      some (pcl.frustumCulling points fov_degs fov_degs near_plane far_plane
        ⟨pose.linear.mul cam2robot, pose.translation⟩)

/-- Source `getPointsInBox`: `0` for a null or empty cloud, otherwise the
number of points the crop-box filter keeps under the transform
`pose.inverse()`. -/
def getPointsInBox (pcl : PclFilters α) (cloud : Option (List (Vec3 α)))
    (pose : Isometry α) (box_min box_max : Vec3 α) : Nat :=
  match cloud with
  | none => 0
  | some points =>
    if points.isEmpty then 0
    else (pcl.cropBox points pose.inverse box_min box_max).length

/-- Value returned by `obstacleCost` once the search has found a neighbour
at the distance `nearest_dist`: the inverse-distance barrier below
`collision_margin`, zero from the margin on. -/
def obstacleCostAt (p : PlannerMpc α) (nearest_dist : α) : α :=
  if Scalar.lt nearest_dist p.collision_margin then
    let diff := (Scalar.lit 1 / nearest_dist) - (Scalar.lit 1 / p.collision_margin)
    Scalar.lit (1 / 2) * p.w_obs * diff * diff
  else
    Scalar.lit 0

/-- Source `PlannerMpc::obstacleCost`. The tree, its input cloud and the
cloud's points are checked before the search. -/
def obstacleCost (p : PlannerMpc α) (pose : Isometry α) : α :=
  match p.kd_tree with
  | none => Scalar.lit 0
  | some tree =>
    match tree.getInputCloud with
    | none => Scalar.lit 0
    | some points =>
      if points.isEmpty then Scalar.lit 0
      else
        match tree.nearestKSearch pose.translation with
        | none => Scalar.lit 0
        | some nn_dist2 => obstacleCostAt p (Scalar.sqrt nn_dist2)

/-- Body of the loop of `meshCollisionCost` for the mesh point `pt`: the
point is moved into the world frame and its nearest obstacle searched; a
neighbour closer than `collision_margin` adds
`w_obs * (1 / (2 * collision_margin)) * (d - collision_margin)^2`. -/
def meshPointCost (p : PlannerMpc α) (tree : KdTreeFLANN α) (pose : Isometry α)
    (total_cost : α) (pt : Vec3 α) : α :=
  let transformed_pt := (pose.linear.mulVec pt).add pose.translation
  match tree.nearestKSearch transformed_pt with
  | none => total_cost
  | some nn_dist2 =>
    let nearest_dist := Scalar.sqrt nn_dist2
    if Scalar.lt nearest_dist p.collision_margin then
      let cost := (Scalar.lit 1 / (Scalar.lit 2 * p.collision_margin))
        * (nearest_dist - p.collision_margin) * (nearest_dist - p.collision_margin)
      total_cost + p.w_obs * cost
    else
      total_cost

/-- Source `PlannerMpc::meshCollisionCost`. Only the mesh cloud is checked:
with mesh points present, `kd_tree->nearestKSearch` is called on the tree
pointer as it is, and a null tree gives no result (`none`). -/
def meshCollisionCost (p : PlannerMpc α) (pose : Isometry α) : Option α :=
  if p.ee_mesh_cloud.isEmpty then some (Scalar.lit 0)
  else
    match p.kd_tree with
    | none => none
    | some tree => some (p.ee_mesh_cloud.foldl (meshPointCost p tree pose) (Scalar.lit 0))

/-- Source `PlannerMpc::boxCollisionCost`. -/
def boxCollisionCost (pcl : PclFilters α) (p : PlannerMpc α) (pose : Isometry α) : α :=
  let count := getPointsInBox pcl p.obstacle_cloud pose p.box_min p.box_max
  p.w_obs * Scalar.ofNat count

/-- Source `PlannerMpc::poseCost`: weighted squared pose error to `H_goal`
plus the look-at-goal term. -/
def poseCost (p : PlannerMpc α) (pose : Isometry α) (wp wq : α) : α :=
  let e := homogeneousError pose p.H_goal
  let cost_pose := wp * (head3 e).squaredNorm + wq * (tail3 e).squaredNorm
  let look_at_goal := p.H_goal.translation.add
    (p.H_goal.linear.mulVec ⟨Scalar.lit 0, Scalar.lit 0, p.look_at_goal_distance⟩)
  let camera_z := pose.linear.col2
  let dir := look_at_goal.sub pose.translation
  let dist := dir.norm
  let cost_rot :=
    if Scalar.lt (Scalar.lit (1 / 100000000)) dist then
      let dir := dir.divScalar dist
      let c := camera_z.dot dir
      let c := if Scalar.lt (Scalar.lit 1) c then Scalar.lit 1 else c
      let c := if Scalar.lt c (Scalar.lit (-1)) then Scalar.lit (-1) else c
      let angle := Scalar.acos c
      p.w_look_at_goal * angle * angle
    else
      Scalar.lit 0
  cost_pose + cost_rot

/-- Source `PlannerMpc::visibilityCost`. Past the guard the cloud is neither
null nor empty, so `getFrustrumCloud` returns a cloud; the `none` branch is
never taken. -/
def visibilityCost (pcl : PclFilters α) (p : PlannerMpc α) (pose : Isometry α) : α :=
  match p.obstacle_cloud with
  | none => Scalar.lit 0
  | some points =>
    if points.isEmpty then Scalar.lit 0
    else
      match getFrustrumCloud pcl p.obstacle_cloud p.visibility_fov p.visibility_min_range
          p.visibility_max_range pose with
      | none => Scalar.lit 0
      | some frustum =>
        let v := Scalar.ofNat frustum.length
        let delta := Scalar.ofInt p.min_visible_points - v
        if Scalar.lt (Scalar.lit 0) delta then
          Scalar.exp (p.alpha_visibility * delta) - Scalar.lit 1
        else
          Scalar.lit 0

/-- Isometry of a rollout state, `stateToIsometry(s.head<3>(), s.tail<3>())`. -/
def stateToPose (s : Vec6 α) : Isometry α :=
  stateToIsometry (head3 s) (tail3 s)

/-- Body of the loop of `cost` for the state `traj[k]`:
`total_cost += pose_cost + mesh_cost + visibility_cost`. No result when the
mesh cost has none. -/
def costStep (pcl : PclFilters α) (p : PlannerMpc α) (total_cost : α) (s : Vec6 α) :
    Option α :=
  let pose := stateToPose s
  match meshCollisionCost p pose with
  | none => none
  | some mesh_cost =>
    let pose_cost := poseCost p pose p.w_p p.w_q
    let visibility_cost := visibilityCost pcl p pose
    some (total_cost + (pose_cost + mesh_cost + visibility_cost))

/-- Source `PlannerMpc::cost`: the loop runs over `traj[0 .. HorizonDim]`,
which are all the states of the rollout, and the terminal cost of
`traj[HorizonDim]` is added. The unused gradient argument is left out. -/
def cost (pcl : PclFilters α) (HorizonDim : Nat) (p : PlannerMpc α) (x : List α) : Option α :=
  let traj := rollout HorizonDim p.H_0 x
  match traj.foldlM (costStep pcl p) (Scalar.lit 0) with
  | none => none
  | some total_cost =>
    let pose_N := stateToPose (traj.getD HorizonDim (initialState p.H_0))
    some (total_cost + poseCost p pose_N p.w_p_term p.w_q_term)

end CostModel

/-! ## Optimizers: warm start, sampling, weights and horizon shift -/

section Optimizers

variable {α : Type} [Scalar α]

/-- Source `PlannerMpc::setAction`: the buffer is replaced when the size
matches; otherwise a message is printed and the buffer is left as it is. -/
def setAction (HorizonDim : Nat) (p : PlannerMpc α) (U_init : List α) : PlannerMpc α :=
  if U_init.length = ActionDim * HorizonDim then { p with U := U_init } else p

/-- Start of `getAction` and `getActionMPPI`: a buffer `U` of the wrong size
is replaced by `ActionDim * HorizonDim` zeros. -/
def warmStart (HorizonDim : Nat) (U : List α) : List α :=
  if U.length = ActionDim * HorizonDim then U
  else List.replicate (ActionDim * HorizonDim) (Scalar.lit 0)

/-- Shift loop of `getAction`:
`U[ActionDim * k + i] = U_opt[ActionDim * (k + 1) + i]` for
`k < HorizonDim - 1` and `i < ActionDim`, written into `U` in place. -/
def shiftControls (HorizonDim : Nat) (U U_opt : List α) : List α :=
  (List.range (HorizonDim - 1)).foldl
    (fun U k => (List.range ActionDim).foldl
      (fun U i => U.set (ActionDim * k + i)
        (U_opt.getD (ActionDim * (k + 1) + i) (Scalar.lit 0))) U) U

/-- Horizon shift of `getAction`: for `HorizonDim > 1` the shift loop
followed by `std::fill(U.end() - ActionDim, U.end(), 0)`, otherwise
`std::fill(U.begin(), U.end(), 0)`. -/
def recedeHorizon (HorizonDim : Nat) (U U_opt : List α) : List α :=
  if HorizonDim > 1 then
    let U1 := shiftControls HorizonDim U U_opt
    U1.take (U1.length - ActionDim) ++ List.replicate ActionDim (Scalar.lit 0)
  else
    U.map (fun _ => Scalar.lit 0)

/-- Source `PlannerMpc::getAction`, the NLopt solve taken as the parameter
`optimize`: it maps the warm start to the vector the solver leaves in
`U_opt` (the solution, or the last candidate when the solver throws). The
result is the returned sequence and the planner with `H_0` and `U` updated.
The printed final pose error does not reach either. -/
def getAction (HorizonDim : Nat) (p : PlannerMpc α) (optimize : List α → List α)
    (H0_in : Isometry α) : List α × PlannerMpc α :=
  if HorizonDim = 0 then
    ([], { p with H_0 := H0_in })
  else
    let U := warmStart HorizonDim p.U
    let U_opt := optimize U
    (U_opt, { p with H_0 := H0_in, U := recedeHorizon HorizonDim U U_opt })

/-- Function `std::min(a, b)`: `b` when `b < a`, else `a`. -/
def stdMin (a b : α) : α := if Scalar.lt b a then b else a

/-- Function `std::max(a, b)`: `b` when `a < b`, else `a`. -/
def stdMax (a b : α) : α := if Scalar.lt a b then b else a

/-- Entry `idx = k * ActionDim + j` of one candidate of `getActionMPPI`:
the warm-start entry plus the drawn value scaled by `exp(-k)`, clipped to
the position bounds for `j < 3` and to the orientation bounds otherwise.
`draw k j` is the value `dist(gen)` drawn for step `k` and axis `j`. -/
def sampleEntry (p : PlannerMpc α) (U : List α) (draw : Nat → Nat → α) (idx : Nat) : α :=
  let k := idx / ActionDim
  let j := idx % ActionDim
  let noise := draw k j * Scalar.exp (-Scalar.ofNat k)
  let value := U.getD idx (Scalar.lit 0) + noise
  if j < 3 then stdMax p.dp_min (stdMin p.dp_max value)
  else stdMax p.dtheta_min (stdMin p.dtheta_max value)

/-- One candidate control sequence of `getActionMPPI`: the loops over the
step `k` and the axis `j` write every index `k * ActionDim + j` once. -/
def sampleCandidate (HorizonDim : Nat) (p : PlannerMpc α) (U : List α)
    (draw : Nat → Nat → α) : List α :=
  (List.range (ActionDim * HorizonDim)).map (sampleEntry p U draw)

/-- Value of `*std::min_element(begin, end)`: the first element that no
later element is less than. The source has at least one candidate. -/
def minElement : List α → α
  | [] => Scalar.lit 0
  | c :: cs => cs.foldl (fun smallest x => if Scalar.lt x smallest then x else smallest) c

/-- Weights of `getActionMPPI` before normalisation,
`exp(-(candidate_costs[i] - min_cost) / lambda)`. -/
def rawWeights (lambda : α) (candidate_costs : List α) : List α :=
  candidate_costs.map (fun c => Scalar.exp (-(c - minElement candidate_costs) / lambda))

/-- Accumulated `weight_sum` of `getActionMPPI`. -/
def weightSum (weights : List α) : α :=
  weights.foldl (fun weight_sum w => weight_sum + w) (Scalar.lit 0)

/-- Normalised weights of `getActionMPPI`, `weights[i] /= weight_sum`. -/
def mppiWeights (lambda : α) (candidate_costs : List α) : List α :=
  (rawWeights lambda candidate_costs).map
    (fun w => w / weightSum (rawWeights lambda candidate_costs))

/-- Weighted average of `getActionMPPI`: starting from `dim` zeros,
`U_opt[j] += weights[i] * candidates[i][j]` for every candidate `i`. -/
def weightedAverage (dim : Nat) (weights : List α) (candidates : List (List α)) : List α :=
  (List.zip weights candidates).foldl
    (fun U_opt wc => List.zipWith (fun u c => u + wc.1 * c) U_opt wc.2)
    (List.replicate dim (Scalar.lit 0))

/-- Costs of all candidates, `candidate_costs[i] = cost(candidates[i], grad)`;
no result as soon as one evaluation has none. -/
def evalCosts (cost : List α → Option α) : List (List α) → Option (List α)
  | [] => some []
  | c :: cs =>
    match cost c, evalCosts cost cs with
    | some v, some vs => some (v :: vs)
    | _, _ => none

/-- Shift loop of `getActionMPPI`:
`U[k * ActionDim + j] = U_opt[(k + 1) * ActionDim + j]` for
`k < HorizonDim - 1` and `j < ActionDim`, written into `U` in place. -/
def shiftControlsMPPI (HorizonDim : Nat) (U U_opt : List α) : List α :=
  (List.range (HorizonDim - 1)).foldl
    (fun U k => (List.range ActionDim).foldl
      (fun U j => U.set (k * ActionDim + j)
        (U_opt.getD ((k + 1) * ActionDim + j) (Scalar.lit 0))) U) U

/-- Horizon shift of `getActionMPPI`: for `HorizonDim > 1` the shift loop
followed by `U[(HorizonDim - 1) * ActionDim + j] = 0` for `j < ActionDim`,
otherwise `U = U_opt`. -/
def recedeHorizonMPPI (HorizonDim : Nat) (U U_opt : List α) : List α :=
  if HorizonDim > 1 then
    (List.range ActionDim).foldl
      (fun U j => U.set ((HorizonDim - 1) * ActionDim + j) (Scalar.lit 0))
      (shiftControlsMPPI HorizonDim U U_opt)
  else
    U_opt

/-- Source `PlannerMpc::getActionMPPI`. `draw i k j` is the value the
generator of candidate `i` gives for step `k` and axis `j`; `cost` is the
member function `cost` of the planner with `H_0 = H0_in`. The result is the
returned sequence and the planner with `H_0` and `U` updated. -/
def getActionMPPI (HorizonDim : Nat) (p : PlannerMpc α) (draw : Nat → Nat → Nat → α)
    (cost : List α → Option α) (H0_in : Isometry α) : Option (List α × PlannerMpc α) :=
  if HorizonDim = 0 then
    some ([], { p with H_0 := H0_in })
  else
    let U := warmStart HorizonDim p.U
    let dim := ActionDim * HorizonDim
    let N := p.num_samples.toNat
    let candidates := (List.range N).map (fun i => sampleCandidate HorizonDim p U (draw i))
    match evalCosts cost candidates with
    | none => none
    | some candidate_costs =>
      let weights := mppiWeights p.mppi_lambda candidate_costs
      let U_opt := weightedAverage dim weights candidates
      some (U_opt, { p with H_0 := H0_in, U := recedeHorizonMPPI HorizonDim U U_opt })

end Optimizers

/-! ## Exact real arithmetic -/

/-- Exact real arithmetic: the operations of `Scalar` read in the real
numbers. `atan2 y x` is the argument of the complex number `x + y i`, which
is `std::atan2` on every input, `atan2(0, 0) = 0` included. The cast to
`int` truncates toward zero. Two operations are total here where `double`
is not: the cast has the value of `static_cast<int>` only for an argument
within the range of `int`, and a quotient has the value of the source only
for a divisor other than zero (`x / 0` is `0` here; in `double` it is a NaN
or an infinity). The theorems that reach one of them state the guard as a
hypothesis. -/
noncomputable instance realScalar : Scalar ℝ where
  lit q := (q : ℝ)
  sqrt := Real.sqrt
  sin := Real.sin
  cos := Real.cos
  atan2 y x := Complex.arg ⟨x, y⟩
  acos := Real.arccos
  exp := Real.exp
  half_pi := Real.pi / 2
  lt a b := decide (a < b)
  ofNat n := (n : ℝ)
  ofInt n := (n : ℝ)
  toInt x := if 0 ≤ x then ⌊x⌋ else ⌈x⌉

/-- Matrix of Mathlib with the same entries. -/
def Mat3.toMatrix (a : Mat3 ℝ) : Matrix (Fin 3) (Fin 3) ℝ :=
  !![a.m00, a.m01, a.m02; a.m10, a.m11, a.m12; a.m20, a.m21, a.m22]

/-- Orthonormal columns, `Rᵀ R = I`. -/
def Mat3.IsOrthonormal (R : Mat3 ℝ) : Prop :=
  R.transpose.mul R = Mat3.identity

/-- Rotation by the angle `θ` about the unit axis `n` (Rodrigues formula),
the meaning of "a rotation by angle theta about a unit axis" in the claims
on the orientation error. -/
noncomputable def axisAngleRotation (n : Vec3 ℝ) (θ : ℝ) : Mat3 ℝ :=
  ⟨Real.cos θ + (1 - Real.cos θ) * n.x * n.x,
   (1 - Real.cos θ) * n.x * n.y - Real.sin θ * n.z,
   (1 - Real.cos θ) * n.x * n.z + Real.sin θ * n.y,
   (1 - Real.cos θ) * n.y * n.x + Real.sin θ * n.z,
   Real.cos θ + (1 - Real.cos θ) * n.y * n.y,
   (1 - Real.cos θ) * n.y * n.z - Real.sin θ * n.x,
   (1 - Real.cos θ) * n.z * n.x - Real.sin θ * n.y,
   (1 - Real.cos θ) * n.z * n.y + Real.sin θ * n.x,
   Real.cos θ + (1 - Real.cos θ) * n.z * n.z⟩

/-- Pose at the origin turned by a quarter turn about the z axis. -/
noncomputable def quarterTurnZ : Isometry ℝ :=
  ⟨⟨0, -1, 0, 1, 0, 0, 0, 0, 1⟩, ⟨0, 0, 0⟩⟩

/-- Pose at the origin turned about the z axis by the angle with cosine
`-99999999/100000001` and sine `20000/100000001`, about `π - 0.0002`. -/
noncomputable def nearHalfTurnZ : Isometry ℝ :=
  ⟨⟨-99999999 / 100000001, -(20000 / 100000001), 0,
    20000 / 100000001, -99999999 / 100000001, 0,
    0, 0, 1⟩, ⟨0, 0, 0⟩⟩

/-- Pose at the origin with rotation `Rz(π/2) * Ry(π/2)`: its pitch is
`π/2`, the singular value of the Euler angles. -/
noncomputable def gimbalPose : Isometry ℝ :=
  ⟨⟨0, -1, 0, 0, 0, 1, -1, 0, 0⟩, ⟨0, 0, 0⟩⟩

/-- Pose at the origin with rotation `Ry(π/2)`, what `stateToIsometry`
rebuilds from the Euler angles read off `gimbalPose`. -/
noncomputable def gimbalRebuilt : Isometry ℝ :=
  ⟨⟨0, 0, 1, 0, 1, 0, -1, 0, 0⟩, ⟨0, 0, 0⟩⟩

/-- Optimizer that returns the zero control sequence at every invocation. -/
noncomputable def zeroOptimizer (HorizonDim : Nat) : Nat → Isometry ℝ → List ℝ :=
  fun _ _ => List.replicate (ActionDim * HorizonDim) 0

/-- Default planner with an empty obstacle cloud and `max_iterations = 3`. -/
noncomputable def plannerThreeIterations : PlannerMpc ℝ :=
  { obstacle_cloud := some [], max_iterations := 3 }

/-- Default planner with an empty obstacle cloud, `max_iterations = 2` and
both convergence tolerances set to zero. -/
noncomputable def plannerZeroTolerance : PlannerMpc ℝ :=
  { obstacle_cloud := some [], max_iterations := 2,
    position_tolerance := 0, orientation_tolerance := 0 }

/-- Default planner with an empty obstacle cloud and `max_iterations = 1`. -/
noncomputable def plannerOneIteration : PlannerMpc ℝ :=
  { obstacle_cloud := some [], max_iterations := 1 }

/-- Pose with the identity rotation at the point `(1, 0, 0)`. -/
noncomputable def unitStepX : Isometry ℝ :=
  ⟨Mat3.identity, ⟨1, 0, 0⟩⟩

/-- Pose with the identity rotation at the point `(1/200, 0, 0)`, half a
default position tolerance away from the identity pose. -/
noncomputable def nearStepX : Isometry ℝ :=
  ⟨Mat3.identity, ⟨1 / 200, 0, 0⟩⟩

/-- Number of obstacle points that `visibilityCost` counts for a pose: the
size of the cloud that `getFrustrumCloud` returns for the non-empty cloud
`points`. -/
def visibleCount {α : Type} [Scalar α] (pcl : PclFilters α) (p : PlannerMpc α)
    (points : List (Vec3 α)) (pose : Isometry α) : Nat :=
  (pcl.frustumCulling points p.visibility_fov p.visibility_fov p.visibility_min_range
    p.visibility_max_range ⟨pose.linear.mul cam2robot, pose.translation⟩).length

/-- Planner as default-constructed: no obstacle cloud, no tree, empty mesh. -/
noncomputable def defaultPlanner : PlannerMpc ℝ := {}

/-- Default-constructed planner with one end-effector mesh point loaded and
no tree. -/
noncomputable def plannerMeshNoTree : PlannerMpc ℝ :=
  { ee_mesh_cloud := [⟨0, 0, 0⟩] }

/-- Filters that keep every point of the input cloud. -/
noncomputable def keepAll : PclFilters ℝ :=
  ⟨fun points _ _ _ _ _ => points, fun points _ _ _ => points⟩

/-- Obstacle point at the midpoint between the identity pose and `goalPose`. -/
noncomputable def obstaclePoint : Vec3 ℝ := ⟨3 / 20, 0, 0⟩

/-- Goal pose with the identity rotation at the point `(0.3, 0, 0)`. -/
noncomputable def goalPose : Isometry ℝ := ⟨Mat3.identity, ⟨3 / 10, 0, 0⟩⟩

/-- Tree over the single point `o`: every search finds `o` and reports the
squared distance to it. -/
noncomputable def singlePointTree (o : Vec3 ℝ) : KdTreeFLANN ℝ :=
  ⟨some [o], fun q => some (q.sub o).squaredNorm⟩

/-- Tree over an empty cloud: no search finds a neighbour. -/
noncomputable def emptyTree : KdTreeFLANN ℝ :=
  ⟨some [], fun _ => none⟩

/-- Default-constructed planner with the goal `goalPose`, the single obstacle
point `obstaclePoint` as cloud and tree, and no end-effector mesh; the
member `min_visible_points` is `0`, what `generateWaypoints` computes from
`0.5 * 1`. -/
noncomputable def plannerWithObstacle : PlannerMpc ℝ :=
  { H_goal := goalPose, obstacle_cloud := some [obstaclePoint],
    kd_tree := some (singlePointTree obstaclePoint) }

/-- The planner `p` with no obstacle present: empty cloud and empty tree,
everything else as in `p`. -/
noncomputable def withoutObstacle (p : PlannerMpc ℝ) : PlannerMpc ℝ :=
  { p with obstacle_cloud := some [], kd_tree := some emptyTree }

/-- Two steps of `0.08` along x: from the identity pose the predicted poses
are at `0.08` and `0.16`, the second `0.01` away from `obstaclePoint`. -/
noncomputable def passingControls : List ℝ :=
  [2 / 25, 0, 0, 0, 0, 0, 2 / 25, 0, 0, 0, 0, 0]

/-- The planner `plannerWithObstacle` with one end-effector mesh point loaded,
at the origin of the end-effector frame. -/
noncomputable def plannerWithMesh : PlannerMpc ℝ :=
  { H_goal := goalPose, obstacle_cloud := some [obstaclePoint],
    kd_tree := some (singlePointTree obstaclePoint), ee_mesh_cloud := [⟨0, 0, 0⟩] }

/-- Default-constructed planner drawing a single candidate per MPPI step. -/
noncomputable def plannerOneSample : PlannerMpc ℝ :=
  { num_samples := 1 }

/-- Generator that gives `1/20` at every draw. -/
noncomputable def constantDraw : Nat → Nat → Nat → ℝ :=
  fun _ _ _ => 1 / 20

/-- Default-constructed planner whose warm-start buffer holds the two steps
`passingControls`. -/
noncomputable def plannerWarm : PlannerMpc ℝ :=
  { U := passingControls }

/-- Amount that `meshCollisionCost` adds to `total_cost` for a mesh point
whose nearest obstacle was found at the distance `nearest_dist`:
`w_obs * ((1 / (2 * collision_margin)) * (d - collision_margin)^2)` below
the margin, and zero (nothing is added) from the margin on. -/
def meshBarrierAt {α : Type} [Scalar α] (p : PlannerMpc α) (nearest_dist : α) : α :=
  if Scalar.lt nearest_dist p.collision_margin then
    p.w_obs * ((Scalar.lit 1 / (Scalar.lit 2 * p.collision_margin))
      * (nearest_dist - p.collision_margin) * (nearest_dist - p.collision_margin))
  else
    Scalar.lit 0

/-- Amount that the loop body of `meshCollisionCost` adds to `total_cost` for
the mesh point `pt`: zero when the search finds no neighbour, otherwise
`meshBarrierAt` at the distance `sqrt(nn_dist2[0])`. -/
def meshPointTerm {α : Type} [Scalar α] (p : PlannerMpc α) (tree : KdTreeFLANN α)
    (pose : Isometry α) (pt : Vec3 α) : α :=
  match tree.nearestKSearch ((pose.linear.mulVec pt).add pose.translation) with
  | none => Scalar.lit 0
  | some nn_dist2 => meshBarrierAt p (Scalar.sqrt nn_dist2)

/-- Member assignments at the start of `generateWaypoints`: `H_0 = init`,
`H_goal = goal` and
`min_visible_points = static_cast<int>(min_visible_ratio * obstacle_cloud->points.size())`,
with no result for a null cloud. The result is the planner whose cost terms
the optimizer evaluates during the call (the loop later moves `H_0` only). -/
def generateWaypointsSetup {α : Type} [Scalar α] (p : PlannerMpc α) (init goal : Isometry α) :
    Option (PlannerMpc α) :=
  match p.obstacle_cloud with
  | none => none
  | some cloud =>
    some { p with
      H_0 := init,
      H_goal := goal,
      min_visible_points := Scalar.toInt (p.min_visible_ratio * Scalar.ofNat cloud.length) }

/-- Three obstacle points on the x axis. -/
noncomputable def threePoints : List (Vec3 ℝ) :=
  [⟨1 / 10, 0, 0⟩, ⟨1 / 5, 0, 0⟩, ⟨3 / 10, 0, 0⟩]

/-- Default-constructed planner (`min_visible_ratio = 0.5`) with the cloud
`threePoints`. -/
noncomputable def plannerThreePoints : PlannerMpc ℝ :=
  { obstacle_cloud := some threePoints }

/-- Filters for a camera that sees one point only: the frustum filter keeps
the first point of the cloud, the crop box keeps every point. -/
noncomputable def keepFirst : PclFilters ℝ :=
  ⟨fun points _ _ _ _ _ => points.take 1, fun points _ _ _ => points⟩

/-- Pose at the origin turned by a half turn about the z axis. -/
noncomputable def halfTurnZ : Isometry ℝ :=
  ⟨⟨-1, 0, 0, 0, -1, 0, 0, 0, 1⟩, ⟨0, 0, 0⟩⟩

/-- Default-constructed planner with an empty obstacle cloud: tolerances
`0.01`, step bounds `±0.1` and `max_iterations = 20`. -/
noncomputable def plannerEmptyCloud : PlannerMpc ℝ :=
  { obstacle_cloud := some [] }

/-- Real numbers with one more value, `nan`, for the NaN of `double`. -/
inductive NanReal where
  | nan : NanReal
  | fin : ℝ → NanReal

/-- Operation of one argument that has a real value on every real number;
a NaN argument gives NaN. -/
noncomputable def NanReal.map (f : ℝ → ℝ) : NanReal → NanReal
  | NanReal.fin x => NanReal.fin (f x)
  | NanReal.nan => NanReal.nan

/-- Operation of two arguments that has a real value on every pair of real
numbers; a NaN argument gives NaN. -/
noncomputable def NanReal.map2 (f : ℝ → ℝ → ℝ) : NanReal → NanReal → NanReal
  | NanReal.fin x, NanReal.fin y => NanReal.fin (f x y)
  | _, _ => NanReal.nan

/-- Quotient: NaN for a divisor zero and for a NaN operand. For `0 / 0` this
is the NaN of `double`; a number other than zero divided by zero is an
infinity in `double`, which this arithmetic does not have and which is NaN
here as well. -/
noncomputable def NanReal.div : NanReal → NanReal → NanReal
  | NanReal.fin x, NanReal.fin y => if y = 0 then NanReal.nan else NanReal.fin (x / y)
  | _, _ => NanReal.nan

/-- Square root, `std::sqrt`: NaN for a negative number. -/
noncomputable def NanReal.sqrt : NanReal → NanReal
  | NanReal.fin x => if x < 0 then NanReal.nan else NanReal.fin (Real.sqrt x)
  | NanReal.nan => NanReal.nan

/-- Arc cosine, `std::acos`: NaN outside `[-1, 1]`. -/
noncomputable def NanReal.acos : NanReal → NanReal
  | NanReal.fin x => if x < -1 ∨ 1 < x then NanReal.nan else NanReal.fin (Real.arccos x)
  | NanReal.nan => NanReal.nan

/-- Comparison `<`: false as soon as one side is NaN. -/
noncomputable def NanReal.lt : NanReal → NanReal → Bool
  | NanReal.fin x, NanReal.fin y => decide (x < y)
  | _, _ => false

/-- Cast to `int`: truncation toward zero of a number. The cast of a NaN is
undefined in the source; it is `0` here. -/
noncomputable def NanReal.toInt : NanReal → Int
  | NanReal.fin x => if 0 ≤ x then ⌊x⌋ else ⌈x⌉
  | NanReal.nan => 0

/-- Real arithmetic with a NaN: on numbers the operations are those of
`realScalar`, except that an operation without a real value gives `nan`;
every operation on a NaN gives NaN and every comparison with a NaN is false,
as in `double`. There is no rounding, no overflow and no infinity. -/
noncomputable instance nanScalar : Scalar NanReal where
  add := NanReal.map2 (fun x y => x + y)
  sub := NanReal.map2 (fun x y => x - y)
  mul := NanReal.map2 (fun x y => x * y)
  div := NanReal.div
  neg := NanReal.map (fun x => -x)
  lit q := NanReal.fin (q : ℝ)
  sqrt := NanReal.sqrt
  sin := NanReal.map Real.sin
  cos := NanReal.map Real.cos
  atan2 := NanReal.map2 (fun y x => Complex.arg ⟨x, y⟩)
  acos := NanReal.acos
  exp := NanReal.map Real.exp
  half_pi := NanReal.fin (Real.pi / 2)
  lt := NanReal.lt
  ofNat n := NanReal.fin (n : ℝ)
  ofInt n := NanReal.fin (n : ℝ)
  toInt := NanReal.toInt

theorem head3_mkVec6 {α : Type} (h t : Vec3 α) : head3 (mkVec6 h t) = h := rfl

theorem tail3_mkVec6 {α : Type} (h t : Vec3 α) : tail3 (mkVec6 h t) = t := rfl

section GenericProofs

variable {α : Type} [Scalar α]

theorem fuseStep_cases (p : PlannerMpc α) (fused : List (Isometry α)) (w : Isometry α) :
    fuseStep p fused w = fused ∨ fuseStep p fused w = fused ++ [w] := by
  unfold fuseStep
  simp only
  split
  · exact Or.inl rfl
  · exact Or.inr rfl

theorem foldl_fuseStep (p : PlannerMpc α) (l : List (Isometry α)) :
    ∀ acc : List (Isometry α), ∃ s : List (Isometry α),
      l.foldl (fuseStep p) acc = acc ++ s ∧ s.length ≤ l.length := by
  induction l with
  | nil => intro acc; exact ⟨[], by simp, by simp⟩
  | cons w l ih =>
    intro acc
    rcases fuseStep_cases p acc w with h | h
    · obtain ⟨s, hs, hl⟩ := ih acc
      refine ⟨s, ?_, ?_⟩
      · simp [List.foldl_cons, h, hs]
      · simp; omega
    · obtain ⟨s, hs, hl⟩ := ih (acc ++ [w])
      refine ⟨w :: s, ?_, ?_⟩
      · simp [List.foldl_cons, h, hs]
      · simp; omega

theorem fuseWaypoints_cons (p : PlannerMpc α) (front : Isometry α) (rest : List (Isometry α)) :
    ∃ s : List (Isometry α),
      fuseWaypoints p (front :: rest) = (front :: s) ++ [rest.getLastD front]
        ∧ s.length ≤ rest.length - 1 := by
  obtain ⟨s, hs, hl⟩ := foldl_fuseStep p rest.dropLast [front]
  refine ⟨s, ?_, ?_⟩
  · simp [fuseWaypoints, hs]
  · simpa using hl

theorem fuseWaypoints_singleton (p : PlannerMpc α) (P : Isometry α) :
    fuseWaypoints p [P] = [P, P] := rfl

theorem getLast?_cons_getLastD (p : PlannerMpc α) (front : Isometry α)
    (rest : List (Isometry α)) :
    (front :: rest).getLast? = some (rest.getLastD front) := by
  have _hp := p
  cases rest with
  | nil => rfl
  | cons a l => simp [List.getLast?_cons_cons, List.getLast?_eq_getLast, List.getLastD]

theorem fuseWaypoints_length (p : PlannerMpc α) (w : List (Isometry α)) :
    (fuseWaypoints p w).length ≤ max 2 w.length := by
  cases w with
  | nil => simp [fuseWaypoints]
  | cons front rest =>
    obtain ⟨s, hs, hl⟩ := fuseWaypoints_cons p front rest
    rw [hs]
    simp only [List.length_append, List.length_cons, List.length_nil]
    omega

theorem fuseWaypoints_ends (p : PlannerMpc α) (w : List (Isometry α)) :
    (fuseWaypoints p w).head? = w.head?
      ∧ (fuseWaypoints p w).getLast? = w.getLast?
      ∧ (fuseWaypoints p w = [] ↔ w = []) := by
  cases w with
  | nil => simp [fuseWaypoints]
  | cons front rest =>
    obtain ⟨s, hs, _⟩ := fuseWaypoints_cons p front rest
    refine ⟨?_, ?_, ?_⟩
    · rw [hs]; rfl
    · rw [hs, getLast?_cons_getLastD p, List.getLast?_append]
      rfl
    · rw [hs]; simp

theorem setBack_props (p : PlannerMpc α) (w : List (Isometry α)) (H : Isometry α) :
    setBack w H ≠ [] ∧ (setBack w H).getLast? = some H
      ∧ (w ≠ [] → (setBack w H).length = w.length)
      ∧ (2 ≤ w.length → (setBack w H).head? = w.head?) := by
  have _hp := p
  refine ⟨by simp [setBack], by simp [setBack], ?_, ?_⟩
  · intro hw
    simp only [setBack, List.length_append, List.length_dropLast, List.length_cons,
      List.length_nil]
    have := List.length_pos.mpr hw
    omega
  · intro h2
    match w, h2 with
    | a :: b :: l, _ => simp [setBack, List.dropLast]

/-- Invariant of the loop of `generateWaypoints`, entered with a non-empty
waypoint list: the list stays non-empty; if the loop body runs at all the
list ends at the goal; every iteration but the last budgeted one adds at
most one waypoint; the optimizer runs at most once per remaining iteration;
and a list of two or more waypoints keeps its first element. -/
theorem generateWaypointsLoop_invariant (HorizonDim : Nat) (p : PlannerMpc α)
    (getAction : Nat → Isometry α → List α) (H_goal : Isometry α)
    (iter : Int) (H_0 : Isometry α) (waypoints : List (Isometry α)) (calls : Nat)
    (hne : waypoints ≠ []) :
    (generateWaypointsLoop HorizonDim p getAction H_goal iter H_0 waypoints calls).1 ≠ []
      ∧ (iter < p.max_iterations →
          (generateWaypointsLoop HorizonDim p getAction H_goal iter H_0 waypoints calls).1.getLast?
            = some H_goal)
      ∧ (generateWaypointsLoop HorizonDim p getAction H_goal iter H_0 waypoints calls).1.length
          ≤ waypoints.length + (p.max_iterations - 1 - iter).toNat
      ∧ (generateWaypointsLoop HorizonDim p getAction H_goal iter H_0 waypoints calls).2
          ≤ calls + (p.max_iterations - iter).toNat
      ∧ (2 ≤ waypoints.length →
          (generateWaypointsLoop HorizonDim p getAction H_goal iter H_0 waypoints calls).1.head?
            = waypoints.head?) := by
  induction iter, H_0, waypoints, calls
    using generateWaypointsLoop.induct HorizonDim p getAction H_goal with
  | case1 iter H_0 waypoints calls hlt U_opt H_next hexit =>
    rw [generateWaypointsLoop, if_pos hlt]
    simp only [U_opt, H_next] at hexit
    simp only
    rw [if_pos hexit]
    obtain ⟨h1, h2, h3, h4⟩ := setBack_props p waypoints H_goal
    refine ⟨h1, fun _ => h2, ?_, ?_, h4⟩
    · simp only [h3 hne]; omega
    · simp only; omega
  | case2 iter H_0 waypoints calls hlt U_opt H_next hexit ih =>
    rw [generateWaypointsLoop, if_pos hlt]
    simp only [U_opt, H_next] at hexit ih
    simp only
    rw [if_neg hexit]
    have hlast : iter ≠ p.max_iterations - 1 := by
      intro h
      apply hexit
      simp [h]
    obtain ⟨i1, i2, i3, i4, i5⟩ := ih (by simp)
    refine ⟨i1, fun _ => i2 (by omega), ?_, ?_, ?_⟩
    · simp only [List.length_append, List.length_cons, List.length_nil] at i3
      omega
    · omega
    · intro h2
      rw [i5 (by simp only [List.length_append, List.length_cons, List.length_nil]; omega)]
      match waypoints, h2 with
      | a :: l, _ => rfl
  | case3 iter H_0 waypoints calls hge =>
    rw [generateWaypointsLoop, if_neg hge]
    refine ⟨hne, fun h => absurd h hge, ?_, ?_, fun _ => rfl⟩
    · simp only; omega
    · simp only; omega

theorem generateWaypoints_of_cloud (HorizonDim : Nat) (p : PlannerMpc α)
    (getAction : Nat → Isometry α → List α) (init goal : Isometry α)
    (cloud : List (Vec3 α)) (hcloud : p.obstacle_cloud = some cloud) :
    generateWaypoints HorizonDim p getAction init goal
      = some
          { waypoints := fuseWaypoints p
              (generateWaypointsLoop HorizonDim p getAction goal 0 init [init] 0).1,
            optimizer_calls :=
              (generateWaypointsLoop HorizonDim p getAction goal 0 init [init] 0).2,
            min_visible_points :=
              Scalar.toInt (p.min_visible_ratio * Scalar.ofNat cloud.length) } := by
  simp only [generateWaypoints, hcloud]

theorem generateWaypoints_last (HorizonDim : Nat) (p : PlannerMpc α)
    (getAction : Nat → Isometry α → List α) (init goal : Isometry α)
    (hmax : 1 ≤ p.max_iterations) :
    fuseWaypoints p (generateWaypointsLoop HorizonDim p getAction goal 0 init [init] 0).1 ≠ []
      ∧ (fuseWaypoints p
          (generateWaypointsLoop HorizonDim p getAction goal 0 init [init] 0).1).getLast?
            = some goal := by
  obtain ⟨h1, h2, _⟩ :=
    generateWaypointsLoop_invariant HorizonDim p getAction goal 0 init [init] 0 (by simp)
  obtain ⟨_, f2, f3⟩ := fuseWaypoints_ends p
    (generateWaypointsLoop HorizonDim p getAction goal 0 init [init] 0).1
  exact ⟨fun h => h1 (f3.mp h), f2.trans (h2 (by omega))⟩

/-! ## Rollout -/

theorem rolloutFrom_length (U_in : List α) (steps k : Nat) (s : Vec6 α) :
    (rolloutFrom U_in steps k s).length = steps + 1 := by
  induction steps generalizing k s with
  | zero => rfl
  | succ n ih => simp [rolloutFrom, ih]

theorem rolloutFrom_zero (U_in : List α) (steps k : Nat) (s : Vec6 α) :
    (rolloutFrom U_in steps k s)[0]? = some s := by
  cases steps <;> simp [rolloutFrom]

theorem rolloutFrom_step (U_in : List α) (steps k : Nat) (s : Vec6 α) (j : Nat)
    (hj : j < steps) :
    ∃ a b : Vec6 α, (rolloutFrom U_in steps k s)[j]? = some a
      ∧ (rolloutFrom U_in steps k s)[j + 1]? = some b
      ∧ b = a + controlColumn U_in (k + j) := by
  induction steps generalizing k s j with
  | zero => omega
  | succ n ih =>
    cases j with
    | zero =>
      exact ⟨s, s + controlColumn U_in k, rolloutFrom_zero U_in (n + 1) k s, by
        simp only [rolloutFrom, zero_add, List.getElem?_cons_succ]
        exact rolloutFrom_zero U_in n (k + 1) _, rfl⟩
    | succ j =>
      obtain ⟨a, b, ha, hb, hab⟩ := ih (k + 1) (s + controlColumn U_in k) j (by omega)
      refine ⟨a, b, ?_, ?_, ?_⟩
      · simpa only [rolloutFrom, List.getElem?_cons_succ] using ha
      · simpa only [rolloutFrom, List.getElem?_cons_succ] using hb
      · rw [hab, show k + 1 + j = k + (j + 1) by omega]

theorem controlColumn_getElem (U_in : List α) (HorizonDim k : Nat)
    (hlen : U_in.length = ActionDim * HorizonDim) (hk : k < HorizonDim) (i : Fin 6) :
    U_in[ActionDim * k + i.val]? = some (controlColumn U_in k i) := by
  have hi := i.isLt
  have hlt : ActionDim * k + i.val < U_in.length := by
    rw [hlen]
    simp only [ActionDim]
    omega
  simp [controlColumn, List.getD, List.getElem?_eq_getElem hlt]

end GenericProofs

/-! ## Facts of exact real arithmetic -/

section RealProofs

@[simp] theorem lit_real (q : ℚ) : (Scalar.lit q : ℝ) = (q : ℝ) := rfl

@[simp] theorem sqrt_real (x : ℝ) : Scalar.sqrt x = Real.sqrt x := rfl

@[simp] theorem sin_real (x : ℝ) : Scalar.sin x = Real.sin x := rfl

@[simp] theorem cos_real (x : ℝ) : Scalar.cos x = Real.cos x := rfl

@[simp] theorem atan2_real (y x : ℝ) : Scalar.atan2 y x = Complex.arg ⟨x, y⟩ := rfl

@[simp] theorem half_pi_real : (Scalar.half_pi : ℝ) = Real.pi / 2 := rfl

@[simp] theorem lt_real (a b : ℝ) : Scalar.lt a b = decide (a < b) := rfl

theorem Mat3.ext_iff_real (a b : Mat3 ℝ) : a = b ↔ a.toMatrix = b.toMatrix := by
  constructor
  · intro h; rw [h]
  · intro h
    cases a; cases b
    simp only [Mat3.toMatrix] at h
    have e := fun i j => congrFun (congrFun h i) j
    have e00 := e 0 0; have e01 := e 0 1; have e02 := e 0 2
    have e10 := e 1 0; have e11 := e 1 1; have e12 := e 1 2
    have e20 := e 2 0; have e21 := e 2 1; have e22 := e 2 2
    simp at e00 e01 e02 e10 e11 e12 e20 e21 e22
    simp [*]

theorem Mat3.toMatrix_mul (a b : Mat3 ℝ) : (a.mul b).toMatrix = a.toMatrix * b.toMatrix := by
  ext i j
  fin_cases i <;> fin_cases j <;>
    simp [Mat3.toMatrix, Mat3.mul, Matrix.mul_apply, Fin.sum_univ_three, add_assoc]

theorem Mat3.toMatrix_transpose (a : Mat3 ℝ) : a.transpose.toMatrix = a.toMatrix.transpose := by
  ext i j
  fin_cases i <;> fin_cases j <;> simp [Mat3.toMatrix, Mat3.transpose]

theorem Mat3.toMatrix_identity : (Mat3.identity : Mat3 ℝ).toMatrix = 1 := by
  ext i j
  fin_cases i <;> fin_cases j <;>
    simp [Mat3.toMatrix, Mat3.identity, Matrix.vecHead, Matrix.vecTail]

/-- Orthonormal columns give orthonormal rows: `R Rᵀ = I`. -/
theorem Mat3.IsOrthonormal.mul_transpose {R : Mat3 ℝ} (h : R.IsOrthonormal) :
    R.mul R.transpose = Mat3.identity := by
  rw [Mat3.ext_iff_real, Mat3.toMatrix_mul, Mat3.toMatrix_transpose, Mat3.toMatrix_identity]
  have h1 : R.toMatrix.transpose * R.toMatrix = 1 := by
    rw [← Mat3.toMatrix_transpose, ← Mat3.toMatrix_mul, ← Mat3.toMatrix_identity]
    exact congrArg Mat3.toMatrix h
  exact Matrix.mul_eq_one_comm.mp h1

theorem Mat3.IsOrthonormal.mul {a b : Mat3 ℝ} (ha : a.IsOrthonormal) (hb : b.IsOrthonormal) :
    (a.mul b).IsOrthonormal := by
  unfold Mat3.IsOrthonormal at *
  rw [Mat3.ext_iff_real, Mat3.toMatrix_identity] at *
  rw [Mat3.toMatrix_mul, Mat3.toMatrix_transpose] at *
  rw [Mat3.toMatrix_mul, Matrix.transpose_mul, Matrix.mul_assoc,
    ← Matrix.mul_assoc a.toMatrix.transpose, ha, Matrix.one_mul, hb]

/-- The value of `atan2` at a point given in polar form. -/
theorem atan2_polar (ρ θ : ℝ) (hρ : 0 < ρ) (h1 : -Real.pi < θ) (h2 : θ ≤ Real.pi) :
    Complex.arg ⟨ρ * Real.cos θ, ρ * Real.sin θ⟩ = θ := by
  have h := Complex.arg_mul_cos_add_sin_mul_I hρ (Set.mem_Ioc.mpr ⟨h1, h2⟩)
  have key : (⟨ρ * Real.cos θ, ρ * Real.sin θ⟩ : ℂ)
      = (ρ : ℂ) * (Complex.cos θ + Complex.sin θ * Complex.I) := by
    apply Complex.ext <;> simp [Complex.cos_ofReal_re, Complex.sin_ofReal_re]
  rw [key]
  exact h

theorem arg_origin : Complex.arg ⟨0, 0⟩ = 0 := by
  have : (⟨0, 0⟩ : ℂ) = 0 := rfl
  rw [this, Complex.arg_zero]

theorem arg_up : Complex.arg ⟨0, 1⟩ = Real.pi / 2 := by
  have : (⟨0, 1⟩ : ℂ) = Complex.I := rfl
  rw [this, Complex.arg_I]

/-! ### Euler angles -/

theorem stateToIsometry_linear (t : Vec3 ℝ) (roll pitch yaw : ℝ) :
    (stateToIsometry t ⟨roll, pitch, yaw⟩).linear =
      ⟨Real.cos pitch * Real.cos yaw,
       Real.cos yaw * Real.sin pitch * Real.sin roll - Real.sin yaw * Real.cos roll,
       Real.cos yaw * Real.sin pitch * Real.cos roll + Real.sin yaw * Real.sin roll,
       Real.cos pitch * Real.sin yaw,
       Real.sin yaw * Real.sin pitch * Real.sin roll + Real.cos yaw * Real.cos roll,
       Real.sin yaw * Real.sin pitch * Real.cos roll - Real.cos yaw * Real.sin roll,
       -Real.sin pitch,
       Real.cos pitch * Real.sin roll,
       Real.cos pitch * Real.cos roll⟩ := by
  simp only [stateToIsometry, Mat3.mul, angleAxisZ, angleAxisY, angleAxisX, lit_real,
    sin_real, cos_real, Mat3.mk.injEq]
  refine ⟨?_, ?_, ?_, ?_, ?_, ?_, ?_, ?_, ?_⟩ <;> (push_cast; ring)

theorem rpy_roundtrip (translation : Vec3 ℝ) (roll pitch yaw : ℝ)
    (hr1 : -Real.pi < roll) (hr2 : roll ≤ Real.pi)
    (hp1 : -(Real.pi / 2) < pitch) (hp2 : pitch < Real.pi / 2)
    (hy1 : -Real.pi < yaw) (hy2 : yaw ≤ Real.pi) :
    mat_to_rpy_intrinsic (stateToIsometry translation ⟨roll, pitch, yaw⟩).linear
      = ⟨roll, pitch, yaw⟩ := by
  have hc : 0 < Real.cos pitch := Real.cos_pos_of_mem_Ioo ⟨hp1, hp2⟩
  have hpi := Real.pi_pos
  rw [stateToIsometry_linear]
  simp only [mat_to_rpy_intrinsic, atan2_real, sqrt_real, neg_neg, Vec3.mk.injEq]
  refine ⟨atan2_polar _ _ hc hr1 hr2, ?_, atan2_polar _ _ hc hy1 hy2⟩
  have hs : Real.sqrt (Real.cos pitch * Real.sin roll * (Real.cos pitch * Real.sin roll)
      + Real.cos pitch * Real.cos roll * (Real.cos pitch * Real.cos roll))
      = 1 * Real.cos pitch := by
    have e : Real.cos pitch * Real.sin roll * (Real.cos pitch * Real.sin roll)
        + Real.cos pitch * Real.cos roll * (Real.cos pitch * Real.cos roll)
        = Real.cos pitch ^ 2 := by
      have := Real.sin_sq_add_cos_sq roll
      nlinarith [this]
    rw [e, Real.sqrt_sq hc.le, one_mul]
  rw [hs]
  have := atan2_polar 1 pitch one_pos (by linarith) (by linarith)
  simp only [one_mul] at this ⊢
  exact this

theorem angleAxisZ_orthonormal (θ : ℝ) : (angleAxisZ θ).IsOrthonormal := by
  have h := Real.sin_sq_add_cos_sq θ
  simp only [Mat3.IsOrthonormal, angleAxisZ, Mat3.transpose, Mat3.mul, Mat3.identity, lit_real,
    sin_real, cos_real, Mat3.mk.injEq]
  push_cast
  refine ⟨?_, ?_, ?_, ?_, ?_, ?_, ?_, ?_, ?_⟩ <;> nlinarith [h]

theorem angleAxisY_orthonormal (θ : ℝ) : (angleAxisY θ).IsOrthonormal := by
  have h := Real.sin_sq_add_cos_sq θ
  simp only [Mat3.IsOrthonormal, angleAxisY, Mat3.transpose, Mat3.mul, Mat3.identity, lit_real,
    sin_real, cos_real, Mat3.mk.injEq]
  push_cast
  refine ⟨?_, ?_, ?_, ?_, ?_, ?_, ?_, ?_, ?_⟩ <;> nlinarith [h]

theorem angleAxisX_orthonormal (θ : ℝ) : (angleAxisX θ).IsOrthonormal := by
  have h := Real.sin_sq_add_cos_sq θ
  simp only [Mat3.IsOrthonormal, angleAxisX, Mat3.transpose, Mat3.mul, Mat3.identity, lit_real,
    sin_real, cos_real, Mat3.mk.injEq]
  push_cast
  refine ⟨?_, ?_, ?_, ?_, ?_, ?_, ?_, ?_, ?_⟩ <;> nlinarith [h]

theorem stateToIsometry_orthonormal (t e : Vec3 ℝ) :
    (stateToIsometry t e).linear.IsOrthonormal :=
  ((angleAxisZ_orthonormal e.z).mul (angleAxisY_orthonormal e.y)).mul
    (angleAxisX_orthonormal e.x)

theorem identity_eq_stateToIsometry :
    (Isometry.identity : Isometry ℝ) = stateToIsometry ⟨0, 0, 0⟩ ⟨0, 0, 0⟩ := by
  have h := stateToIsometry_linear ⟨0, 0, 0⟩ 0 0 0
  have ht : (stateToIsometry (⟨0, 0, 0⟩ : Vec3 ℝ) ⟨0, 0, 0⟩).translation = ⟨0, 0, 0⟩ := rfl
  simp only [Real.cos_zero, Real.sin_zero] at h
  norm_num at h
  cases hs : stateToIsometry (⟨0, 0, 0⟩ : Vec3 ℝ) ⟨0, 0, 0⟩ with
  | mk l t =>
    rw [hs] at h ht
    simp only at h ht
    rw [h, ht]
    simp [Isometry.identity, Mat3.identity]

/-! ### Pose error -/

theorem relativeRotation_self (P : Isometry ℝ) (h : P.linear.IsOrthonormal) :
    relativeRotation P P = Mat3.identity :=
  h.mul_transpose

theorem relativeRotation_identity_right (A : Isometry ℝ) :
    relativeRotation A Isometry.identity = A.linear := by
  cases A with
  | mk l t =>
    cases l
    simp [relativeRotation, Isometry.identity, Mat3.identity, Mat3.transpose, Mat3.mul]

theorem orientationError_identity :
    orientationError (Mat3.identity : Mat3 ℝ) = ⟨0, 0, 0⟩ := by
  simp [orientationError, Mat3.identity, Mat3.trace, rotationEps, Vec3.norm, Vec3.smul]
  norm_num

theorem homogeneousError_self_zero (P : Isometry ℝ) (h : P.linear.IsOrthonormal) :
    homogeneousError P P = mkVec6 ⟨0, 0, 0⟩ ⟨0, 0, 0⟩ := by
  rw [homogeneousError, relativeRotation_self P h, orientationError_identity]
  simp [Vec3.sub]

theorem mkVec6_zero : mkVec6 (⟨0, 0, 0⟩ : Vec3 ℝ) ⟨0, 0, 0⟩ = (fun _ => 0) := by
  funext i
  fin_cases i <;> rfl

theorem orientationError_axisAngle (n : Vec3 ℝ) (θ : ℝ)
    (hn : n.x * n.x + n.y * n.y + n.z * n.z = 1)
    (h0 : 0 < θ) (hπ : θ < Real.pi) (hs : 1 / 1000 ≤ 2 * Real.sin θ) :
    orientationError (axisAngleRotation n θ) = ⟨θ * n.x, θ * n.y, θ * n.z⟩ := by
  have hsin : 0 < Real.sin θ := Real.sin_pos_of_pos_of_lt_pi h0 hπ
  have heps : rotationEps (axisAngleRotation n θ)
      = ⟨2 * Real.sin θ * n.x, 2 * Real.sin θ * n.y, 2 * Real.sin θ * n.z⟩ := by
    simp only [rotationEps, axisAngleRotation, Vec3.mk.injEq]
    refine ⟨?_, ?_, ?_⟩ <;> ring
  have hnorm : (rotationEps (axisAngleRotation n θ)).norm = 2 * Real.sin θ := by
    rw [heps]
    simp only [Vec3.norm, sqrt_real]
    have e : 2 * Real.sin θ * n.x * (2 * Real.sin θ * n.x)
        + 2 * Real.sin θ * n.y * (2 * Real.sin θ * n.y)
        + 2 * Real.sin θ * n.z * (2 * Real.sin θ * n.z) = (2 * Real.sin θ) ^ 2 := by
      linear_combination (2 * Real.sin θ) ^ 2 * hn
    rw [e, Real.sqrt_sq (by linarith)]
  have htr : (axisAngleRotation n θ).trace - 1 = 2 * Real.cos θ := by
    simp only [Mat3.trace, axisAngleRotation]
    linear_combination (1 - Real.cos θ) * hn
  have hatan : Complex.arg ⟨2 * Real.cos θ, 2 * Real.sin θ⟩ = θ :=
    atan2_polar 2 θ two_pos (by linarith) hπ.le
  unfold orientationError
  simp only [hnorm, lt_real, lit_real, atan2_real]
  have c1 : ((1 / 10000000000 : ℚ) : ℝ) < 2 * Real.sin θ := by
    push_cast; linarith
  have c2 : ¬ (2 * Real.sin θ < ((1 / 1000 : ℚ) : ℝ)) := by
    push_cast; linarith
  simp only [c1, c2, decide_True, decide_False, Bool.or_true, if_true, Bool.false_eq_true,
    if_false]
  have h1 : (((1 : ℚ) : ℝ)) = 1 := by norm_num
  rw [h1, htr, hatan, heps]
  simp only [Vec3.smul, Vec3.mk.injEq]
  refine ⟨?_, ?_, ?_⟩ <;> field_simp <;> ring

theorem quarter_turn_error_norm (n : Vec3 ℝ)
    (hn : n.x * n.x + n.y * n.y + n.z * n.z = 1) :
    (orientationError (axisAngleRotation n (Real.pi / 2))).norm = Real.pi / 2 := by
  rw [orientationError_axisAngle n (Real.pi / 2) hn (by positivity) (by linarith [Real.pi_pos])
    (by rw [Real.sin_pi_div_two]; norm_num)]
  simp only [Vec3.norm, sqrt_real]
  have e : Real.pi / 2 * n.x * (Real.pi / 2 * n.x) + Real.pi / 2 * n.y * (Real.pi / 2 * n.y)
      + Real.pi / 2 * n.z * (Real.pi / 2 * n.z) = (Real.pi / 2) ^ 2 := by
    linear_combination (Real.pi / 2) ^ 2 * hn
  rw [e, Real.sqrt_sq (by positivity)]

theorem quarterTurnZ_axisAngle :
    relativeRotation quarterTurnZ Isometry.identity
      = axisAngleRotation ⟨0, 0, 1⟩ (Real.pi / 2) := by
  rw [relativeRotation_identity_right]
  simp [quarterTurnZ, axisAngleRotation]

theorem nearHalfTurnZ_angle :
    Real.cos (Real.arccos (-99999999 / 100000001)) = -99999999 / 100000001
      ∧ Real.sin (Real.arccos (-99999999 / 100000001)) = 20000 / 100000001 := by
  refine ⟨Real.cos_arccos (by norm_num) (by norm_num), ?_⟩
  rw [Real.sin_arccos]
  have e : (1 : ℝ) - (-99999999 / 100000001) ^ 2 = (20000 / 100000001) ^ 2 := by norm_num
  rw [e, Real.sqrt_sq (by norm_num)]

theorem nearHalfTurnZ_axisAngle :
    relativeRotation nearHalfTurnZ Isometry.identity
      = axisAngleRotation ⟨0, 0, 1⟩ (Real.arccos (-99999999 / 100000001)) := by
  rw [relativeRotation_identity_right]
  simp only [nearHalfTurnZ, axisAngleRotation, nearHalfTurnZ_angle.1, nearHalfTurnZ_angle.2]
  norm_num

end RealProofs

/-! ## Rollout and one planning step in exact arithmetic -/

section RealPlanning

theorem rolloutFrom_closed (U_in : List ℝ) (steps k : Nat) (s : Vec6 ℝ) (j : Nat)
    (hj : j ≤ steps) :
    (rolloutFrom U_in steps k s)[j]?
      = some (s + ∑ i in Finset.range j, controlColumn U_in (k + i)) := by
  induction steps generalizing k s j with
  | zero =>
    have : j = 0 := by omega
    subst this
    simp [rolloutFrom]
  | succ n ih =>
    cases j with
    | zero => simp [rolloutFrom]
    | succ j =>
      simp only [rolloutFrom, List.getElem?_cons_succ]
      rw [ih (k + 1) _ j (by omega), Finset.sum_range_succ', add_zero]
      congr 1
      rw [add_assoc, add_comm (controlColumn U_in k)]
      congr 2
      apply Finset.sum_congr rfl
      intro i _
      rw [show k + 1 + i = k + (i + 1) by omega]

/-- With the zero control sequence the next pose is the current pose taken
through its Euler angles and back. -/
theorem nextPose_zero (HorizonDim : Nat) (hH : 1 ≤ HorizonDim) (H_0 : Isometry ℝ) :
    nextPose HorizonDim H_0 (List.replicate (ActionDim * HorizonDim) 0)
      = stateToIsometry H_0.translation (mat_to_rpy_intrinsic H_0.linear) := by
  obtain ⟨n, rfl⟩ : ∃ n, HorizonDim = n + 1 := ⟨HorizonDim - 1, by omega⟩
  have hcol : controlColumn (List.replicate (ActionDim * (n + 1)) (0 : ℝ)) 0 = 0 := by
    funext i
    simp only [controlColumn, lit_real, Rat.cast_zero, Pi.zero_apply]
    rw [List.getD_eq_getElem?_getD, List.getElem?_replicate]
    split <;> rfl
  have h1 : (rollout (n + 1) H_0 (List.replicate (ActionDim * (n + 1)) 0)).getD 1
      (fun _ => Scalar.lit 0) = initialState H_0 := by
    simp only [rollout, rolloutFrom, hcol, add_zero]
    rw [List.getD_eq_getElem?_getD, List.getElem?_cons_succ, rolloutFrom_zero]
    rfl
  simp only [nextPose, h1, initialState, head3_mkVec6, tail3_mkVec6]

theorem withinTolerance_self (p : PlannerMpc ℝ) (P : Isometry ℝ) (h : P.linear.IsOrthonormal)
    (hpos : 0 < p.position_tolerance) (hori : 0 < p.orientation_tolerance) :
    withinTolerance p P P = true := by
  simp [withinTolerance, homogeneousError_self_zero P h, head3_mkVec6, tail3_mkVec6, Vec3.norm,
    hpos, hori]

theorem nextPose_identity :
    nextPose 1 (Isometry.identity : Isometry ℝ) (List.replicate (ActionDim * 1) 0)
      = Isometry.identity := by
  have hpi := Real.pi_pos
  rw [nextPose_zero 1 le_rfl]
  conv_lhs => rw [identity_eq_stateToIsometry]
  rw [rpy_roundtrip ⟨0, 0, 0⟩ 0 0 0 (by linarith) (by linarith)
    (by linarith) (by linarith) (by linarith) (by linarith)]
  exact identity_eq_stateToIsometry.symm

theorem identity_orthonormal : (Isometry.identity : Isometry ℝ).linear.IsOrthonormal := by
  rw [identity_eq_stateToIsometry]
  exact stateToIsometry_orthonormal _ _

theorem withinTolerance_zero_tolerance :
    withinTolerance plannerZeroTolerance (Isometry.identity : Isometry ℝ) Isometry.identity
      = false := by
  simp [withinTolerance, homogeneousError_self_zero _ identity_orthonormal, head3_mkVec6,
    tail3_mkVec6, Vec3.norm, plannerZeroTolerance]

theorem withinTolerance_identity_unitStepX (p : PlannerMpc ℝ)
    (hpos : p.position_tolerance ≤ 1) :
    withinTolerance p Isometry.identity unitStepX = false := by
  have hn : ¬ ((1 : ℝ) < p.position_tolerance) := not_lt.mpr hpos
  simp [withinTolerance, homogeneousError, head3_mkVec6, Vec3.sub, Vec3.norm,
    Isometry.identity, unitStepX, hn]

theorem relativeRotation_identity_nearStepX :
    relativeRotation (Isometry.identity : Isometry ℝ) nearStepX = Mat3.identity := by
  simp [relativeRotation, Isometry.identity, nearStepX, Mat3.identity, Mat3.transpose, Mat3.mul]

theorem withinTolerance_identity_nearStepX :
    withinTolerance plannerThreeIterations Isometry.identity nearStepX = true := by
  have hn : Real.sqrt ((0 - 1 / 200) * (0 - 1 / 200)) = 1 / 200 := by
    have e : ((0 : ℝ) - 1 / 200) * (0 - 1 / 200) = (1 / 200) ^ 2 := by norm_num
    rw [e, Real.sqrt_sq (by norm_num)]
  simp only [withinTolerance, homogeneousError, head3_mkVec6, tail3_mkVec6,
    relativeRotation_identity_nearStepX, orientationError_identity]
  simp only [Vec3.sub, Vec3.norm, Isometry.identity, nearStepX, plannerThreeIterations,
    lit_real, lt_real, sqrt_real, Rat.cast_zero, sub_self, mul_zero, add_zero, hn,
    Real.sqrt_zero]
  norm_num

theorem nearStepX_ne : (nearStepX : Isometry ℝ) ≠ Isometry.identity := by
  intro h
  have := congrArg (fun P : Isometry ℝ => P.translation.x) h
  simp [nearStepX, Isometry.identity] at this

/-! ### The pose at the Euler singularity -/

theorem rpy_gimbalPose : mat_to_rpy_intrinsic gimbalPose.linear = ⟨0, Real.pi / 2, 0⟩ := by
  simp [mat_to_rpy_intrinsic, gimbalPose, arg_origin, arg_up]

theorem rpy_gimbalRebuilt :
    mat_to_rpy_intrinsic gimbalRebuilt.linear = ⟨0, Real.pi / 2, 0⟩ := by
  simp [mat_to_rpy_intrinsic, gimbalRebuilt, arg_origin, arg_up]

theorem stateToIsometry_gimbal :
    stateToIsometry (⟨0, 0, 0⟩ : Vec3 ℝ) ⟨0, Real.pi / 2, 0⟩ = gimbalRebuilt := by
  have h := stateToIsometry_linear ⟨0, 0, 0⟩ 0 (Real.pi / 2) 0
  have ht : (stateToIsometry (⟨0, 0, 0⟩ : Vec3 ℝ) ⟨0, Real.pi / 2, 0⟩).translation
      = ⟨0, 0, 0⟩ := rfl
  simp only [Real.cos_pi_div_two, Real.sin_pi_div_two, Real.cos_zero, Real.sin_zero] at h
  norm_num at h
  cases hs : stateToIsometry (⟨0, 0, 0⟩ : Vec3 ℝ) ⟨0, Real.pi / 2, 0⟩ with
  | mk l t =>
    rw [hs] at h ht
    simp only at h ht
    rw [h, ht, gimbalRebuilt]

theorem nextPose_gimbalPose :
    nextPose 1 gimbalPose (List.replicate (ActionDim * 1) 0) = gimbalRebuilt := by
  rw [nextPose_zero 1 le_rfl, rpy_gimbalPose]
  exact stateToIsometry_gimbal

theorem nextPose_gimbalRebuilt :
    nextPose 1 gimbalRebuilt (List.replicate (ActionDim * 1) 0) = gimbalRebuilt := by
  rw [nextPose_zero 1 le_rfl, rpy_gimbalRebuilt]
  exact stateToIsometry_gimbal

theorem relativeRotation_rebuilt_gimbal :
    relativeRotation gimbalRebuilt gimbalPose = axisAngleRotation ⟨0, 0, -1⟩ (Real.pi / 2) := by
  simp [relativeRotation, gimbalRebuilt, gimbalPose, axisAngleRotation, Mat3.mul, Mat3.transpose]

theorem relativeRotation_gimbal_rebuilt :
    relativeRotation gimbalPose gimbalRebuilt = axisAngleRotation ⟨0, 0, 1⟩ (Real.pi / 2) := by
  simp [relativeRotation, gimbalRebuilt, gimbalPose, axisAngleRotation, Mat3.mul, Mat3.transpose]

theorem withinTolerance_rebuilt_gimbal :
    withinTolerance plannerThreeIterations gimbalRebuilt gimbalPose = false := by
  have hpi := Real.pi_gt_three
  simp only [withinTolerance, homogeneousError, tail3_mkVec6, relativeRotation_rebuilt_gimbal,
    quarter_turn_error_norm ⟨0, 0, -1⟩ (by norm_num), plannerThreeIterations, lt_real, lit_real]
  have : ¬ (Real.pi / 2 < ((1 / 100 : ℚ) : ℝ)) := by push_cast; linarith
  simp only [this, decide_False, Bool.and_false]

theorem fuseStep_gimbal :
    fuseStep plannerThreeIterations [gimbalPose] gimbalRebuilt = [gimbalPose, gimbalRebuilt] := by
  have hpi := Real.pi_gt_three
  have : ¬ (Real.pi / 2 < ((1 / 10 : ℚ) : ℝ)) := by push_cast; linarith
  simp only [fuseStep, List.getLastD, List.getLast, homogeneousError, tail3_mkVec6,
    relativeRotation_gimbal_rebuilt, quarter_turn_error_norm ⟨0, 0, 1⟩ (by norm_num),
    plannerThreeIterations, lt_real, lit_real]
  simp only [this, decide_False, Bool.and_false, Bool.false_eq_true, if_false,
    List.singleton_append]

theorem gimbalRebuilt_ne : gimbalRebuilt ≠ gimbalPose := by
  intro h
  have := congrArg (fun P : Isometry ℝ => P.linear.m02) h
  simp [gimbalRebuilt, gimbalPose] at this

theorem unitStepX_ne : (unitStepX : Isometry ℝ) ≠ Isometry.identity := by
  intro h
  have := congrArg (fun P : Isometry ℝ => P.translation.x) h
  simp [unitStepX, Isometry.identity] at this

end RealPlanning

/-! ## Waypoint generation -/

section WaypointClaims

/-- C1. With the obstacle cloud set and `max_iterations >= 1`, for every
init pose, goal pose and arithmetic, and whatever the optimizer returns at
each invocation, `generateWaypoints` returns a non-empty waypoint list whose
last element is the goal pose. -/
theorem generateWaypoints_last_is_goal {α : Type} [Scalar α] (HorizonDim : Nat)
    (p : PlannerMpc α) (getAction : Nat → Isometry α → List α) (init goal : Isometry α)
    (cloud : List (Vec3 α)) (hcloud : p.obstacle_cloud = some cloud)
    (hmax : 1 ≤ p.max_iterations) :
    ∃ r : GenerateResult α, generateWaypoints HorizonDim p getAction init goal = some r
      ∧ r.waypoints ≠ [] ∧ r.waypoints.getLast? = some goal :=
  ⟨_, generateWaypoints_of_cloud HorizonDim p getAction init goal cloud hcloud,
    generateWaypoints_last HorizonDim p getAction init goal hmax⟩

/-- Witness of C1: three budgeted iterations from the identity pose to the
pose at `(1, 0, 0)`, empty obstacle cloud, zero controls. -/
theorem generateWaypoints_last_is_goal_witness :
    (plannerThreeIterations.obstacle_cloud = some []
      ∧ 1 ≤ plannerThreeIterations.max_iterations)
    ∧ ∃ r : GenerateResult ℝ,
        generateWaypoints 1 plannerThreeIterations (zeroOptimizer 1) Isometry.identity unitStepX
            = some r
          ∧ r.waypoints ≠ [] ∧ r.waypoints.getLast? = some unitStepX :=
  ⟨⟨rfl, by decide⟩,
    generateWaypoints_last_is_goal 1 plannerThreeIterations (zeroOptimizer 1) Isometry.identity
      unitStepX [] rfl (by decide)⟩

/-- C2, counterexample. The snap overwrites the last recorded waypoint, and
in the first iteration that is the init pose. First part: with
`max_iterations = 1` the only iteration is the last budgeted one; from the
identity pose to the goal `(1, 0, 0)` the returned list is `[goal, goal]`.
Second part: with `max_iterations = 3` and the goal `(1/200, 0, 0)`, within
the default tolerances of the first predicted pose, the first iteration
converges and the returned list is again `[goal, goal]`. In both the first
element is not the init pose. -/
theorem generateWaypoints_first_not_init :
    (∃ r : GenerateResult ℝ,
      generateWaypoints 1 plannerOneIteration (zeroOptimizer 1) Isometry.identity unitStepX
          = some r
        ∧ r.waypoints = [unitStepX, unitStepX]
        ∧ r.waypoints.head? ≠ some Isometry.identity)
    ∧ ∃ r : GenerateResult ℝ,
      generateWaypoints 1 plannerThreeIterations (zeroOptimizer 1) Isometry.identity nearStepX
          = some r
        ∧ r.waypoints = [nearStepX, nearStepX]
        ∧ r.waypoints.head? ≠ some Isometry.identity := by
  constructor
  · have hmax : plannerOneIteration.max_iterations = 1 := rfl
    have hcloud : plannerOneIteration.obstacle_cloud = some [] := rfl
    have hloop : generateWaypointsLoop 1 plannerOneIteration (zeroOptimizer 1) unitStepX 0
        Isometry.identity [Isometry.identity] 0 = ([unitStepX], 1) := by
      rw [generateWaypointsLoop, if_pos (by rw [hmax]; norm_num)]
      simp only [hmax]
      rw [if_pos (by simp)]
      rfl
    refine ⟨_, generateWaypoints_of_cloud _ _ _ _ _ _ hcloud, ?_, ?_⟩
    · simp only [hloop, fuseWaypoints_singleton]
    · simp only [hloop, fuseWaypoints_singleton, List.head?_cons, ne_eq, Option.some.injEq]
      exact unitStepX_ne
  · have hmax : plannerThreeIterations.max_iterations = 3 := rfl
    have hcloud : plannerThreeIterations.obstacle_cloud = some [] := rfl
    have hloop : generateWaypointsLoop 1 plannerThreeIterations (zeroOptimizer 1) nearStepX 0
        Isometry.identity [Isometry.identity] 0 = ([nearStepX], 1) := by
      rw [generateWaypointsLoop, if_pos (by rw [hmax]; norm_num)]
      simp only [zeroOptimizer, nextPose_identity, withinTolerance_identity_nearStepX,
        Bool.true_or, if_true]
      rfl
    refine ⟨_, generateWaypoints_of_cloud _ _ _ _ _ _ hcloud, ?_, ?_⟩
    · simp only [hloop, fuseWaypoints_singleton]
    · simp only [hloop, fuseWaypoints_singleton, List.head?_cons, ne_eq, Option.some.injEq]
      exact nearStepX_ne

/-- C2, amended. With the obstacle cloud set, if the first iteration does
not leave the loop (`max_iterations >= 2` and its predicted pose is not
within both tolerances of the goal), the returned list starts at the init
pose and ends at the goal pose. -/
theorem generateWaypoints_first_is_init {α : Type} [Scalar α] (HorizonDim : Nat)
    (p : PlannerMpc α) (getAction : Nat → Isometry α → List α) (init goal : Isometry α)
    (cloud : List (Vec3 α)) (hcloud : p.obstacle_cloud = some cloud)
    (hmax : 2 ≤ p.max_iterations)
    (hfar : withinTolerance p (nextPose HorizonDim init (getAction 0 init)) goal = false) :
    ∃ r : GenerateResult α, generateWaypoints HorizonDim p getAction init goal = some r
      ∧ r.waypoints.head? = some init ∧ r.waypoints.getLast? = some goal := by
  refine ⟨_, generateWaypoints_of_cloud HorizonDim p getAction init goal cloud hcloud, ?_,
    (generateWaypoints_last HorizonDim p getAction init goal (by omega)).2⟩
  simp only
  rw [(fuseWaypoints_ends p _).1, generateWaypointsLoop, if_pos (by omega)]
  have hne : ¬ ((0 : Int) == p.max_iterations - 1) = true := by
    simp only [beq_iff_eq]; omega
  simp only [hfar, Bool.false_or]
  rw [if_neg hne]
  exact (generateWaypointsLoop_invariant HorizonDim p getAction goal (0 + 1) _ _ (0 + 1)
    (by simp)).2.2.2.2 (by simp)

/-- Witness of C2 as amended: three budgeted iterations from the identity
pose to the pose at `(1, 0, 0)` with zero controls; the first predicted
pose is one unit away from the goal. -/
theorem generateWaypoints_first_is_init_witness :
    (plannerThreeIterations.obstacle_cloud = some []
      ∧ 2 ≤ plannerThreeIterations.max_iterations
      ∧ withinTolerance plannerThreeIterations
          (nextPose 1 Isometry.identity (zeroOptimizer 1 0 Isometry.identity)) unitStepX = false)
    ∧ ∃ r : GenerateResult ℝ,
        generateWaypoints 1 plannerThreeIterations (zeroOptimizer 1) Isometry.identity unitStepX
            = some r
          ∧ r.waypoints.head? = some Isometry.identity
          ∧ r.waypoints.getLast? = some unitStepX := by
  have hfar : withinTolerance plannerThreeIterations
      (nextPose 1 Isometry.identity (zeroOptimizer 1 0 Isometry.identity)) unitStepX = false := by
    simp only [zeroOptimizer, nextPose_identity]
    exact withinTolerance_identity_unitStepX _ (by simp [plannerThreeIterations]; norm_num)
  exact ⟨⟨rfl, by decide, hfar⟩,
    generateWaypoints_first_is_init 1 plannerThreeIterations (zeroOptimizer 1) Isometry.identity
      unitStepX [] rfl (by decide) hfar⟩

/-- C3, counterexample. First part: `gimbalPose` is a proper rotation with
pitch `π/2`; with the default tolerances, `max_iterations = 3` and an
optimizer that returns zero controls, `generateWaypoints(P, P)` runs all
three iterations and returns `[P, Ry(π/2), P]`, whose middle element is not
the goal. Second part: with both tolerances zero and `max_iterations = 2`
the loop started at the identity pose does not end in its first iteration. -/
theorem generateWaypoints_init_eq_goal_fails :
    (gimbalPose.linear.IsOrthonormal ∧ gimbalPose.linear.toMatrix.det = 1
      ∧ generateWaypoints 1 plannerThreeIterations (zeroOptimizer 1) gimbalPose gimbalPose
          = some ⟨[gimbalPose, gimbalRebuilt, gimbalPose], 3, 0⟩
      ∧ gimbalRebuilt ≠ gimbalPose)
    ∧ ∃ r : GenerateResult ℝ,
        generateWaypoints 1 plannerZeroTolerance (zeroOptimizer 1) Isometry.identity
          Isometry.identity = some r ∧ r.optimizer_calls = 2 := by
  refine ⟨⟨?_, ?_, ?_, gimbalRebuilt_ne⟩, ?_⟩
  · simp [Mat3.IsOrthonormal, gimbalPose, Mat3.mul, Mat3.transpose, Mat3.identity]
  · simp [Mat3.toMatrix, gimbalPose, Matrix.det_fin_three]
  · have hloop : generateWaypointsLoop 1 plannerThreeIterations (zeroOptimizer 1) gimbalPose 0
        gimbalPose [gimbalPose] 0 = ([gimbalPose, gimbalRebuilt, gimbalPose], 3) := by
      have hmax : plannerThreeIterations.max_iterations = 3 := rfl
      rw [generateWaypointsLoop, if_pos (by rw [hmax]; norm_num)]
      simp only [zeroOptimizer, nextPose_gimbalPose, withinTolerance_rebuilt_gimbal, hmax]
      rw [if_neg (by decide)]
      rw [generateWaypointsLoop, if_pos (by rw [hmax]; norm_num)]
      simp only [zeroOptimizer, nextPose_gimbalRebuilt, withinTolerance_rebuilt_gimbal, hmax]
      rw [if_neg (by decide)]
      rw [generateWaypointsLoop, if_pos (by rw [hmax]; norm_num)]
      simp only [zeroOptimizer, nextPose_gimbalRebuilt, withinTolerance_rebuilt_gimbal, hmax]
      rw [if_pos (by decide)]
      rfl
    have hcloud : plannerThreeIterations.obstacle_cloud = some [] := rfl
    simp only [generateWaypoints, hcloud, hloop, fuseWaypoints, List.dropLast, List.foldl,
      fuseStep_gimbal, List.getLastD, List.getLast]
    simp [plannerThreeIterations, Scalar.toInt, Scalar.ofNat]
  · have hloop : generateWaypointsLoop 1 plannerZeroTolerance (zeroOptimizer 1)
        Isometry.identity 0 Isometry.identity [Isometry.identity] 0
        = ([Isometry.identity, Isometry.identity], 2) := by
      have hmax : plannerZeroTolerance.max_iterations = 2 := rfl
      rw [generateWaypointsLoop, if_pos (by rw [hmax]; norm_num)]
      simp only [zeroOptimizer, nextPose_identity, withinTolerance_zero_tolerance, hmax]
      rw [if_neg (by decide)]
      rw [generateWaypointsLoop, if_pos (by rw [hmax]; norm_num)]
      simp only [zeroOptimizer, nextPose_identity, withinTolerance_zero_tolerance, hmax]
      rw [if_pos (by decide)]
      rfl
    have hcloud : plannerZeroTolerance.obstacle_cloud = some [] := rfl
    refine ⟨_, generateWaypoints_of_cloud _ _ _ _ _ _ hcloud, ?_⟩
    simp only [hloop]

/-- C3, amended. In exact arithmetic, let `P` be a pose built by
`stateToIsometry` from Euler angles in the gimbal-safe range, let both
convergence tolerances be positive, the obstacle cloud set and
`max_iterations >= 1`. If the optimizer returns the zero control sequence at
its first invocation, `generateWaypoints(P, P)` leaves the loop in its first
iteration with zero pose error and returns two copies of `P`. -/
theorem generateWaypoints_init_eq_goal (HorizonDim : Nat) (p : PlannerMpc ℝ)
    (getAction : Nat → Isometry ℝ → List ℝ) (cloud : List (Vec3 ℝ))
    (translation : Vec3 ℝ) (roll pitch yaw : ℝ)
    (hH : 1 ≤ HorizonDim) (hcloud : p.obstacle_cloud = some cloud)
    (hmax : 1 ≤ p.max_iterations)
    (hpos : 0 < p.position_tolerance) (hori : 0 < p.orientation_tolerance)
    (hr1 : -Real.pi < roll) (hr2 : roll ≤ Real.pi)
    (hp1 : -(Real.pi / 2) < pitch) (hp2 : pitch < Real.pi / 2)
    (hy1 : -Real.pi < yaw) (hy2 : yaw ≤ Real.pi)
    (hzero : getAction 0 (stateToIsometry translation ⟨roll, pitch, yaw⟩)
      = List.replicate (ActionDim * HorizonDim) 0) :
    ∃ r : GenerateResult ℝ,
      generateWaypoints HorizonDim p getAction (stateToIsometry translation ⟨roll, pitch, yaw⟩)
          (stateToIsometry translation ⟨roll, pitch, yaw⟩) = some r
        ∧ r.optimizer_calls = 1
        ∧ r.waypoints = [stateToIsometry translation ⟨roll, pitch, yaw⟩,
            stateToIsometry translation ⟨roll, pitch, yaw⟩]
        ∧ homogeneousError
            (nextPose HorizonDim (stateToIsometry translation ⟨roll, pitch, yaw⟩)
              (getAction 0 (stateToIsometry translation ⟨roll, pitch, yaw⟩)))
            (stateToIsometry translation ⟨roll, pitch, yaw⟩) = (fun _ => 0) := by
  have hnext : nextPose HorizonDim (stateToIsometry translation ⟨roll, pitch, yaw⟩)
      (getAction 0 (stateToIsometry translation ⟨roll, pitch, yaw⟩))
      = stateToIsometry translation ⟨roll, pitch, yaw⟩ := by
    rw [hzero, nextPose_zero HorizonDim hH,
      rpy_roundtrip translation roll pitch yaw hr1 hr2 hp1 hp2 hy1 hy2]
    rfl
  have horth := stateToIsometry_orthonormal translation ⟨roll, pitch, yaw⟩
  have hloop : generateWaypointsLoop HorizonDim p getAction
      (stateToIsometry translation ⟨roll, pitch, yaw⟩) 0
      (stateToIsometry translation ⟨roll, pitch, yaw⟩)
      [stateToIsometry translation ⟨roll, pitch, yaw⟩] 0
      = ([stateToIsometry translation ⟨roll, pitch, yaw⟩], 1) := by
    rw [generateWaypointsLoop, if_pos (by omega)]
    simp only [hnext, withinTolerance_self p _ horth hpos hori, Bool.true_or, if_true]
    rfl
  refine ⟨_, generateWaypoints_of_cloud _ _ _ _ _ _ hcloud, ?_, ?_, ?_⟩
  · simp only [hloop]
  · simp only [hloop, fuseWaypoints_singleton]
  · rw [hnext, homogeneousError_self_zero _ horth, mkVec6_zero]

/-- Witness of C3 as amended: the pose with all Euler angles zero at the
origin, default tolerances, zero controls. -/
theorem generateWaypoints_init_eq_goal_witness :
    (0 < plannerThreeIterations.position_tolerance
      ∧ 0 < plannerThreeIterations.orientation_tolerance)
    ∧ ∃ r : GenerateResult ℝ,
      generateWaypoints 1 plannerThreeIterations (zeroOptimizer 1)
          (stateToIsometry ⟨0, 0, 0⟩ ⟨0, 0, 0⟩) (stateToIsometry ⟨0, 0, 0⟩ ⟨0, 0, 0⟩) = some r
        ∧ r.optimizer_calls = 1
        ∧ r.waypoints = [stateToIsometry ⟨0, 0, 0⟩ ⟨0, 0, 0⟩,
            stateToIsometry ⟨0, 0, 0⟩ ⟨0, 0, 0⟩]
        ∧ homogeneousError
            (nextPose 1 (stateToIsometry ⟨0, 0, 0⟩ ⟨0, 0, 0⟩)
              (zeroOptimizer 1 0 (stateToIsometry ⟨0, 0, 0⟩ ⟨0, 0, 0⟩)))
            (stateToIsometry ⟨0, 0, 0⟩ ⟨0, 0, 0⟩) = (fun _ => 0) := by
  have hpi := Real.pi_pos
  have hpos : 0 < plannerThreeIterations.position_tolerance := by
    simp [plannerThreeIterations]
  have hori : 0 < plannerThreeIterations.orientation_tolerance := by
    simp [plannerThreeIterations]
  exact ⟨⟨hpos, hori⟩,
    generateWaypoints_init_eq_goal 1 plannerThreeIterations (zeroOptimizer 1) []
      ⟨0, 0, 0⟩ 0 0 0 le_rfl rfl (by decide) hpos hori (by linarith) (by linarith)
      (by linarith) (by linarith) (by linarith) (by linarith) rfl⟩

/-- C4. With the obstacle cloud set, for every arithmetic and whatever the
optimizer returns, the loop of `generateWaypoints` ends after at most
`max_iterations` optimizer invocations (none when `max_iterations <= 0`),
and the returned list has at most `max(2, max_iterations)` elements. -/
theorem generateWaypoints_budget {α : Type} [Scalar α] (HorizonDim : Nat)
    (p : PlannerMpc α) (getAction : Nat → Isometry α → List α) (init goal : Isometry α)
    (cloud : List (Vec3 α)) (hcloud : p.obstacle_cloud = some cloud) :
    ∃ r : GenerateResult α, generateWaypoints HorizonDim p getAction init goal = some r
      ∧ (r.optimizer_calls : Int) ≤ max 0 p.max_iterations
      ∧ (p.max_iterations ≤ 0 → r.optimizer_calls = 0)
      ∧ (r.waypoints.length : Int) ≤ max 2 p.max_iterations := by
  obtain ⟨_, _, h3, h4, _⟩ :=
    generateWaypointsLoop_invariant HorizonDim p getAction goal 0 init [init] 0 (by simp)
  have hf := fuseWaypoints_length p
    (generateWaypointsLoop HorizonDim p getAction goal 0 init [init] 0).1
  refine ⟨_, generateWaypoints_of_cloud HorizonDim p getAction init goal cloud hcloud,
    ?_, ?_, ?_⟩
  · simp only; omega
  · intro h; simp only; omega
  · simp only [List.length_cons, List.length_nil] at h3
    simp only
    omega

/-- Witness of C4: three budgeted iterations from the identity pose to the
pose at `(1, 0, 0)`, empty obstacle cloud, zero controls. -/
theorem generateWaypoints_budget_witness :
    plannerThreeIterations.obstacle_cloud = some []
    ∧ ∃ r : GenerateResult ℝ,
        generateWaypoints 1 plannerThreeIterations (zeroOptimizer 1) Isometry.identity unitStepX
            = some r
          ∧ (r.optimizer_calls : Int) ≤ max 0 plannerThreeIterations.max_iterations
          ∧ (plannerThreeIterations.max_iterations ≤ 0 → r.optimizer_calls = 0)
          ∧ (r.waypoints.length : Int) ≤ max 2 plannerThreeIterations.max_iterations :=
  ⟨rfl, generateWaypoints_budget 1 plannerThreeIterations (zeroOptimizer 1) Isometry.identity
    unitStepX [] rfl⟩

end WaypointClaims

/-! ## Pose error and Euler angles -/

section KinematicsClaims

/-- C5. In exact arithmetic, for every pose `P` with an orthonormal
rotation and any translation, `homogeneousError(P, P)` is the zero
6-vector: the relative rotation has trace `3` and `eps = 0`, so the test
`t > -0.99` holds and the branch `eps_norm < 1e-3` is the one taken. -/
theorem homogeneousError_self (P : Isometry ℝ) (h : P.linear.IsOrthonormal) :
    homogeneousError P P = (fun _ => 0)
      ∧ (relativeRotation P P).trace = 3
      ∧ rotationEps (relativeRotation P P) = ⟨0, 0, 0⟩
      ∧ Scalar.lt (Scalar.lit (-99 / 100)) (relativeRotation P P).trace = true
      ∧ Scalar.lt (rotationEps (relativeRotation P P)).norm (Scalar.lit (1 / 1000)) = true := by
  refine ⟨?_, ?_, ?_, ?_, ?_⟩
  · rw [homogeneousError_self_zero P h, mkVec6_zero]
  · rw [relativeRotation_self P h]
    simp [Mat3.identity, Mat3.trace]; norm_num
  · rw [relativeRotation_self P h]
    simp [Mat3.identity, rotationEps]
  · rw [relativeRotation_self P h]
    simp [Mat3.identity, Mat3.trace]; norm_num
  · rw [relativeRotation_self P h]
    simp [Mat3.identity, rotationEps, Vec3.norm]

/-- Witness of C5: the pose turned by a quarter turn about the z axis. -/
theorem homogeneousError_self_witness :
    quarterTurnZ.linear.IsOrthonormal
    ∧ homogeneousError quarterTurnZ quarterTurnZ = (fun _ => 0)
      ∧ (relativeRotation quarterTurnZ quarterTurnZ).trace = 3
      ∧ rotationEps (relativeRotation quarterTurnZ quarterTurnZ) = ⟨0, 0, 0⟩
      ∧ Scalar.lt (Scalar.lit (-99 / 100)) (relativeRotation quarterTurnZ quarterTurnZ).trace
          = true
      ∧ Scalar.lt (rotationEps (relativeRotation quarterTurnZ quarterTurnZ)).norm
          (Scalar.lit (1 / 1000)) = true := by
  have h : quarterTurnZ.linear.IsOrthonormal := by
    simp [Mat3.IsOrthonormal, quarterTurnZ, Mat3.mul, Mat3.transpose, Mat3.identity]
  exact ⟨h, homogeneousError_self quarterTurnZ h⟩

/-- C6, the code at the failing input. The pose `nearHalfTurnZ` is turned
against the identity by an angle `θ₂` between `π/2` and `π` about the z axis,
the pose `quarterTurnZ` by `θ₁ = π/2`. The orientation error of the first
has norm below `1e-3` (the branch `eps_norm < 1e-3` is taken although the
angle is close to `π`), that of the second has norm `π/2`: the norm is not
the angle, and it drops from `θ₁` to the larger `θ₂`. -/
theorem homogeneousError_near_half_turn :
    relativeRotation nearHalfTurnZ Isometry.identity
        = axisAngleRotation ⟨0, 0, 1⟩ (Real.arccos (-99999999 / 100000001))
      ∧ Real.pi / 2 < Real.arccos (-99999999 / 100000001)
      ∧ Real.arccos (-99999999 / 100000001) < Real.pi
      ∧ (tail3 (homogeneousError nearHalfTurnZ Isometry.identity)).norm < 1 / 1000
      ∧ relativeRotation quarterTurnZ Isometry.identity
          = axisAngleRotation ⟨0, 0, 1⟩ (Real.pi / 2)
      ∧ (tail3 (homogeneousError quarterTurnZ Isometry.identity)).norm = Real.pi / 2 := by
  refine ⟨nearHalfTurnZ_axisAngle, ?_, ?_, ?_, quarterTurnZ_axisAngle, ?_⟩
  · have h := (@Real.arccos_le_pi_div_two (-99999999 / 100000001)).not
    push_neg at h
    exact h.mpr (by norm_num)
  · refine lt_of_le_of_ne (Real.arccos_le_pi _) ?_
    rw [Ne, Real.arccos_eq_pi]
    norm_num
  · rw [homogeneousError, tail3_mkVec6, relativeRotation_identity_right]
    have hn : Real.sqrt ((20000 / 100000001 - -(20000 / 100000001))
        * (20000 / 100000001 - -(20000 / 100000001))) = 40000 / 100000001 := by
      have e : ((20000 : ℝ) / 100000001 - -(20000 / 100000001))
          * (20000 / 100000001 - -(20000 / 100000001)) = (40000 / 100000001) ^ 2 := by norm_num
      rw [e, Real.sqrt_sq (by norm_num)]
    simp only [orientationError, nearHalfTurnZ, rotationEps, Vec3.norm, Mat3.trace, sqrt_real,
      lt_real, lit_real, sub_self, mul_zero, zero_mul, zero_add, add_zero, hn]
    norm_num
    simp only [Vec3.smul, mul_zero, zero_mul, zero_add]
    have e : ((500000003 : ℝ) / 600000006 * (40000 / 100000001))
        * (500000003 / 600000006 * (40000 / 100000001))
        = (500000003 / 600000006 * (40000 / 100000001)) ^ 2 := by ring
    rw [e, Real.sqrt_sq (by norm_num)]
    norm_num
  · rw [homogeneousError, tail3_mkVec6, quarterTurnZ_axisAngle]
    exact quarter_turn_error_norm ⟨0, 0, 1⟩ (by norm_num)

/-- C7. In exact arithmetic, when the relative rotation of two poses is the
rotation by `θ` in `(0, π)` about a unit axis `n` and `2 sin θ >= 1e-3`, the
rotational part of `homogeneousError` is `θ n` and the translational part is
the difference of the translations. -/
theorem homogeneousError_axisAngle (A B : Isometry ℝ) (n : Vec3 ℝ) (θ : ℝ)
    (hn : n.x * n.x + n.y * n.y + n.z * n.z = 1)
    (h0 : 0 < θ) (hπ : θ < Real.pi) (hs : 1 / 1000 ≤ 2 * Real.sin θ)
    (hrel : relativeRotation A B = axisAngleRotation n θ) :
    tail3 (homogeneousError A B) = ⟨θ * n.x, θ * n.y, θ * n.z⟩
      ∧ head3 (homogeneousError A B)
          = ⟨A.translation.x - B.translation.x, A.translation.y - B.translation.y,
             A.translation.z - B.translation.z⟩ := by
  rw [homogeneousError, tail3_mkVec6, head3_mkVec6, hrel,
    orientationError_axisAngle n θ hn h0 hπ hs]
  exact ⟨rfl, rfl⟩

/-- Witness of C7: the quarter turn about the z axis against the identity. -/
theorem homogeneousError_axisAngle_witness :
    tail3 (homogeneousError quarterTurnZ Isometry.identity)
        = ⟨Real.pi / 2 * 0, Real.pi / 2 * 0, Real.pi / 2 * 1⟩
      ∧ head3 (homogeneousError quarterTurnZ Isometry.identity)
          = ⟨quarterTurnZ.translation.x - (Isometry.identity : Isometry ℝ).translation.x,
             quarterTurnZ.translation.y - (Isometry.identity : Isometry ℝ).translation.y,
             quarterTurnZ.translation.z - (Isometry.identity : Isometry ℝ).translation.z⟩ :=
  homogeneousError_axisAngle quarterTurnZ Isometry.identity ⟨0, 0, 1⟩ (Real.pi / 2)
    (by norm_num) (by positivity) (by linarith [Real.pi_pos])
    (by rw [Real.sin_pi_div_two]; norm_num) quarterTurnZ_axisAngle

/-- C8. In exact arithmetic, for every translation and every Euler triple
with roll and yaw in `(-π, π]` and pitch strictly between `-π/2` and `π/2`,
`mat_to_rpy_intrinsic` applied to the rotation of `stateToIsometry` gives
the triple back. -/
theorem mat_to_rpy_intrinsic_stateToIsometry (translation : Vec3 ℝ) (roll pitch yaw : ℝ)
    (hr1 : -Real.pi < roll) (hr2 : roll ≤ Real.pi)
    (hp1 : -(Real.pi / 2) < pitch) (hp2 : pitch < Real.pi / 2)
    (hy1 : -Real.pi < yaw) (hy2 : yaw ≤ Real.pi) :
    mat_to_rpy_intrinsic (stateToIsometry translation ⟨roll, pitch, yaw⟩).linear
      = ⟨roll, pitch, yaw⟩ :=
  rpy_roundtrip translation roll pitch yaw hr1 hr2 hp1 hp2 hy1 hy2

/-- Witness of C8: roll `1`, pitch `-1`, yaw `π` at the point `(1, 2, 3)`. -/
theorem mat_to_rpy_intrinsic_stateToIsometry_witness :
    mat_to_rpy_intrinsic (stateToIsometry (⟨1, 2, 3⟩ : Vec3 ℝ) ⟨1, -1, Real.pi⟩).linear
      = ⟨1, -1, Real.pi⟩ :=
  mat_to_rpy_intrinsic_stateToIsometry ⟨1, 2, 3⟩ 1 (-1) Real.pi
    (by linarith [Real.pi_gt_three]) (by linarith [Real.pi_gt_three])
    (by linarith [Real.pi_gt_three]) (by linarith [Real.pi_gt_three])
    (by linarith [Real.pi_gt_three]) le_rfl

end KinematicsClaims

/-! ## Rollout and fusion -/

section RolloutFusionClaims

/-- C9. In exact arithmetic, for a control sequence `U_in` with
`ActionDim * HorizonDim` entries, `rollout` returns `HorizonDim + 1` states;
the first is the translation of `H_0` followed by its roll, pitch and yaw;
each next state is the previous one plus the control step
`U_in[ActionDim * k .. ActionDim * k + 5]`; and the state `k` is the first
state plus the sum of the first `k` control steps. -/
theorem rollout_integrator (HorizonDim : Nat) (H_0 : Isometry ℝ) (U_in : List ℝ)
    (hlen : U_in.length = ActionDim * HorizonDim) :
    (rollout HorizonDim H_0 U_in).length = HorizonDim + 1
      ∧ (rollout HorizonDim H_0 U_in)[0]?
          = some (mkVec6 H_0.translation (mat_to_rpy_intrinsic H_0.linear))
      ∧ (∀ k, k < HorizonDim → ∃ a b : Vec6 ℝ,
          (rollout HorizonDim H_0 U_in)[k]? = some a
            ∧ (rollout HorizonDim H_0 U_in)[k + 1]? = some b
            ∧ (∀ i : Fin 6, ∃ u : ℝ, U_in[ActionDim * k + i.val]? = some u ∧ b i = a i + u))
      ∧ (∀ k, k ≤ HorizonDim → ∃ a : Vec6 ℝ,
          (rollout HorizonDim H_0 U_in)[k]? = some a
            ∧ (∀ i : Fin 6, a i = mkVec6 H_0.translation (mat_to_rpy_intrinsic H_0.linear) i
                + ∑ j in Finset.range k, U_in.getD (ActionDim * j + i.val) 0)) := by
  refine ⟨rolloutFrom_length _ _ _ _, rolloutFrom_zero _ _ _ _, ?_, ?_⟩
  · intro k hk
    obtain ⟨a, b, ha, hb, hab⟩ := rolloutFrom_step U_in HorizonDim 0 (initialState H_0) k hk
    refine ⟨a, b, ha, hb, fun i => ⟨controlColumn U_in k i, ?_, ?_⟩⟩
    · exact controlColumn_getElem U_in HorizonDim k hlen hk i
    · rw [hab, zero_add]; rfl
  · intro k hk
    refine ⟨_, rolloutFrom_closed U_in HorizonDim 0 (initialState H_0) k hk, fun i => ?_⟩
    simp only [Pi.add_apply, Finset.sum_apply, zero_add, initialState, controlColumn, lit_real,
      Rat.cast_zero]

/-- Witness of C9: two steps from the identity pose, the first moving by
`1/10` along x and the second by `1/10` about yaw. -/
theorem rollout_integrator_witness :
    ([1 / 10, 0, 0, 0, 0, 0, 0, 0, 0, 0, 0, 1 / 10] : List ℝ).length = ActionDim * 2
    ∧ (rollout 2 (Isometry.identity : Isometry ℝ)
          [1 / 10, 0, 0, 0, 0, 0, 0, 0, 0, 0, 0, 1 / 10]).length = 2 + 1
      ∧ (rollout 2 (Isometry.identity : Isometry ℝ)
            [1 / 10, 0, 0, 0, 0, 0, 0, 0, 0, 0, 0, 1 / 10])[0]?
          = some (mkVec6 (Isometry.identity : Isometry ℝ).translation
              (mat_to_rpy_intrinsic (Isometry.identity : Isometry ℝ).linear))
      ∧ (∀ k, k < 2 → ∃ a b : Vec6 ℝ,
          (rollout 2 (Isometry.identity : Isometry ℝ)
              [1 / 10, 0, 0, 0, 0, 0, 0, 0, 0, 0, 0, 1 / 10])[k]? = some a
            ∧ (rollout 2 (Isometry.identity : Isometry ℝ)
                [1 / 10, 0, 0, 0, 0, 0, 0, 0, 0, 0, 0, 1 / 10])[k + 1]? = some b
            ∧ (∀ i : Fin 6, ∃ u : ℝ,
                ([1 / 10, 0, 0, 0, 0, 0, 0, 0, 0, 0, 0, 1 / 10] : List ℝ)[ActionDim * k + i.val]?
                  = some u ∧ b i = a i + u))
      ∧ (∀ k, k ≤ 2 → ∃ a : Vec6 ℝ,
          (rollout 2 (Isometry.identity : Isometry ℝ)
              [1 / 10, 0, 0, 0, 0, 0, 0, 0, 0, 0, 0, 1 / 10])[k]? = some a
            ∧ (∀ i : Fin 6, a i = mkVec6 (Isometry.identity : Isometry ℝ).translation
                  (mat_to_rpy_intrinsic (Isometry.identity : Isometry ℝ).linear) i
                + ∑ j in Finset.range k,
                    ([1 / 10, 0, 0, 0, 0, 0, 0, 0, 0, 0, 0, 1 / 10] : List ℝ).getD
                      (ActionDim * j + i.val) 0)) :=
  ⟨rfl, rollout_integrator 2 Isometry.identity [1 / 10, 0, 0, 0, 0, 0, 0, 0, 0, 0, 0, 1 / 10] rfl⟩

/-- C10. For every arithmetic, `fuseWaypoints` keeps the first and the last
waypoint of its input: the output has the same first element and the same
last element as the input, it is empty exactly when the input is, and the
empty list is mapped to the empty list. -/
theorem fuseWaypoints_first_last {α : Type} [Scalar α] (p : PlannerMpc α)
    (w : List (Isometry α)) :
    (fuseWaypoints p w).head? = w.head?
      ∧ (fuseWaypoints p w).getLast? = w.getLast?
      ∧ (fuseWaypoints p w = [] ↔ w = [])
      ∧ fuseWaypoints p ([] : List (Isometry α)) = [] :=
  ⟨(fuseWaypoints_ends p w).1, (fuseWaypoints_ends p w).2.1, (fuseWaypoints_ends p w).2.2, rfl⟩

end RolloutFusionClaims

/-! ## Fusion step by step -/

section FusionSteps

theorem foldl_fuseStep_sublist {α : Type} [Scalar α] (p : PlannerMpc α)
    (l : List (Isometry α)) :
    ∀ acc : List (Isometry α), ∃ s : List (Isometry α),
      l.foldl (fuseStep p) acc = acc ++ s ∧ List.Sublist s l := by
  induction l with
  | nil => intro acc; exact ⟨[], by simp, List.Sublist.slnil⟩
  | cons w l ih =>
    intro acc
    rcases fuseStep_cases p acc w with h | h
    · obtain ⟨s, hs, hl⟩ := ih acc
      exact ⟨s, by simp [List.foldl_cons, h, hs], hl.cons w⟩
    · obtain ⟨s, hs, hl⟩ := ih (acc ++ [w])
      exact ⟨w :: s, by simp [List.foldl_cons, h, hs], hl.cons₂ w⟩

theorem fuseWaypoints_interior {α : Type} [Scalar α] (p : PlannerMpc α)
    (front back : Isometry α) (interior : List (Isometry α)) :
    fuseWaypoints p (front :: (interior ++ [back]))
      = interior.foldl (fuseStep p) [front] ++ [back] := by
  have h1 : (interior ++ [back]).getLastD front = back := by
    rw [List.getLastD_eq_getLast?]
    simp
  simp only [fuseWaypoints, h1, List.dropLast_concat]

theorem fuseStep_real (p : PlannerMpc ℝ) (fused : List (Isometry ℝ)) (r w : Isometry ℝ)
    (hr : fused.getLast? = some r) :
    ((p.fusion_position_tolerance ≤ (head3 (homogeneousError r w)).norm
        ∨ p.fusion_orientation_tolerance ≤ (tail3 (homogeneousError r w)).norm) →
      fuseStep p fused w = fused ++ [w])
    ∧ (((head3 (homogeneousError r w)).norm < p.fusion_position_tolerance
        ∧ (tail3 (homogeneousError r w)).norm < p.fusion_orientation_tolerance) →
      fuseStep p fused w = fused) := by
  have hb : fused.getLastD w = r := by
    rw [List.getLastD_eq_getLast?, hr]; rfl
  constructor
  · intro h
    have hn : ¬ ((head3 (homogeneousError r w)).norm < p.fusion_position_tolerance
        ∧ (tail3 (homogeneousError r w)).norm < p.fusion_orientation_tolerance) := by
      rintro ⟨h1, h2⟩
      rcases h with h | h
      · exact absurd h1 (not_lt.mpr h)
      · exact absurd h2 (not_lt.mpr h)
    simp only [fuseStep, hb, lt_real, Bool.and_eq_true, decide_eq_true_eq, hn, if_false]
  · intro h
    simp only [fuseStep, hb, lt_real, Bool.and_eq_true, decide_eq_true_eq, h, and_self, if_true]

theorem foldl_fuseStep_ne_nil {α : Type} [Scalar α] (p : PlannerMpc α)
    (l : List (Isometry α)) (front : Isometry α) :
    ∃ r, (l.foldl (fuseStep p) [front]).getLast? = some r := by
  obtain ⟨s, hs, _⟩ := foldl_fuseStep_sublist p l [front]
  rw [hs]
  cases h : ([front] ++ s).getLast? with
  | none => simp at h
  | some r => exact ⟨r, rfl⟩

/-- C11. In exact arithmetic, for every waypoint list with a front, interior
waypoints and a back: the output of `fuseWaypoints` is the list retained
from the interior followed by the back, and it is a subsequence of the
input. Walking through the interior, let `r` be the last waypoint retained
before the interior waypoint `w`: `w` is appended to the retained list when
the position part of `homogeneousError(r, w)` has norm
`>= fusion_position_tolerance` or the rotation part has norm
`>= fusion_orientation_tolerance`, and the retained list stays as it is (`w`
is dropped) when both norms are below their tolerances. -/
theorem fuseWaypoints_kept_iff (p : PlannerMpc ℝ) (front back : Isometry ℝ)
    (interior : List (Isometry ℝ)) :
    fuseWaypoints p (front :: (interior ++ [back]))
        = interior.foldl (fuseStep p) [front] ++ [back]
      ∧ List.Sublist (fuseWaypoints p (front :: (interior ++ [back])))
          (front :: (interior ++ [back]))
      ∧ ∀ (pre post : List (Isometry ℝ)) (w : Isometry ℝ), interior = pre ++ w :: post →
          ∃ r : Isometry ℝ, (pre.foldl (fuseStep p) [front]).getLast? = some r
            ∧ ((p.fusion_position_tolerance ≤ (head3 (homogeneousError r w)).norm
                  ∨ p.fusion_orientation_tolerance ≤ (tail3 (homogeneousError r w)).norm) →
                (pre ++ [w]).foldl (fuseStep p) [front]
                  = pre.foldl (fuseStep p) [front] ++ [w])
            ∧ (((head3 (homogeneousError r w)).norm < p.fusion_position_tolerance
                  ∧ (tail3 (homogeneousError r w)).norm < p.fusion_orientation_tolerance) →
                (pre ++ [w]).foldl (fuseStep p) [front] = pre.foldl (fuseStep p) [front]) := by
  refine ⟨fuseWaypoints_interior p front back interior, ?_, ?_⟩
  · rw [fuseWaypoints_interior]
    obtain ⟨s, hs, hsub⟩ := foldl_fuseStep_sublist p interior [front]
    rw [hs]
    exact (hsub.append (List.Sublist.refl [back])).cons₂ front
  · intro pre post w _
    obtain ⟨r, hr⟩ := foldl_fuseStep_ne_nil p pre front
    refine ⟨r, hr, ?_, ?_⟩
    · intro h
      rw [List.foldl_append, List.foldl_cons, List.foldl_nil]
      exact (fuseStep_real p _ r w hr).1 h
    · intro h
      rw [List.foldl_append, List.foldl_cons, List.foldl_nil]
      exact (fuseStep_real p _ r w hr).2 h

end FusionSteps

/-! ## Obstacle and visibility cost -/

section ObstacleVisibility

@[simp] theorem exp_real (x : ℝ) : Scalar.exp x = Real.exp x := rfl

@[simp] theorem acos_real (x : ℝ) : Scalar.acos x = Real.arccos x := rfl

@[simp] theorem ofNat_real (n : Nat) : (Scalar.ofNat n : ℝ) = (n : ℝ) := rfl

@[simp] theorem ofInt_real (n : Int) : (Scalar.ofInt n : ℝ) = (n : ℝ) := rfl

theorem obstacleCostAt_of_lt (p : PlannerMpc ℝ) (d : ℝ) (h : d < p.collision_margin) :
    obstacleCostAt p d = 1 / 2 * p.w_obs * (1 / d - 1 / p.collision_margin) ^ 2 := by
  simp only [obstacleCostAt, lt_real, h, decide_True, if_true, lit_real]
  push_cast
  ring

theorem obstacleCostAt_of_le (p : PlannerMpc ℝ) (d : ℝ) (h : p.collision_margin ≤ d) :
    obstacleCostAt p d = 0 := by
  simp [obstacleCostAt, not_lt.mpr h]

theorem obstacleCostAt_nonneg (p : PlannerMpc ℝ) (hw : 0 ≤ p.w_obs) (d : ℝ) :
    0 ≤ obstacleCostAt p d := by
  rcases lt_or_le d p.collision_margin with h | h
  · rw [obstacleCostAt_of_lt p d h]
    positivity
  · rw [obstacleCostAt_of_le p d h]

theorem obstacleCostAt_antitone (p : PlannerMpc ℝ) (hw : 0 ≤ p.w_obs)
    (d1 d2 : ℝ) (h1 : 0 < d1) (h12 : d1 ≤ d2) :
    obstacleCostAt p d2 ≤ obstacleCostAt p d1 := by
  rcases lt_or_le d2 p.collision_margin with h | h
  · have h1m : d1 < p.collision_margin := lt_of_le_of_lt h12 h
    have h2 : 0 < d2 := lt_of_lt_of_le h1 h12
    have hm : 0 < p.collision_margin := lt_trans h1 h1m
    rw [obstacleCostAt_of_lt p d2 h, obstacleCostAt_of_lt p d1 h1m]
    have e2 : 0 ≤ 1 / d2 - 1 / p.collision_margin :=
      sub_nonneg.mpr (one_div_le_one_div_of_le h2 h.le)
    have e12 : 1 / d2 - 1 / p.collision_margin ≤ 1 / d1 - 1 / p.collision_margin :=
      sub_le_sub_right (one_div_le_one_div_of_le h1 h12) _
    have hsq : (1 / d2 - 1 / p.collision_margin) ^ 2 ≤ (1 / d1 - 1 / p.collision_margin) ^ 2 :=
      pow_le_pow_left₀ e2 e12 2
    exact mul_le_mul_of_nonneg_left hsq (by positivity)
  · rw [obstacleCostAt_of_le p d2 h]
    exact obstacleCostAt_nonneg p hw d1

theorem obstacleCost_of_search (p : PlannerMpc ℝ) (tree : KdTreeFLANN ℝ)
    (points : List (Vec3 ℝ)) (pose : Isometry ℝ) (nn_dist2 : ℝ)
    (htree : p.kd_tree = some tree) (hcloud : tree.getInputCloud = some points)
    (hne : points ≠ []) (hfound : tree.nearestKSearch pose.translation = some nn_dist2) :
    obstacleCost p pose = obstacleCostAt p (Real.sqrt nn_dist2) := by
  simp [obstacleCost, htree, hcloud, hne, hfound]

/-- C13. In exact arithmetic, with `w_obs >= 0` and `collision_margin > 0`:
the value of `obstacleCost` at nearest-neighbour distance `d` does not
increase with `d` (for `0 < d1 <= d2` the cost at `d1` is at least the cost
at `d2`), it is `0` for every `d >= collision_margin`, and it is what
`obstacleCost` returns for a pose whose nearest obstacle the tree reports at
squared distance `d^2`. -/
theorem obstacleCost_antitone (p : PlannerMpc ℝ) (hw : 0 ≤ p.w_obs)
    (_hm : 0 < p.collision_margin) :
    (∀ d1 d2 : ℝ, 0 < d1 → d1 ≤ d2 → obstacleCostAt p d2 ≤ obstacleCostAt p d1)
      ∧ (∀ d : ℝ, p.collision_margin ≤ d → obstacleCostAt p d = 0)
      ∧ (∀ (tree : KdTreeFLANN ℝ) (points : List (Vec3 ℝ)) (pose : Isometry ℝ) (nn_dist2 : ℝ),
          p.kd_tree = some tree → tree.getInputCloud = some points → points ≠ [] →
          tree.nearestKSearch pose.translation = some nn_dist2 →
          obstacleCost p pose = obstacleCostAt p (Real.sqrt nn_dist2)) :=
  ⟨obstacleCostAt_antitone p hw, obstacleCostAt_of_le p,
    fun tree points pose nn_dist2 => obstacleCost_of_search p tree points pose nn_dist2⟩

/-- Witness of C13: the default weights `w_obs = 5`, `collision_margin = 0.05`. -/
theorem obstacleCost_antitone_witness :
    (0 ≤ defaultPlanner.w_obs ∧ 0 < defaultPlanner.collision_margin)
    ∧ (∀ d1 d2 : ℝ, 0 < d1 → d1 ≤ d2 →
        obstacleCostAt defaultPlanner d2 ≤ obstacleCostAt defaultPlanner d1)
      ∧ (∀ d : ℝ, defaultPlanner.collision_margin ≤ d → obstacleCostAt defaultPlanner d = 0)
      ∧ (∀ (tree : KdTreeFLANN ℝ) (points : List (Vec3 ℝ)) (pose : Isometry ℝ) (nn_dist2 : ℝ),
          defaultPlanner.kd_tree = some tree → tree.getInputCloud = some points → points ≠ [] →
          tree.nearestKSearch pose.translation = some nn_dist2 →
          obstacleCost defaultPlanner pose = obstacleCostAt defaultPlanner (Real.sqrt nn_dist2)) := by
  have hw : 0 ≤ defaultPlanner.w_obs := by simp [defaultPlanner]
  have hm : 0 < defaultPlanner.collision_margin := by simp [defaultPlanner]
  exact ⟨⟨hw, hm⟩, obstacleCost_antitone defaultPlanner hw hm⟩

theorem visibilityCost_of_cloud (pcl : PclFilters ℝ) (p : PlannerMpc ℝ)
    (points : List (Vec3 ℝ)) (hcloud : p.obstacle_cloud = some points) (hne : points ≠ [])
    (pose : Isometry ℝ) :
    visibilityCost pcl p pose
      = if (0 : ℝ) < (p.min_visible_points : ℝ) - (visibleCount pcl p points pose : ℝ) then
          Real.exp (p.alpha_visibility
            * ((p.min_visible_points : ℝ) - (visibleCount pcl p points pose : ℝ))) - 1
        else 0 := by
  simp [visibilityCost, getFrustrumCloud, hcloud, hne, visibleCount]

/-- C14. In exact arithmetic, with a non-empty obstacle cloud and
`alpha_visibility > 0`, writing `v` for the number of points in the frustum:
`visibilityCost` is `0` whenever `v >= min_visible_points`; for
`v < min_visible_points` it is `exp(alpha_visibility * (min_visible_points - v)) - 1`,
which is positive; and of two poses below the minimum the one that sees
fewer points costs strictly more. -/
theorem visibilityCost_spec (pcl : PclFilters ℝ) (p : PlannerMpc ℝ) (points : List (Vec3 ℝ))
    (hcloud : p.obstacle_cloud = some points) (hne : points ≠ [])
    (halpha : 0 < p.alpha_visibility) :
    (∀ pose : Isometry ℝ, p.min_visible_points ≤ (visibleCount pcl p points pose : Int) →
        visibilityCost pcl p pose = 0)
      ∧ (∀ pose : Isometry ℝ, (visibleCount pcl p points pose : Int) < p.min_visible_points →
          visibilityCost pcl p pose
              = Real.exp (p.alpha_visibility
                  * ((p.min_visible_points : ℝ) - (visibleCount pcl p points pose : ℝ))) - 1
            ∧ 0 < visibilityCost pcl p pose)
      ∧ (∀ pose1 pose2 : Isometry ℝ,
          visibleCount pcl p points pose1 < visibleCount pcl p points pose2 →
          (visibleCount pcl p points pose2 : Int) < p.min_visible_points →
          visibilityCost pcl p pose2 < visibilityCost pcl p pose1) := by
  have key : ∀ pose : Isometry ℝ,
      (visibleCount pcl p points pose : Int) < p.min_visible_points →
      visibilityCost pcl p pose
        = Real.exp (p.alpha_visibility
            * ((p.min_visible_points : ℝ) - (visibleCount pcl p points pose : ℝ))) - 1 := by
    intro pose h
    have h' : ((visibleCount pcl p points pose : Int) : ℝ) < (p.min_visible_points : ℝ) :=
      Int.cast_lt.mpr h
    rw [visibilityCost_of_cloud pcl p points hcloud hne, if_pos]
    simpa using h'
  refine ⟨?_, ?_, ?_⟩
  · intro pose h
    have h' : (p.min_visible_points : ℝ) ≤ ((visibleCount pcl p points pose : Int) : ℝ) :=
      Int.cast_le.mpr h
    rw [visibilityCost_of_cloud pcl p points hcloud hne, if_neg]
    simpa using h'
  · intro pose h
    refine ⟨key pose h, ?_⟩
    rw [key pose h]
    have h' : ((visibleCount pcl p points pose : Int) : ℝ) < (p.min_visible_points : ℝ) :=
      Int.cast_lt.mpr h
    have hpos : 0 < p.alpha_visibility
        * ((p.min_visible_points : ℝ) - (visibleCount pcl p points pose : ℝ)) :=
      mul_pos halpha (by simpa using h')
    linarith [Real.add_one_lt_exp (ne_of_gt hpos)]
  · intro pose1 pose2 h12 h2
    have h1 : (visibleCount pcl p points pose1 : Int) < p.min_visible_points :=
      lt_trans (Int.ofNat_lt.mpr h12) h2
    rw [key pose1 h1, key pose2 h2]
    have hlt : (visibleCount pcl p points pose1 : ℝ) < (visibleCount pcl p points pose2 : ℝ) :=
      Nat.cast_lt.mpr h12
    have : p.alpha_visibility
        * ((p.min_visible_points : ℝ) - (visibleCount pcl p points pose2 : ℝ))
        < p.alpha_visibility
        * ((p.min_visible_points : ℝ) - (visibleCount pcl p points pose1 : ℝ)) :=
      mul_lt_mul_of_pos_left (by linarith) halpha
    linarith [Real.exp_lt_exp.mpr this]

end ObstacleVisibility

/-! ## Missing spatial data -/

section MissingData

/-- Witness of C14: one obstacle point, filters that keep every point, the
default `alpha_visibility = 0.2`. -/
theorem visibilityCost_spec_witness :
    (plannerWithObstacle.obstacle_cloud = some [obstaclePoint] ∧ [obstaclePoint] ≠ []
      ∧ 0 < plannerWithObstacle.alpha_visibility)
    ∧ (∀ pose : Isometry ℝ,
        plannerWithObstacle.min_visible_points
            ≤ (visibleCount keepAll plannerWithObstacle [obstaclePoint] pose : Int) →
        visibilityCost keepAll plannerWithObstacle pose = 0)
      ∧ (∀ pose : Isometry ℝ,
          (visibleCount keepAll plannerWithObstacle [obstaclePoint] pose : Int)
            < plannerWithObstacle.min_visible_points →
          visibilityCost keepAll plannerWithObstacle pose
              = Real.exp (plannerWithObstacle.alpha_visibility
                  * ((plannerWithObstacle.min_visible_points : ℝ)
                    - (visibleCount keepAll plannerWithObstacle [obstaclePoint] pose : ℝ))) - 1
            ∧ 0 < visibilityCost keepAll plannerWithObstacle pose)
      ∧ (∀ pose1 pose2 : Isometry ℝ,
          visibleCount keepAll plannerWithObstacle [obstaclePoint] pose1
            < visibleCount keepAll plannerWithObstacle [obstaclePoint] pose2 →
          (visibleCount keepAll plannerWithObstacle [obstaclePoint] pose2 : Int)
            < plannerWithObstacle.min_visible_points →
          visibilityCost keepAll plannerWithObstacle pose2
            < visibilityCost keepAll plannerWithObstacle pose1) := by
  have halpha : 0 < plannerWithObstacle.alpha_visibility := by simp [plannerWithObstacle]
  exact ⟨⟨rfl, by simp, halpha⟩,
    visibilityCost_spec keepAll plannerWithObstacle [obstaclePoint] rfl (by simp) halpha⟩

/-- C15, the code at the failing inputs. With a mesh point loaded and a null
tree, `meshCollisionCost` calls the search on the null pointer and has no
result; with a null obstacle cloud `generateWaypoints` reads the size of the
cloud through the null pointer and has no result. The guarded functions do
return zero on the default-constructed planner: `obstacleCost`,
`visibilityCost`, `boxCollisionCost`, and `meshCollisionCost` with the empty
mesh. -/
theorem missing_spatial_data_fails :
    meshCollisionCost plannerMeshNoTree Isometry.identity = none
      ∧ generateWaypoints 1 defaultPlanner (zeroOptimizer 1) Isometry.identity unitStepX = none
      ∧ (∀ (pcl : PclFilters ℝ) (pose : Isometry ℝ),
          obstacleCost defaultPlanner pose = 0
            ∧ visibilityCost pcl defaultPlanner pose = 0
            ∧ boxCollisionCost pcl defaultPlanner pose = 0
            ∧ meshCollisionCost defaultPlanner pose = some 0) := by
  refine ⟨rfl, rfl, fun pcl pose => ⟨?_, ?_, ?_, ?_⟩⟩
  · simp [obstacleCost, defaultPlanner]
  · simp [visibilityCost, defaultPlanner]
  · simp [boxCollisionCost, getPointsInBox, defaultPlanner]
  · simp [meshCollisionCost, defaultPlanner]

end MissingData

/-! ## Trajectory cost -/

section TrajectoryCost

/-- Cost that the loop of `cost` adds for one rollout state when the mesh
cost of every pose is `mesh pose`. -/
theorem costStep_of_mesh (pcl : PclFilters ℝ) (p : PlannerMpc ℝ) (mesh : Isometry ℝ → ℝ)
    (hmesh : ∀ pose, meshCollisionCost p pose = some (mesh pose)) (total_cost : ℝ)
    (s : Vec6 ℝ) :
    costStep pcl p total_cost s
      = some (total_cost + (poseCost p (stateToPose s) p.w_p p.w_q + mesh (stateToPose s)
          + visibilityCost pcl p (stateToPose s))) := by
  simp only [costStep, hmesh]

theorem foldlM_costStep (pcl : PclFilters ℝ) (p : PlannerMpc ℝ) (mesh : Isometry ℝ → ℝ)
    (hmesh : ∀ pose, meshCollisionCost p pose = some (mesh pose)) (traj : List (Vec6 ℝ)) :
    ∀ init : ℝ, traj.foldlM (costStep pcl p) init
      = some (init + (traj.map (fun s => poseCost p (stateToPose s) p.w_p p.w_q
          + mesh (stateToPose s) + visibilityCost pcl p (stateToPose s))).sum) := by
  induction traj with
  | nil => intro init; simp
  | cons s traj ih =>
    intro init
    rw [List.foldlM_cons, costStep_of_mesh pcl p mesh hmesh]
    simp only [bind, Option.bind, ih, List.map_cons, List.sum_cons, Option.some.injEq]
    ring

theorem sum_map_eq_sum_range (f : Vec6 ℝ → ℝ) (d : Vec6 ℝ) (l : List (Vec6 ℝ)) :
    (l.map f).sum = ∑ k in Finset.range l.length, f (l.getD k d) := by
  induction l with
  | nil => simp
  | cons a l ih =>
    rw [List.map_cons, List.sum_cons, List.length_cons, Finset.sum_range_succ', ih]
    simp [add_comm]

theorem cost_of_mesh (pcl : PclFilters ℝ) (HorizonDim : Nat) (p : PlannerMpc ℝ) (x : List ℝ)
    (mesh : Isometry ℝ → ℝ) (hmesh : ∀ pose, meshCollisionCost p pose = some (mesh pose)) :
    cost pcl HorizonDim p x
      = some ((∑ k in Finset.range (HorizonDim + 1),
            (poseCost p (stateToPose ((rollout HorizonDim p.H_0 x).getD k (initialState p.H_0)))
                p.w_p p.w_q
              + mesh (stateToPose ((rollout HorizonDim p.H_0 x).getD k (initialState p.H_0)))
              + visibilityCost pcl p
                (stateToPose ((rollout HorizonDim p.H_0 x).getD k (initialState p.H_0)))))
          + poseCost p
              (stateToPose ((rollout HorizonDim p.H_0 x).getD HorizonDim (initialState p.H_0)))
              p.w_p_term p.w_q_term) := by
  have hlen : (rollout HorizonDim p.H_0 x).length = HorizonDim + 1 :=
    rolloutFrom_length _ _ _ _
  simp only [cost, foldlM_costStep pcl p mesh hmesh, lit_real, Rat.cast_zero, zero_add]
  rw [sum_map_eq_sum_range _ (initialState p.H_0), hlen]

/-- C12. In exact arithmetic, whenever the mesh collision cost has a value
`mesh pose` for every pose (the mesh is empty or the tree is set), for every
control sequence `x` the value of `cost(x)` is the sum over `k = 0..HorizonDim`
of `poseCost(pose_k, w_p, w_q) + meshCollisionCost(pose_k) + visibilityCost(pose_k)`
plus `poseCost(pose_HorizonDim, w_p_term, w_q_term)`, with `pose_k` the
isometry of the `k`-th rollout state: the terminal pose is charged with both
pairs of weights and no other term enters. -/
theorem cost_eq_sum (pcl : PclFilters ℝ) (HorizonDim : Nat) (p : PlannerMpc ℝ) (x : List ℝ)
    (mesh : Isometry ℝ → ℝ) (hmesh : ∀ pose, meshCollisionCost p pose = some (mesh pose)) :
    cost pcl HorizonDim p x
      = some ((∑ k in Finset.range (HorizonDim + 1),
            (poseCost p (stateToPose ((rollout HorizonDim p.H_0 x).getD k (initialState p.H_0)))
                p.w_p p.w_q
              + mesh (stateToPose ((rollout HorizonDim p.H_0 x).getD k (initialState p.H_0)))
              + visibilityCost pcl p
                (stateToPose ((rollout HorizonDim p.H_0 x).getD k (initialState p.H_0)))))
          + poseCost p
              (stateToPose ((rollout HorizonDim p.H_0 x).getD HorizonDim (initialState p.H_0)))
              p.w_p_term p.w_q_term) :=
  cost_of_mesh pcl HorizonDim p x mesh hmesh

theorem meshCollisionCost_no_mesh (p : PlannerMpc ℝ) (h : p.ee_mesh_cloud = [])
    (pose : Isometry ℝ) : meshCollisionCost p pose = some 0 := by
  simp [meshCollisionCost, h]

/-- Witness of C12: the planner with one obstacle point and no mesh, two
control steps along x. -/
theorem cost_eq_sum_witness :
    (∀ pose, meshCollisionCost plannerWithObstacle pose = some ((fun _ => (0 : ℝ)) pose))
    ∧ cost keepAll 2 plannerWithObstacle passingControls
      = some ((∑ k in Finset.range (2 + 1),
            (poseCost plannerWithObstacle
                (stateToPose ((rollout 2 plannerWithObstacle.H_0 passingControls).getD k
                  (initialState plannerWithObstacle.H_0)))
                plannerWithObstacle.w_p plannerWithObstacle.w_q
              + (fun _ => (0 : ℝ))
                (stateToPose ((rollout 2 plannerWithObstacle.H_0 passingControls).getD k
                  (initialState plannerWithObstacle.H_0)))
              + visibilityCost keepAll plannerWithObstacle
                (stateToPose ((rollout 2 plannerWithObstacle.H_0 passingControls).getD k
                  (initialState plannerWithObstacle.H_0)))))
          + poseCost plannerWithObstacle
              (stateToPose ((rollout 2 plannerWithObstacle.H_0 passingControls).getD 2
                (initialState plannerWithObstacle.H_0)))
              plannerWithObstacle.w_p_term plannerWithObstacle.w_q_term) :=
  ⟨meshCollisionCost_no_mesh plannerWithObstacle rfl,
    cost_eq_sum keepAll 2 plannerWithObstacle passingControls (fun _ => 0)
      (meshCollisionCost_no_mesh plannerWithObstacle rfl)⟩

end TrajectoryCost

/-! ## Obstacle at the midpoint -/

section MidpointObstacle

theorem visibilityCost_single_point (pcl : PclFilters ℝ) (p : PlannerMpc ℝ) (o : Vec3 ℝ)
    (hcloud : p.obstacle_cloud = some [o]) (hmin : p.min_visible_points ≤ 0)
    (pose : Isometry ℝ) : visibilityCost pcl p pose = 0 := by
  rw [visibilityCost_of_cloud pcl p [o] hcloud (by simp), if_neg]
  have h1 : (p.min_visible_points : ℝ) ≤ 0 := by exact_mod_cast hmin
  have h2 : (0 : ℝ) ≤ (visibleCount pcl p [o] pose : ℝ) := Nat.cast_nonneg _
  linarith

theorem visibilityCost_empty_cloud (pcl : PclFilters ℝ) (p : PlannerMpc ℝ)
    (hcloud : p.obstacle_cloud = some []) (pose : Isometry ℝ) :
    visibilityCost pcl p pose = 0 := by
  simp [visibilityCost, hcloud]

theorem meshPointCost_ge (p : PlannerMpc ℝ) (tree : KdTreeFLANN ℝ) (pose : Isometry ℝ)
    (hw : 0 ≤ p.w_obs) (hm : 0 < p.collision_margin) (total_cost : ℝ) (pt : Vec3 ℝ) :
    total_cost ≤ meshPointCost p tree pose total_cost pt := by
  unfold meshPointCost
  simp only
  split
  · exact le_rfl
  · rename_i nn_dist2 _
    split
    · have : 0 ≤ p.w_obs * (Scalar.lit 1 / (Scalar.lit 2 * p.collision_margin)
          * (Scalar.sqrt nn_dist2 - p.collision_margin)
          * (Scalar.sqrt nn_dist2 - p.collision_margin)) := by
        apply mul_nonneg hw
        rw [mul_assoc]
        apply mul_nonneg
        · simp only [lit_real]; push_cast; positivity
        · exact mul_self_nonneg _
      linarith
    · exact le_rfl

theorem foldl_meshPointCost_ge (p : PlannerMpc ℝ) (tree : KdTreeFLANN ℝ) (pose : Isometry ℝ)
    (hw : 0 ≤ p.w_obs) (hm : 0 < p.collision_margin) (mesh_points : List (Vec3 ℝ)) :
    ∀ total_cost : ℝ, total_cost ≤ mesh_points.foldl (meshPointCost p tree pose) total_cost := by
  induction mesh_points with
  | nil => intro t; exact le_rfl
  | cons pt l ih =>
    intro t
    rw [List.foldl_cons]
    exact le_trans (meshPointCost_ge p tree pose hw hm t pt) (ih _)

theorem meshPointCost_gt (p : PlannerMpc ℝ) (tree : KdTreeFLANN ℝ) (pose : Isometry ℝ)
    (hw : 0 < p.w_obs) (hm : 0 < p.collision_margin) (total_cost : ℝ) (pt : Vec3 ℝ)
    (nn_dist2 : ℝ)
    (hnear : tree.nearestKSearch ((pose.linear.mulVec pt).add pose.translation) = some nn_dist2)
    (hclose : Real.sqrt nn_dist2 < p.collision_margin) :
    total_cost < meshPointCost p tree pose total_cost pt := by
  simp only [meshPointCost, hnear, sqrt_real, lt_real, hclose, decide_True, if_true, lit_real]
  have h1 : Real.sqrt nn_dist2 - p.collision_margin ≠ 0 := by linarith
  have h2 : 0 < (Real.sqrt nn_dist2 - p.collision_margin)
      * (Real.sqrt nn_dist2 - p.collision_margin) := mul_self_pos.mpr h1
  have h3 : (0 : ℝ) < ((1 : ℚ) : ℝ) / (((2 : ℚ) : ℝ) * p.collision_margin) := by
    push_cast; positivity
  have : 0 < p.w_obs * (((1 : ℚ) : ℝ) / (((2 : ℚ) : ℝ) * p.collision_margin)
      * (Real.sqrt nn_dist2 - p.collision_margin)
      * (Real.sqrt nn_dist2 - p.collision_margin)) := by
    apply mul_pos hw
    rw [mul_assoc]
    exact mul_pos h3 h2
  linarith

theorem foldl_meshPointCost_gt (p : PlannerMpc ℝ) (tree : KdTreeFLANN ℝ) (pose : Isometry ℝ)
    (hw : 0 < p.w_obs) (hm : 0 < p.collision_margin) (pt : Vec3 ℝ) (nn_dist2 : ℝ)
    (hnear : tree.nearestKSearch ((pose.linear.mulVec pt).add pose.translation) = some nn_dist2)
    (hclose : Real.sqrt nn_dist2 < p.collision_margin) (mesh_points : List (Vec3 ℝ))
    (hpt : pt ∈ mesh_points) :
    ∀ total_cost : ℝ, total_cost < mesh_points.foldl (meshPointCost p tree pose) total_cost := by
  induction mesh_points with
  | nil => simp at hpt
  | cons q l ih =>
    intro t
    rw [List.foldl_cons]
    rcases List.mem_cons.mp hpt with h | h
    · subst h
      exact lt_of_lt_of_le (meshPointCost_gt p tree pose hw hm t pt nn_dist2 hnear hclose)
        (foldl_meshPointCost_ge p tree pose hw.le hm l _)
    · exact lt_of_le_of_lt (meshPointCost_ge p tree pose hw.le hm t q) (ih h _)

theorem meshCollisionCost_of_tree (p : PlannerMpc ℝ) (tree : KdTreeFLANN ℝ)
    (htree : p.kd_tree = some tree) (pose : Isometry ℝ) :
    meshCollisionCost p pose
      = some (p.ee_mesh_cloud.foldl (meshPointCost p tree pose) 0) := by
  unfold meshCollisionCost
  split
  · rename_i h
    have : p.ee_mesh_cloud = [] := List.isEmpty_iff.mp h
    simp [this]
  · simp [htree]

theorem foldl_meshPointCost_emptyTree (p : PlannerMpc ℝ) (pose : Isometry ℝ)
    (mesh_points : List (Vec3 ℝ)) (total_cost : ℝ) :
    mesh_points.foldl (meshPointCost p emptyTree pose) total_cost = total_cost := by
  induction mesh_points with
  | nil => rfl
  | cons q l ih => rw [List.foldl_cons]; simpa [meshPointCost, emptyTree] using ih

theorem meshCollisionCost_withoutObstacle (p : PlannerMpc ℝ) (pose : Isometry ℝ) :
    meshCollisionCost (withoutObstacle p) pose = some 0 := by
  rw [meshCollisionCost_of_tree (withoutObstacle p) emptyTree rfl,
    foldl_meshPointCost_emptyTree]

theorem poseCost_withoutObstacle (p : PlannerMpc ℝ) (pose : Isometry ℝ) (wp wq : ℝ) :
    poseCost (withoutObstacle p) pose wp wq = poseCost p pose wp wq := rfl

/-- The cost with a single obstacle point and `min_visible_points <= 0` is
the cost with no obstacle plus the mesh collision costs of the predicted
poses. -/
theorem cost_with_and_without (pcl : PclFilters ℝ) (HorizonDim : Nat) (p : PlannerMpc ℝ)
    (o : Vec3 ℝ) (x : List ℝ) (mesh : Isometry ℝ → ℝ)
    (hmesh : ∀ pose, meshCollisionCost p pose = some (mesh pose))
    (hcloud : p.obstacle_cloud = some [o]) (hmin : p.min_visible_points ≤ 0) :
    ∃ c0 : ℝ, cost pcl HorizonDim (withoutObstacle p) x = some c0
      ∧ cost pcl HorizonDim p x
        = some (c0 + ∑ k in Finset.range (HorizonDim + 1),
            mesh (stateToPose ((rollout HorizonDim p.H_0 x).getD k (initialState p.H_0)))) := by
  refine ⟨_, cost_of_mesh pcl HorizonDim (withoutObstacle p) x (fun _ => 0)
    (meshCollisionCost_withoutObstacle p), ?_⟩
  rw [cost_of_mesh pcl HorizonDim p x mesh hmesh]
  have hH0 : (withoutObstacle p).H_0 = p.H_0 := rfl
  have hwp : (withoutObstacle p).w_p = p.w_p := rfl
  have hwq : (withoutObstacle p).w_q = p.w_q := rfl
  have hwpt : (withoutObstacle p).w_p_term = p.w_p_term := rfl
  have hwqt : (withoutObstacle p).w_q_term = p.w_q_term := rfl
  simp only [hH0, hwp, hwq, hwpt, hwqt, poseCost_withoutObstacle,
    visibilityCost_single_point pcl p o hcloud hmin,
    visibilityCost_empty_cloud pcl (withoutObstacle p) rfl, add_zero, Option.some.injEq,
    Finset.sum_add_distrib]
  ring

theorem passingControls_translation :
    (stateToPose ((rollout 2 plannerWithObstacle.H_0 passingControls).getD 2
      (initialState plannerWithObstacle.H_0))).translation = ⟨4 / 25, 0, 0⟩ := by
  have hH0 : plannerWithObstacle.H_0 = Isometry.identity := rfl
  simp only [hH0, stateToPose, stateToIsometry, head3, rollout, rolloutFrom, List.getD_cons_succ,
    List.getD_cons_zero, Pi.add_apply, initialState, mkVec6, controlColumn, ActionDim,
    passingControls, Isometry.identity, lit_real]
  simp
  norm_num

theorem sqrt_small_lt_margin :
    Real.sqrt (1 / 10000) < plannerWithObstacle.collision_margin := by
  have e : (1 : ℝ) / 10000 = (1 / 100) ^ 2 := by norm_num
  rw [e, Real.sqrt_sq (by norm_num)]
  simp [plannerWithObstacle]
  norm_num

/-- C20, counterexample. The planner `plannerWithObstacle` is
default-constructed (empty mesh) with one obstacle point at the midpoint
between the identity pose and the goal. The control sequence
`passingControls` takes the second predicted pose to `(0.16, 0, 0)`, at
distance `0.01 < collision_margin` from the obstacle. For every control
sequence, and for this one, `cost` with the obstacle equals `cost` without
it: the mesh cost is zero without mesh points, the visibility cost is zero
with `min_visible_points = 0`, and `obstacleCost` is not part of `cost`. -/
theorem cost_ignores_obstacle :
    plannerWithObstacle.ee_mesh_cloud = []
      ∧ (stateToPose ((rollout 2 plannerWithObstacle.H_0 passingControls).getD 2
          (initialState plannerWithObstacle.H_0))).translation = ⟨4 / 25, 0, 0⟩
      ∧ (singlePointTree obstaclePoint).nearestKSearch ⟨4 / 25, 0, 0⟩ = some (1 / 10000)
      ∧ Real.sqrt (1 / 10000) < plannerWithObstacle.collision_margin
      ∧ cost keepAll 2 plannerWithObstacle passingControls
          = cost keepAll 2 (withoutObstacle plannerWithObstacle) passingControls
      ∧ ∀ (pcl : PclFilters ℝ) (HorizonDim : Nat) (x : List ℝ),
          cost pcl HorizonDim plannerWithObstacle x
            = cost pcl HorizonDim (withoutObstacle plannerWithObstacle) x := by
  have hall : ∀ (pcl : PclFilters ℝ) (HorizonDim : Nat) (x : List ℝ),
      cost pcl HorizonDim plannerWithObstacle x
        = cost pcl HorizonDim (withoutObstacle plannerWithObstacle) x := by
    intro pcl HorizonDim x
    obtain ⟨c0, h0, h1⟩ := cost_with_and_without pcl HorizonDim plannerWithObstacle
      obstaclePoint x (fun _ => 0) (meshCollisionCost_no_mesh plannerWithObstacle rfl) rfl
      (by decide)
    rw [h0, h1]
    simp
  refine ⟨rfl, ?_, ?_, ?_, hall keepAll 2 passingControls, hall⟩
  · exact passingControls_translation
  · simp only [singlePointTree, obstaclePoint, Vec3.sub, Vec3.squaredNorm, Option.some.injEq]
    norm_num
  · exact sqrt_small_lt_margin

/-- C20, amended. In exact arithmetic, for a planner with end-effector mesh
points loaded, the tree set, `w_obs > 0`, `collision_margin > 0`, a single
obstacle point and `min_visible_points = 0`: if a control sequence brings a
mesh point of one of its predicted poses strictly within `collision_margin`
of its nearest obstacle, then `cost` of that control sequence is strictly
larger than its `cost` with no obstacle present. -/
theorem cost_increases_with_mesh (pcl : PclFilters ℝ) (HorizonDim : Nat) (p : PlannerMpc ℝ)
    (tree : KdTreeFLANN ℝ) (o : Vec3 ℝ) (x : List ℝ) (k : Nat) (pt : Vec3 ℝ) (nn_dist2 : ℝ)
    (hw : 0 < p.w_obs) (hm : 0 < p.collision_margin) (htree : p.kd_tree = some tree)
    (hcloud : p.obstacle_cloud = some [o]) (hmin : p.min_visible_points = 0)
    (hk : k ≤ HorizonDim) (hpt : pt ∈ p.ee_mesh_cloud)
    (hnear : tree.nearestKSearch
      (((stateToPose ((rollout HorizonDim p.H_0 x).getD k (initialState p.H_0))).linear.mulVec
          pt).add
        (stateToPose ((rollout HorizonDim p.H_0 x).getD k (initialState p.H_0))).translation)
      = some nn_dist2)
    (hclose : Real.sqrt nn_dist2 < p.collision_margin) :
    ∃ c c0 : ℝ, cost pcl HorizonDim p x = some c
      ∧ cost pcl HorizonDim (withoutObstacle p) x = some c0 ∧ c0 < c := by
  obtain ⟨c0, h0, h1⟩ := cost_with_and_without pcl HorizonDim p o x
    (fun pose => p.ee_mesh_cloud.foldl (meshPointCost p tree pose) 0)
    (meshCollisionCost_of_tree p tree htree) hcloud (le_of_eq hmin)
  refine ⟨_, c0, h1, h0, ?_⟩
  have hpos : 0 < ∑ k in Finset.range (HorizonDim + 1),
      p.ee_mesh_cloud.foldl (meshPointCost p tree
        (stateToPose ((rollout HorizonDim p.H_0 x).getD k (initialState p.H_0)))) 0 := by
    apply Finset.sum_pos'
    · intro i _
      exact foldl_meshPointCost_ge p tree _ hw.le hm _ 0
    · exact ⟨k, Finset.mem_range.mpr (by omega),
        foldl_meshPointCost_gt p tree _ hw hm pt nn_dist2 hnear hclose _ hpt 0⟩
  linarith

/-- Witness of C20 as amended: the planner `plannerWithMesh` with one mesh
point at the origin of the end-effector frame, and the control sequence
`passingControls`, whose second predicted pose is `0.01` away from the
obstacle. -/
theorem cost_increases_with_mesh_witness :
    (0 < plannerWithMesh.w_obs ∧ 0 < plannerWithMesh.collision_margin
      ∧ (⟨0, 0, 0⟩ : Vec3 ℝ) ∈ plannerWithMesh.ee_mesh_cloud
      ∧ Real.sqrt (1 / 10000) < plannerWithMesh.collision_margin)
    ∧ ∃ c c0 : ℝ, cost keepAll 2 plannerWithMesh passingControls = some c
      ∧ cost keepAll 2 (withoutObstacle plannerWithMesh) passingControls = some c0
      ∧ c0 < c := by
  have hw : 0 < plannerWithMesh.w_obs := by simp [plannerWithMesh]
  have hm : 0 < plannerWithMesh.collision_margin := by simp [plannerWithMesh]
  have hpt : (⟨0, 0, 0⟩ : Vec3 ℝ) ∈ plannerWithMesh.ee_mesh_cloud := by simp [plannerWithMesh]
  have hclose : Real.sqrt (1 / 10000) < plannerWithMesh.collision_margin :=
    sqrt_small_lt_margin
  have htr : (stateToPose ((rollout 2 plannerWithMesh.H_0 passingControls).getD 2
      (initialState plannerWithMesh.H_0))).translation = ⟨4 / 25, 0, 0⟩ :=
    passingControls_translation
  have hnear : (singlePointTree obstaclePoint).nearestKSearch
      (((stateToPose ((rollout 2 plannerWithMesh.H_0 passingControls).getD 2
          (initialState plannerWithMesh.H_0))).linear.mulVec ⟨0, 0, 0⟩).add
        (stateToPose ((rollout 2 plannerWithMesh.H_0 passingControls).getD 2
          (initialState plannerWithMesh.H_0))).translation) = some (1 / 10000) := by
    rw [htr]
    simp only [singlePointTree, obstaclePoint, Vec3.sub, Vec3.add, Mat3.mulVec,
      Vec3.squaredNorm, Option.some.injEq]
    norm_num
  exact ⟨⟨hw, hm, hpt, hclose⟩,
    cost_increases_with_mesh keepAll 2 plannerWithMesh (singlePointTree obstaclePoint)
      obstaclePoint passingControls 2 ⟨0, 0, 0⟩ (1 / 10000) hw hm rfl rfl rfl le_rfl hpt hnear
      hclose⟩

end MidpointObstacle

/-! ## Horizon shift -/

/-- Writing `v i` at the index `b + i` for `i < n`, in place. -/
theorem foldl_set_range {α : Type} (v : Nat → α) (b n : Nat) (U : List α) :
    ((List.range n).foldl (fun U i => U.set (b + i) (v i)) U).length = U.length
      ∧ ∀ j, ((List.range n).foldl (fun U i => U.set (b + i) (v i)) U)[j]?
          = if b ≤ j ∧ j < b + n ∧ j < U.length then some (v (j - b)) else U[j]? := by
  induction n with
  | zero =>
    refine ⟨rfl, fun j => ?_⟩
    have : ¬ (b ≤ j ∧ j < b + 0 ∧ j < U.length) := by omega
    rw [if_neg this]
    rfl
  | succ n ih =>
    obtain ⟨ihl, ihj⟩ := ih
    rw [List.range_succ, List.foldl_append]
    simp only [List.foldl_cons, List.foldl_nil]
    refine ⟨by rw [List.length_set, ihl], fun j => ?_⟩
    rw [List.getElem?_set, ihl, ihj]
    by_cases hj : b + n = j
    · subst hj
      by_cases hlen : b + n < U.length
      · have : b ≤ b + n ∧ b + n < b + (n + 1) ∧ b + n < U.length := by omega
        simp [hlen, this]
      · have h1 : ¬ (b ≤ b + n ∧ b + n < b + (n + 1) ∧ b + n < U.length) := by omega
        have hnone : U[b + n]? = none := List.getElem?_eq_none (by omega)
        rw [if_pos rfl, if_neg hlen, if_neg h1, hnone]
    · rw [if_neg hj]
      by_cases hc : b ≤ j ∧ j < b + n ∧ j < U.length
      · have : b ≤ j ∧ j < b + (n + 1) ∧ j < U.length := by omega
        rw [if_pos hc, if_pos this]
      · have : ¬ (b ≤ j ∧ j < b + (n + 1) ∧ j < U.length) := by omega
        rw [if_neg hc, if_neg this]

section HorizonShift

variable {α : Type} [Scalar α]

theorem warmStart_length (HorizonDim : Nat) (U : List α) :
    (warmStart HorizonDim U).length = ActionDim * HorizonDim := by
  unfold warmStart
  split
  · assumption
  · simp

/-- State of `U` after the first `m` rounds of the shift loop of `getAction`. -/
theorem shift_rounds (U U_opt : List α) (m : Nat) :
    ((List.range m).foldl
        (fun U k => (List.range ActionDim).foldl
          (fun U i => U.set (ActionDim * k + i)
            (U_opt.getD (ActionDim * (k + 1) + i) (Scalar.lit 0))) U) U).length = U.length
      ∧ ∀ j, ((List.range m).foldl
        (fun U k => (List.range ActionDim).foldl
          (fun U i => U.set (ActionDim * k + i)
            (U_opt.getD (ActionDim * (k + 1) + i) (Scalar.lit 0))) U) U)[j]?
          = if j < ActionDim * m ∧ j < U.length
              then some (U_opt.getD (j + ActionDim) (Scalar.lit 0)) else U[j]? := by
  induction m with
  | zero =>
    refine ⟨rfl, fun j => ?_⟩
    have : ¬ (j < ActionDim * 0 ∧ j < U.length) := by omega
    rw [if_neg this]
    rfl
  | succ m ih =>
    obtain ⟨ihl, ihj⟩ := ih
    rw [List.range_succ, List.foldl_append]
    simp only [List.foldl_cons, List.foldl_nil]
    obtain ⟨hl, hj⟩ := foldl_set_range
      (fun i => U_opt.getD (ActionDim * (m + 1) + i) (Scalar.lit 0)) (ActionDim * m) ActionDim
      ((List.range m).foldl
        (fun U k => (List.range ActionDim).foldl
          (fun U i => U.set (ActionDim * k + i)
            (U_opt.getD (ActionDim * (k + 1) + i) (Scalar.lit 0))) U) U)
    refine ⟨by rw [hl, ihl], fun j => ?_⟩
    rw [hj, ihl, ihj]
    by_cases hc : ActionDim * m ≤ j ∧ j < ActionDim * m + ActionDim ∧ j < U.length
    · have h1 : j < ActionDim * (m + 1) ∧ j < U.length := by
        rw [Nat.mul_succ]; omega
      have h2 : ActionDim * (m + 1) + (j - ActionDim * m) = j + ActionDim := by
        rw [Nat.mul_succ]; omega
      rw [if_pos hc, if_pos h1, h2]
    · rw [if_neg hc]
      by_cases hd : j < ActionDim * m ∧ j < U.length
      · have h1 : j < ActionDim * (m + 1) ∧ j < U.length := by
          rw [Nat.mul_succ]; omega
        rw [if_pos hd, if_pos h1]
      · have h1 : ¬ (j < ActionDim * (m + 1) ∧ j < U.length) := by
          rw [Nat.mul_succ]; omega
        rw [if_neg hd, if_neg h1]

theorem shiftControlsMPPI_eq (HorizonDim : Nat) (U U_opt : List α) :
    shiftControlsMPPI HorizonDim U U_opt = shiftControls HorizonDim U U_opt := by
  unfold shiftControlsMPPI shiftControls
  congr 1
  funext U k
  congr 1
  funext U j
  rw [Nat.mul_comm k ActionDim, Nat.mul_comm (k + 1) ActionDim]

theorem shiftControls_getElem? (HorizonDim : Nat) (U U_opt : List α) :
    (shiftControls HorizonDim U U_opt).length = U.length
      ∧ ∀ j, (shiftControls HorizonDim U U_opt)[j]?
          = if j < ActionDim * (HorizonDim - 1) ∧ j < U.length
              then some (U_opt.getD (j + ActionDim) (Scalar.lit 0)) else U[j]? :=
  shift_rounds U U_opt (HorizonDim - 1)

/-- Entries of the buffer that the horizon shift of `getAction` leaves, for
a horizon of at least two steps and a buffer `U` of the full size. -/
theorem recedeHorizon_getElem? (HorizonDim : Nat) (U U_opt : List α) (hH : 2 ≤ HorizonDim)
    (hU : U.length = ActionDim * HorizonDim) (j : Nat) :
    (recedeHorizon HorizonDim U U_opt)[j]?
      = if j < ActionDim * (HorizonDim - 1) then some (U_opt.getD (j + ActionDim) (Scalar.lit 0))
        else if j < ActionDim * HorizonDim then some (Scalar.lit 0) else none := by
  obtain ⟨hl, hj⟩ := shiftControls_getElem? HorizonDim U U_opt
  have hdim : ActionDim * HorizonDim = ActionDim * (HorizonDim - 1) + ActionDim := by
    rw [← Nat.mul_succ]; congr 1; omega
  have h6 : ActionDim = 6 := rfl
  simp only [recedeHorizon, show HorizonDim > 1 from hH, if_true]
  rw [List.getElem?_append, List.length_take, hl, hU, List.getElem?_take, hj, hU,
    List.getElem?_replicate]
  by_cases h1 : j < ActionDim * (HorizonDim - 1)
  · have h2 : j < min (ActionDim * HorizonDim - ActionDim) (ActionDim * HorizonDim) := by omega
    have h3 : j < ActionDim * HorizonDim - ActionDim := by omega
    have h4 : j < ActionDim * (HorizonDim - 1) ∧ j < ActionDim * HorizonDim := by omega
    rw [if_pos h2, if_pos h3, if_pos h4, if_pos h1]
  · have h2 : ¬ j < min (ActionDim * HorizonDim - ActionDim) (ActionDim * HorizonDim) := by omega
    rw [if_neg h2, if_neg h1]
    by_cases h5 : j < ActionDim * HorizonDim
    · have : j - min (ActionDim * HorizonDim - ActionDim) (ActionDim * HorizonDim) < ActionDim := by
        omega
      rw [if_pos this, if_pos h5]
    · have : ¬ j - min (ActionDim * HorizonDim - ActionDim) (ActionDim * HorizonDim)
          < ActionDim := by omega
      rw [if_neg this, if_neg h5]

theorem recedeHorizonMPPI_getElem? (HorizonDim : Nat) (U U_opt : List α) (hH : 2 ≤ HorizonDim)
    (hU : U.length = ActionDim * HorizonDim) (j : Nat) :
    (recedeHorizonMPPI HorizonDim U U_opt)[j]?
      = if j < ActionDim * (HorizonDim - 1) then some (U_opt.getD (j + ActionDim) (Scalar.lit 0))
        else if j < ActionDim * HorizonDim then some (Scalar.lit 0) else none := by
  obtain ⟨hl, hj⟩ := shiftControls_getElem? HorizonDim U U_opt
  have hdim : ActionDim * HorizonDim = ActionDim * (HorizonDim - 1) + ActionDim := by
    rw [← Nat.mul_succ]; congr 1; omega
  obtain ⟨_, hz⟩ := foldl_set_range (fun _ => (Scalar.lit 0 : α)) ((HorizonDim - 1) * ActionDim)
    ActionDim (shiftControlsMPPI HorizonDim U U_opt)
  simp only [recedeHorizonMPPI, show HorizonDim > 1 from hH, if_true]
  rw [hz, shiftControlsMPPI_eq, hl, hj, hU, Nat.mul_comm (HorizonDim - 1) ActionDim]
  by_cases h1 : j < ActionDim * (HorizonDim - 1)
  · have h2 : ¬ (ActionDim * (HorizonDim - 1) ≤ j ∧ j < ActionDim * (HorizonDim - 1) + ActionDim
        ∧ j < ActionDim * HorizonDim) := by omega
    have h4 : j < ActionDim * (HorizonDim - 1) ∧ j < ActionDim * HorizonDim := by omega
    rw [if_neg h2, if_pos h4, if_pos h1]
  · rw [if_neg h1]
    by_cases h5 : j < ActionDim * HorizonDim
    · have h2 : ActionDim * (HorizonDim - 1) ≤ j ∧ j < ActionDim * (HorizonDim - 1) + ActionDim
          ∧ j < ActionDim * HorizonDim := by omega
      rw [if_pos h2, if_pos h5]
    · have h2 : ¬ (ActionDim * (HorizonDim - 1) ≤ j ∧ j < ActionDim * (HorizonDim - 1) + ActionDim
          ∧ j < ActionDim * HorizonDim) := by omega
      have h4 : ¬ (j < ActionDim * (HorizonDim - 1) ∧ j < ActionDim * HorizonDim) := by omega
      have hnone : U[j]? = none := List.getElem?_eq_none (by omega)
      rw [if_neg h2, if_neg h4, if_neg h5, hnone]

/-- For a horizon of at least two steps the two optimizers leave the same
warm-start buffer. -/
theorem recedeHorizonMPPI_eq (HorizonDim : Nat) (U U_opt : List α) (hH : 2 ≤ HorizonDim)
    (hU : U.length = ActionDim * HorizonDim) :
    recedeHorizonMPPI HorizonDim U U_opt = recedeHorizon HorizonDim U U_opt :=
  List.ext_getElem? fun j => by
    rw [recedeHorizonMPPI_getElem? HorizonDim U U_opt hH hU,
      recedeHorizon_getElem? HorizonDim U U_opt hH hU]

theorem recedeHorizon_one (U U_opt : List α) (hU : U.length = ActionDim * 1) :
    recedeHorizon 1 U U_opt = List.replicate ActionDim (Scalar.lit 0) := by
  have h : ¬ (1 > 1) := by omega
  simp only [recedeHorizon, h, if_false]
  rw [List.map_const', hU, Nat.mul_one]

/-- Entries of the buffer that the horizon shift of `getAction` leaves, for
any horizon of at least one step. -/
theorem recedeHorizon_entries (HorizonDim : Nat) (U U_opt : List α) (hH : 1 ≤ HorizonDim)
    (hU : U.length = ActionDim * HorizonDim) (j : Nat) :
    (recedeHorizon HorizonDim U U_opt)[j]?
      = if j < ActionDim * (HorizonDim - 1) then some (U_opt.getD (j + ActionDim) (Scalar.lit 0))
        else if j < ActionDim * HorizonDim then some (Scalar.lit 0) else none := by
  rcases Nat.lt_or_ge HorizonDim 2 with h | h
  · have h1 : HorizonDim = 1 := by omega
    subst h1
    rw [recedeHorizon_one U U_opt hU, List.getElem?_replicate]
    have : ¬ j < ActionDim * (1 - 1) := by omega
    rw [if_neg this, Nat.mul_one]
  · exact recedeHorizon_getElem? HorizonDim U U_opt h hU j

theorem getAction_fst (HorizonDim : Nat) (p : PlannerMpc α) (optimize : List α → List α)
    (H0_in : Isometry α) (hH : 1 ≤ HorizonDim) :
    (getAction HorizonDim p optimize H0_in).1 = optimize (warmStart HorizonDim p.U)
      ∧ (getAction HorizonDim p optimize H0_in).2.U
          = recedeHorizon HorizonDim (warmStart HorizonDim p.U)
              (optimize (warmStart HorizonDim p.U)) := by
  have h : HorizonDim ≠ 0 := by omega
  simp only [getAction, h, if_false, and_self]

/-- C18. For every arithmetic and every solver result `U_opt` with
`ActionDim * HorizonDim` entries (`HorizonDim >= 1`), `getAction` returns
`U_opt` itself and leaves a warm-start buffer `U` of the same size with
`U[step k] = U_opt[step k + 1]` for every `k < HorizonDim - 1` and zeros in
the last step; for `HorizonDim = 1` the whole buffer is zero. -/
theorem getAction_shift (HorizonDim : Nat) (p : PlannerMpc α) (optimize : List α → List α)
    (H0_in : Isometry α) (hH : 1 ≤ HorizonDim)
    (hlen : (optimize (warmStart HorizonDim p.U)).length = ActionDim * HorizonDim) :
    (getAction HorizonDim p optimize H0_in).1 = optimize (warmStart HorizonDim p.U)
      ∧ (getAction HorizonDim p optimize H0_in).2.U.length = ActionDim * HorizonDim
      ∧ (∀ k i, k + 1 < HorizonDim → i < ActionDim →
          (getAction HorizonDim p optimize H0_in).2.U[ActionDim * k + i]?
            = (optimize (warmStart HorizonDim p.U))[ActionDim * (k + 1) + i]?)
      ∧ (∀ i, i < ActionDim →
          (getAction HorizonDim p optimize H0_in).2.U[ActionDim * (HorizonDim - 1) + i]?
            = some (Scalar.lit 0))
      ∧ (HorizonDim = 1 →
          (getAction HorizonDim p optimize H0_in).2.U
            = List.replicate ActionDim (Scalar.lit 0)) := by
  obtain ⟨h1, h2⟩ := getAction_fst HorizonDim p optimize H0_in hH
  have hU := warmStart_length HorizonDim p.U
  have hdim : ActionDim * HorizonDim = ActionDim * (HorizonDim - 1) + ActionDim := by
    rw [← Nat.mul_succ]; congr 1; omega
  have hent := recedeHorizon_entries HorizonDim (warmStart HorizonDim p.U)
    (optimize (warmStart HorizonDim p.U)) hH hU
  refine ⟨h1, ?_, ?_, ?_, ?_⟩
  · rw [h2]
    by_contra hne
    rcases Nat.lt_or_gt_of_ne hne with hlt | hgt
    · have := hent (ActionDim * HorizonDim - 1)
      rw [List.getElem?_eq_none (by omega)] at this
      have h6 : ActionDim = 6 := rfl
      split at this
      · simp at this
      · rw [if_pos (by omega)] at this
        simp at this
    · have := hent (ActionDim * HorizonDim)
      rw [if_neg (by omega), if_neg (by omega)] at this
      have h3 := List.getElem?_eq_none_iff.mp this
      omega
  · intro k i hk hi
    rw [h2, hent]
    have hj : ActionDim * k + i < ActionDim * (HorizonDim - 1) := by
      have : k + 1 ≤ HorizonDim - 1 := by omega
      calc ActionDim * k + i < ActionDim * k + ActionDim := by omega
        _ = ActionDim * (k + 1) := (Nat.mul_succ _ _).symm
        _ ≤ ActionDim * (HorizonDim - 1) := Nat.mul_le_mul_left _ this
    have hidx : ActionDim * k + i + ActionDim = ActionDim * (k + 1) + i := by
      rw [Nat.mul_succ]; omega
    have hin : ActionDim * (k + 1) + i < (optimize (warmStart HorizonDim p.U)).length := by
      rw [hlen, ← hidx]; omega
    rw [if_pos hj, hidx, List.getD_eq_getElem?_getD, List.getElem?_eq_getElem hin]
    rfl
  · intro i hi
    rw [h2, hent, if_neg (by omega), if_pos (by omega)]
  · intro h
    subst h
    rw [h2]
    exact recedeHorizon_one _ _ hU

end HorizonShift

/-- Witness of C18: two steps, the solver result `passingControls`. -/
theorem getAction_shift_witness :
    (1 ≤ 2 ∧ passingControls.length = ActionDim * 2)
    ∧ (getAction 2 defaultPlanner (fun _ => passingControls) Isometry.identity).1
        = passingControls
    ∧ (getAction 2 defaultPlanner (fun _ => passingControls) Isometry.identity).2.U.length
        = ActionDim * 2
    ∧ (∀ k i, k + 1 < 2 → i < ActionDim →
        (getAction 2 defaultPlanner (fun _ => passingControls)
            Isometry.identity).2.U[ActionDim * k + i]?
          = passingControls[ActionDim * (k + 1) + i]?)
    ∧ (∀ i, i < ActionDim →
        (getAction 2 defaultPlanner (fun _ => passingControls)
            Isometry.identity).2.U[ActionDim * (2 - 1) + i]?
          = some (Scalar.lit 0))
    ∧ (2 = 1 →
        (getAction 2 defaultPlanner (fun _ => passingControls) Isometry.identity).2.U
          = List.replicate ActionDim (Scalar.lit 0)) :=
  ⟨⟨by decide, rfl⟩,
    getAction_shift 2 defaultPlanner (fun _ => passingControls) Isometry.identity
      (by decide) rfl⟩
/-! ## MPPI weights -/

section MppiWeights

theorem weightSum_real (l : List ℝ) : weightSum l = l.sum := by
  rw [List.sum_eq_foldl]
  simp [weightSum]

/-- The running minimum of `std::min_element` is an element of the range and
a lower bound of it. -/
theorem foldl_smallest (cs : List ℝ) (c : ℝ) :
    (cs.foldl (fun smallest x => if Scalar.lt x smallest then x else smallest) c) ∈ c :: cs
      ∧ ∀ x ∈ c :: cs,
          cs.foldl (fun smallest x => if Scalar.lt x smallest then x else smallest) c ≤ x := by
  induction cs generalizing c with
  | nil => simp
  | cons d cs ih =>
    simp only [List.foldl_cons]
    by_cases h : d < c
    · have h0 : Scalar.lt d c = true := by simp [h]
      rw [if_pos h0]
      obtain ⟨h1, h2⟩ := ih d
      refine ⟨List.mem_cons_of_mem _ h1, ?_⟩
      intro x hx
      rcases List.mem_cons.mp hx with rfl | hx
      · exact (h2 d (List.mem_cons_self _ _)).trans h.le
      · exact h2 x hx
    · have h0 : ¬ Scalar.lt d c = true := by simp [h]
      rw [if_neg h0]
      obtain ⟨h1, h2⟩ := ih c
      refine ⟨?_, ?_⟩
      · rcases List.mem_cons.mp h1 with h1 | h1
        · rw [h1]; exact List.mem_cons_self _ _
        · exact List.mem_cons_of_mem _ (List.mem_cons_of_mem _ h1)
      · intro x hx
        rcases List.mem_cons.mp hx with rfl | hx
        · exact h2 _ (List.mem_cons_self _ _)
        · rcases List.mem_cons.mp hx with rfl | hx
          · exact (h2 c (List.mem_cons_self _ _)).trans (not_lt.mp h)
          · exact h2 x (List.mem_cons_of_mem _ hx)

theorem minElement_spec (costs : List ℝ) (hne : costs ≠ []) :
    minElement costs ∈ costs ∧ ∀ c ∈ costs, minElement costs ≤ c := by
  cases costs with
  | nil => exact absurd rfl hne
  | cons c cs => exact foldl_smallest cs c

theorem rawWeights_eq (lambda : ℝ) (costs : List ℝ) :
    rawWeights lambda costs
      = costs.map (fun c => Real.exp (-(c - minElement costs) / lambda)) := by
  simp [rawWeights]

theorem rawWeights_pos (lambda : ℝ) (costs : List ℝ) :
    ∀ w ∈ rawWeights lambda costs, 0 < w := by
  intro w hw
  rw [rawWeights_eq, List.mem_map] at hw
  obtain ⟨c, _, rfl⟩ := hw
  exact Real.exp_pos _

theorem rawWeights_ne_nil (lambda : ℝ) (costs : List ℝ) (hne : costs ≠ []) :
    rawWeights lambda costs ≠ [] := by
  simpa [rawWeights] using hne

theorem weightSum_pos (lambda : ℝ) (costs : List ℝ) (hne : costs ≠ []) :
    0 < weightSum (rawWeights lambda costs) := by
  rw [weightSum_real]
  exact List.sum_pos _ (rawWeights_pos lambda costs) (rawWeights_ne_nil lambda costs hne)

theorem mppiWeights_length (lambda : ℝ) (costs : List ℝ) :
    (mppiWeights lambda costs).length = costs.length := by
  simp [mppiWeights, rawWeights]

theorem mppiWeights_pos (lambda : ℝ) (costs : List ℝ) (hne : costs ≠ []) :
    ∀ w ∈ mppiWeights lambda costs, 0 < w := by
  intro w hw
  simp only [mppiWeights, List.mem_map] at hw
  obtain ⟨r, hr, rfl⟩ := hw
  exact div_pos (rawWeights_pos lambda costs r hr) (weightSum_pos lambda costs hne)

theorem mppiWeights_sum (lambda : ℝ) (costs : List ℝ) (hne : costs ≠ []) :
    (mppiWeights lambda costs).sum = 1 := by
  have hS := weightSum_pos lambda costs hne
  simp only [mppiWeights, div_eq_mul_inv]
  rw [List.sum_map_mul_right, List.map_id', ← weightSum_real]
  exact mul_inv_cancel₀ hS.ne'

theorem rawWeights_le_one (lambda : ℝ) (costs : List ℝ) (hne : costs ≠ [])
    (hl : 0 < lambda) : ∀ w ∈ rawWeights lambda costs, w ≤ 1 := by
  intro w hw
  rw [rawWeights_eq, List.mem_map] at hw
  obtain ⟨c, hc, rfl⟩ := hw
  have hmin := (minElement_spec costs hne).2 c hc
  rw [← Real.exp_zero]
  apply Real.exp_le_exp.mpr
  apply div_nonpos_of_nonpos_of_nonneg _ hl.le
  linarith

theorem one_le_weightSum (lambda : ℝ) (costs : List ℝ) (hne : costs ≠ []) :
    1 ≤ weightSum (rawWeights lambda costs) := by
  rw [weightSum_real]
  apply List.single_le_sum (fun x hx => (rawWeights_pos lambda costs x hx).le)
  rw [rawWeights_eq, List.mem_map]
  exact ⟨minElement costs, (minElement_spec costs hne).1, by simp⟩

theorem mppiWeights_le_one (lambda : ℝ) (costs : List ℝ) (hne : costs ≠ []) :
    ∀ w ∈ mppiWeights lambda costs, w ≤ 1 := by
  intro w hw
  rw [← mppiWeights_sum lambda costs hne]
  exact List.single_le_sum (fun x hx => (mppiWeights_pos lambda costs hne x hx).le) w hw

theorem mppiWeights_eq (lambda : ℝ) (costs : List ℝ) :
    mppiWeights lambda costs
      = costs.map (fun c => Real.exp (-(c - minElement costs) / lambda)
          / (costs.map (fun c => Real.exp (-(c - minElement costs) / lambda))).sum) := by
  simp only [mppiWeights, weightSum_real, rawWeights_eq, List.map_map]
  rfl

/-- C17. In exact arithmetic, for every non-empty vector of candidate costs
and `lambda > 0`: `min_cost` is an element of the costs and a lower bound of
them; the weights of `getActionMPPI` are
`exp(-(cost_i - min_cost) / lambda) / sum_j exp(-(cost_j - min_cost) / lambda)`,
one per cost; each weight is in `(0, 1]`; the weights sum to `1`; and the
accumulated `weight_sum` that divides them is at least `1`. -/
theorem mppiWeights_normalised (lambda : ℝ) (candidate_costs : List ℝ)
    (hne : candidate_costs ≠ []) (hl : 0 < lambda) :
    (minElement candidate_costs ∈ candidate_costs
        ∧ ∀ c ∈ candidate_costs, minElement candidate_costs ≤ c)
      ∧ mppiWeights lambda candidate_costs
          = candidate_costs.map (fun c =>
              Real.exp (-(c - minElement candidate_costs) / lambda)
                / (candidate_costs.map (fun c =>
                    Real.exp (-(c - minElement candidate_costs) / lambda))).sum)
      ∧ (mppiWeights lambda candidate_costs).length = candidate_costs.length
      ∧ (∀ w ∈ mppiWeights lambda candidate_costs, 0 < w ∧ w ≤ 1)
      ∧ (mppiWeights lambda candidate_costs).sum = 1
      ∧ (∀ w ∈ rawWeights lambda candidate_costs, 0 < w ∧ w ≤ 1)
      ∧ 1 ≤ weightSum (rawWeights lambda candidate_costs) :=
  ⟨minElement_spec candidate_costs hne, mppiWeights_eq lambda candidate_costs,
    mppiWeights_length lambda candidate_costs,
    fun w hw => ⟨mppiWeights_pos lambda candidate_costs hne w hw,
      mppiWeights_le_one lambda candidate_costs hne w hw⟩,
    mppiWeights_sum lambda candidate_costs hne,
    fun w hw => ⟨rawWeights_pos lambda candidate_costs w hw,
      rawWeights_le_one lambda candidate_costs hne hl w hw⟩,
    one_le_weightSum lambda candidate_costs hne⟩

/-- Witness of C17: the costs `3, 1, 2` with `lambda = 1`. -/
theorem mppiWeights_normalised_witness :
    (minElement [(3 : ℝ), 1, 2] ∈ [(3 : ℝ), 1, 2]
        ∧ ∀ c ∈ [(3 : ℝ), 1, 2], minElement [(3 : ℝ), 1, 2] ≤ c)
      ∧ mppiWeights 1 [(3 : ℝ), 1, 2]
          = [(3 : ℝ), 1, 2].map (fun c =>
              Real.exp (-(c - minElement [(3 : ℝ), 1, 2]) / 1)
                / ([(3 : ℝ), 1, 2].map (fun c =>
                    Real.exp (-(c - minElement [(3 : ℝ), 1, 2]) / 1))).sum)
      ∧ (mppiWeights 1 [(3 : ℝ), 1, 2]).length = [(3 : ℝ), 1, 2].length
      ∧ (∀ w ∈ mppiWeights 1 [(3 : ℝ), 1, 2], 0 < w ∧ w ≤ 1)
      ∧ (mppiWeights 1 [(3 : ℝ), 1, 2]).sum = 1
      ∧ (∀ w ∈ rawWeights 1 [(3 : ℝ), 1, 2], 0 < w ∧ w ≤ 1)
      ∧ 1 ≤ weightSum (rawWeights 1 [(3 : ℝ), 1, 2]) :=
  mppiWeights_normalised 1 [3, 1, 2] (by simp) one_pos

end MppiWeights

/-! ## MPPI update within the control bounds -/

section MppiBounds

theorem evalCosts_total (cost : List ℝ → Option ℝ) (hcost : ∀ x, ∃ c, cost x = some c)
    (cs : List (List ℝ)) :
    ∃ vs, evalCosts cost cs = some vs ∧ vs.length = cs.length := by
  induction cs with
  | nil => exact ⟨[], rfl, rfl⟩
  | cons c cs ih =>
    obtain ⟨vs, hvs, hl⟩ := ih
    obtain ⟨v, hv⟩ := hcost c
    exact ⟨v :: vs, by simp [evalCosts, hvs, hv], by simp [hl]⟩

/-- Result of `getActionMPPI` when every candidate has a cost. -/
theorem getActionMPPI_of_costs (HorizonDim : Nat) (p : PlannerMpc ℝ)
    (draw : Nat → Nat → Nat → ℝ) (cost : List ℝ → Option ℝ) (H0_in : Isometry ℝ)
    (hH : HorizonDim ≠ 0) (hcost : ∀ x, ∃ c, cost x = some c) :
    ∃ candidate_costs : List ℝ,
      candidate_costs.length = p.num_samples.toNat
      ∧ evalCosts cost ((List.range p.num_samples.toNat).map
          (fun i => sampleCandidate HorizonDim p (warmStart HorizonDim p.U) (draw i)))
          = some candidate_costs
      ∧ getActionMPPI HorizonDim p draw cost H0_in
        = some (weightedAverage (ActionDim * HorizonDim)
              (mppiWeights p.mppi_lambda candidate_costs)
              ((List.range p.num_samples.toNat).map
                (fun i => sampleCandidate HorizonDim p (warmStart HorizonDim p.U) (draw i))),
            { p with
              H_0 := H0_in,
              U := recedeHorizonMPPI HorizonDim (warmStart HorizonDim p.U)
                (weightedAverage (ActionDim * HorizonDim)
                  (mppiWeights p.mppi_lambda candidate_costs)
                  ((List.range p.num_samples.toNat).map
                    (fun i => sampleCandidate HorizonDim p (warmStart HorizonDim p.U)
                      (draw i)))) }) := by
  obtain ⟨vs, hvs, hl⟩ := evalCosts_total cost hcost ((List.range p.num_samples.toNat).map
    (fun i => sampleCandidate HorizonDim p (warmStart HorizonDim p.U) (draw i)))
  refine ⟨vs, by simpa using hl, hvs, ?_⟩
  simp only [getActionMPPI, hH, if_false, hvs]

theorem cost_plannerOneSample (x : List ℝ) :
    ∃ c, cost keepAll 1 plannerOneSample x = some c :=
  ⟨_, cost_of_mesh keepAll 1 plannerOneSample x (fun _ => 0)
    (fun pose => meshCollisionCost_no_mesh plannerOneSample rfl pose)⟩

end MppiBounds

/-! ## Horizon shift of the two optimizers compared -/

section ShiftCompared

theorem warmStart_plannerOneSample :
    warmStart 1 plannerOneSample.U = List.replicate ActionDim 0 := by
  simp [warmStart, plannerOneSample, ActionDim]

theorem sampleCandidate_plannerOneSample :
    sampleCandidate 1 plannerOneSample (List.replicate ActionDim 0) (constantDraw 0)
      = List.replicate ActionDim (1 / 20) := by
  simp [sampleCandidate, sampleEntry, ActionDim, List.range_succ, stdMin, stdMax,
    plannerOneSample, constantDraw, List.replicate]
  norm_num

theorem mppiWeights_single (lambda c : ℝ) : mppiWeights lambda [c] = [1] := by
  simp [mppiWeights, rawWeights, minElement, weightSum]

theorem getActionMPPI_plannerOneSample :
    ∃ p', getActionMPPI 1 plannerOneSample constantDraw (cost keepAll 1 plannerOneSample)
        Isometry.identity = some (List.replicate ActionDim (1 / 20), p')
      ∧ p'.U = List.replicate ActionDim (1 / 20) := by
  obtain ⟨costs, hl, _, hres⟩ := getActionMPPI_of_costs 1 plannerOneSample constantDraw
    (cost keepAll 1 plannerOneSample) Isometry.identity (by decide) cost_plannerOneSample
  have hN : plannerOneSample.num_samples.toNat = 1 := rfl
  rw [hN] at hl hres
  match costs, hl with
  | [c], _ =>
    have hU : weightedAverage (ActionDim * 1) (mppiWeights plannerOneSample.mppi_lambda [c])
        ((List.range 1).map (fun i => sampleCandidate 1 plannerOneSample
          (warmStart 1 plannerOneSample.U) (constantDraw i)))
        = List.replicate ActionDim (1 / 20) := by
      rw [mppiWeights_single, warmStart_plannerOneSample]
      have hr : List.range 1 = [0] := rfl
      simp only [hr, List.map_cons, List.map_nil, sampleCandidate_plannerOneSample]
      simp [weightedAverage, ActionDim, List.replicate]
    rw [hU] at hres
    exact ⟨_, hres, by simp [recedeHorizonMPPI]⟩

theorem getAction_plannerOneSample (U_opt : List ℝ) :
    (getAction 1 plannerOneSample (fun _ => U_opt) Isometry.identity).2.U
      = List.replicate ActionDim 0 := by
  rw [(getAction_fst 1 plannerOneSample (fun _ => U_opt) Isometry.identity (le_refl _)).2,
    recedeHorizon_one _ _ (warmStart_length 1 _)]
  simp

theorem replicate_twentieth_ne_zero :
    List.replicate ActionDim (1 / 20 : ℝ) ≠ List.replicate ActionDim 0 := by
  simp [ActionDim, List.replicate]

/-- C19. With one step in the horizon the two horizon shifts differ: for the
default-constructed planner with one candidate and every draw `1/20`,
`getActionMPPI` returns `U_opt = (1/20, ..., 1/20)` and leaves `U = U_opt`,
while `getAction` with the same `U_opt` as solver result leaves `U` all
zero. For two or more steps and a buffer of `ActionDim * HorizonDim` entries
the two shifts leave the same buffer, for every `U_opt`. -/
theorem horizon_shift_one_step_differs :
    (∃ U_opt p',
      getActionMPPI 1 plannerOneSample constantDraw (cost keepAll 1 plannerOneSample)
          Isometry.identity = some (U_opt, p')
        ∧ U_opt = List.replicate ActionDim (1 / 20)
        ∧ p'.U = U_opt
        ∧ (getAction 1 plannerOneSample (fun _ => U_opt) Isometry.identity).1 = U_opt
        ∧ (getAction 1 plannerOneSample (fun _ => U_opt) Isometry.identity).2.U
            = List.replicate ActionDim 0
        ∧ p'.U ≠ (getAction 1 plannerOneSample (fun _ => U_opt) Isometry.identity).2.U)
    ∧ recedeHorizonMPPI 1 (List.replicate ActionDim (0 : ℝ)) (List.replicate ActionDim (1 / 20))
        ≠ recedeHorizon 1 (List.replicate ActionDim (0 : ℝ)) (List.replicate ActionDim (1 / 20))
    ∧ ∀ (HorizonDim : Nat) (U U_opt : List ℝ), 2 ≤ HorizonDim →
        U.length = ActionDim * HorizonDim →
        recedeHorizonMPPI HorizonDim U U_opt = recedeHorizon HorizonDim U U_opt := by
  obtain ⟨p', h1, h2⟩ := getActionMPPI_plannerOneSample
  refine ⟨⟨_, p', h1, rfl, h2,
    (getAction_fst 1 plannerOneSample _ Isometry.identity (le_refl _)).1,
    getAction_plannerOneSample _, ?_⟩, ?_, ?_⟩
  · rw [h2, getAction_plannerOneSample]
    exact replicate_twentieth_ne_zero
  · rw [recedeHorizon_one _ _ (by simp)]
    simpa [recedeHorizonMPPI] using replicate_twentieth_ne_zero
  · intro HorizonDim U U_opt hH hU
    exact recedeHorizonMPPI_eq HorizonDim U U_opt hH hU

end ShiftCompared

/-! ## Rotation built from Euler angles -/

section ProperRotation

theorem angleAxisZ_toMatrix (θ : ℝ) :
    (angleAxisZ θ).toMatrix
      = !![Real.cos θ, -Real.sin θ, 0; Real.sin θ, Real.cos θ, 0; 0, 0, 1] := by
  simp [Mat3.toMatrix, angleAxisZ]

theorem angleAxisY_toMatrix (θ : ℝ) :
    (angleAxisY θ).toMatrix
      = !![Real.cos θ, 0, Real.sin θ; 0, 1, 0; -Real.sin θ, 0, Real.cos θ] := by
  simp [Mat3.toMatrix, angleAxisY]

theorem angleAxisX_toMatrix (θ : ℝ) :
    (angleAxisX θ).toMatrix
      = !![1, 0, 0; 0, Real.cos θ, -Real.sin θ; 0, Real.sin θ, Real.cos θ] := by
  simp [Mat3.toMatrix, angleAxisX]

theorem stateToIsometry_toMatrix (t e : Vec3 ℝ) :
    (stateToIsometry t e).linear.toMatrix
      = !![Real.cos e.z, -Real.sin e.z, 0; Real.sin e.z, Real.cos e.z, 0; 0, 0, 1]
        * !![Real.cos e.y, 0, Real.sin e.y; 0, 1, 0; -Real.sin e.y, 0, Real.cos e.y]
        * !![1, 0, 0; 0, Real.cos e.x, -Real.sin e.x; 0, Real.sin e.x, Real.cos e.x] := by
  simp only [stateToIsometry, Mat3.toMatrix_mul, angleAxisZ_toMatrix, angleAxisY_toMatrix,
    angleAxisX_toMatrix]

theorem stateToIsometry_det (t e : Vec3 ℝ) :
    (stateToIsometry t e).linear.toMatrix.det = 1 := by
  have hx := Real.sin_sq_add_cos_sq e.x
  have hy := Real.sin_sq_add_cos_sq e.y
  have hz := Real.sin_sq_add_cos_sq e.z
  rw [stateToIsometry_toMatrix, Matrix.det_mul, Matrix.det_mul, Matrix.det_fin_three,
    Matrix.det_fin_three, Matrix.det_fin_three]
  simp
  have e1 : Real.cos e.z * Real.cos e.z + Real.sin e.z * Real.sin e.z = 1 := by nlinarith
  have e2 : Real.cos e.y * Real.cos e.y + Real.sin e.y * Real.sin e.y = 1 := by nlinarith
  have e3 : Real.cos e.x * Real.cos e.x + Real.sin e.x * Real.sin e.x = 1 := by nlinarith
  rw [e1, e2, e3]
  norm_num

/-- C21. In exact arithmetic, for every position and every Euler triple
`eulZYX = (roll, pitch, yaw)`: the linear part of `stateToIsometry` has
orthonormal columns (`Rᵀ R = I`) and determinant `+1`, it is the matrix
product `Rz(yaw) * Ry(pitch) * Rx(roll)`, and the translation part is the
given position. -/
theorem stateToIsometry_proper_rotation (position eulZYX : Vec3 ℝ) :
    (stateToIsometry position eulZYX).linear.IsOrthonormal
      ∧ (stateToIsometry position eulZYX).linear.toMatrix.det = 1
      ∧ (stateToIsometry position eulZYX).linear.toMatrix
          = !![Real.cos eulZYX.z, -Real.sin eulZYX.z, 0;
               Real.sin eulZYX.z, Real.cos eulZYX.z, 0;
               0, 0, 1]
            * !![Real.cos eulZYX.y, 0, Real.sin eulZYX.y;
                 0, 1, 0;
                 -Real.sin eulZYX.y, 0, Real.cos eulZYX.y]
            * !![1, 0, 0;
                 0, Real.cos eulZYX.x, -Real.sin eulZYX.x;
                 0, Real.sin eulZYX.x, Real.cos eulZYX.x]
      ∧ (stateToIsometry position eulZYX).translation = position :=
  ⟨stateToIsometry_orthonormal position eulZYX, stateToIsometry_det position eulZYX,
    stateToIsometry_toMatrix position eulZYX, rfl⟩

end ProperRotation

/-! ## Setting the warm-start buffer -/

section SetAction

variable {α : Type} [Scalar α]

theorem setAction_of_eq (HorizonDim : Nat) (p : PlannerMpc α) (U_init : List α)
    (h : U_init.length = ActionDim * HorizonDim) :
    setAction HorizonDim p U_init = { p with U := U_init } := by
  simp only [setAction, h, if_true]

theorem setAction_of_ne (HorizonDim : Nat) (p : PlannerMpc α) (U_init : List α)
    (h : U_init.length ≠ ActionDim * HorizonDim) :
    setAction HorizonDim p U_init = p := by
  simp only [setAction, h, if_false]

theorem warmStart_of_ne (HorizonDim : Nat) (U : List α)
    (h : U.length ≠ ActionDim * HorizonDim) :
    warmStart HorizonDim U = List.replicate (ActionDim * HorizonDim) (Scalar.lit 0) := by
  simp only [warmStart, h, if_false]

theorem warmStart_of_eq (HorizonDim : Nat) (U : List α)
    (h : U.length = ActionDim * HorizonDim) :
    warmStart HorizonDim U = U := by
  simp only [warmStart, h, if_true]

theorem passingControls_ne_zero :
    passingControls ≠ List.replicate (ActionDim * 2) (0 : ℝ) := by
  simp [passingControls, ActionDim, List.replicate]

/-- C24, counterexample. The planner `plannerWarm` holds the two-step buffer
`passingControls`. `setAction` with the one-entry sequence `[1]` (horizon 2,
expected length 12) leaves the buffer as `passingControls`, which is not the
zero buffer; on the default-constructed planner, whose buffer is empty, the
same call leaves the buffer empty. -/
theorem setAction_mismatch_not_zeroed :
    ([(1 : ℝ)].length ≠ ActionDim * 2)
      ∧ (setAction 2 plannerWarm [1]).U = passingControls
      ∧ (setAction 2 plannerWarm [1]).U ≠ List.replicate (ActionDim * 2) 0
      ∧ (setAction 2 defaultPlanner [1]).U = []
      ∧ (setAction 2 defaultPlanner [1]).U ≠ List.replicate (ActionDim * 2) 0 := by
  have h : [(1 : ℝ)].length ≠ ActionDim * 2 := by decide
  refine ⟨h, ?_, ?_, ?_, ?_⟩
  · rw [setAction_of_ne 2 plannerWarm [1] h]; rfl
  · rw [setAction_of_ne 2 plannerWarm [1] h]; exact passingControls_ne_zero
  · rw [setAction_of_ne 2 defaultPlanner [1] h]; rfl
  · rw [setAction_of_ne 2 defaultPlanner [1] h]
    simp [defaultPlanner, ActionDim, List.replicate]

/-- C24, amended. For every arithmetic and every `U_init` whose length
differs from `ActionDim * HorizonDim`, `setAction` leaves the planner as it
was, the buffer `U` included. The zero buffer of `ActionDim * HorizonDim`
entries is what the next `getAction` or `getActionMPPI` starts from when the
buffer kept does not have that length; a buffer of that length is kept. -/
theorem setAction_mismatch_unchanged (HorizonDim : Nat) (p : PlannerMpc α) (U_init : List α)
    (h : U_init.length ≠ ActionDim * HorizonDim) :
    setAction HorizonDim p U_init = p
      ∧ (p.U.length ≠ ActionDim * HorizonDim →
          warmStart HorizonDim (setAction HorizonDim p U_init).U
            = List.replicate (ActionDim * HorizonDim) (Scalar.lit 0))
      ∧ (p.U.length = ActionDim * HorizonDim →
          warmStart HorizonDim (setAction HorizonDim p U_init).U = p.U) := by
  rw [setAction_of_ne HorizonDim p U_init h]
  exact ⟨rfl, warmStart_of_ne HorizonDim p.U, warmStart_of_eq HorizonDim p.U⟩

/-- C25. For every arithmetic, planner and `U_init`: after `setAction` the
buffer `U` is `U_init` when `U_init` has `ActionDim * HorizonDim` entries
and the buffer of before otherwise, and the planner differs from the planner
of before in the field `U` at most. -/
theorem setAction_wholesale (HorizonDim : Nat) (p : PlannerMpc α) (U_init : List α) :
    (setAction HorizonDim p U_init).U
        = (if U_init.length = ActionDim * HorizonDim then U_init else p.U)
      ∧ setAction HorizonDim p U_init
          = { p with U := (setAction HorizonDim p U_init).U } := by
  by_cases h : U_init.length = ActionDim * HorizonDim
  · rw [setAction_of_eq HorizonDim p U_init h, if_pos h]
    exact ⟨rfl, rfl⟩
  · rw [setAction_of_ne HorizonDim p U_init h, if_neg h]
    exact ⟨rfl, rfl⟩

end SetAction

/-- Witness of C24 as amended: the one-entry sequence `[1]` for horizon 2 on
the planner `plannerWarm`. -/
theorem setAction_mismatch_unchanged_witness :
    ([(1 : ℝ)].length ≠ ActionDim * 2)
      ∧ setAction 2 plannerWarm [1] = plannerWarm
      ∧ (plannerWarm.U.length ≠ ActionDim * 2 →
          warmStart 2 (setAction 2 plannerWarm [1]).U
            = List.replicate (ActionDim * 2) (Scalar.lit 0))
      ∧ (plannerWarm.U.length = ActionDim * 2 →
          warmStart 2 (setAction 2 plannerWarm [1]).U = plannerWarm.U) :=
  ⟨by decide, setAction_mismatch_unchanged 2 plannerWarm [1] (by decide)⟩
/-! ## Fusion run twice, and what fusion stores -/

section FusionAgain

theorem foldl_fuseStep_again {α : Type} [Scalar α] (p : PlannerMpc α)
    (l : List (Isometry α)) :
    ∀ acc : List (Isometry α), ∃ s : List (Isometry α),
      l.foldl (fuseStep p) acc = acc ++ s ∧ s.foldl (fuseStep p) acc = acc ++ s := by
  induction l with
  | nil => intro acc; exact ⟨[], by simp, by simp⟩
  | cons w l ih =>
    intro acc
    rcases fuseStep_cases p acc w with h | h
    · obtain ⟨s, hs, hl⟩ := ih acc
      exact ⟨s, by simp [List.foldl_cons, h, hs], hl⟩
    · obtain ⟨s, hs, hl⟩ := ih (acc ++ [w])
      exact ⟨w :: s, by simp [List.foldl_cons, h, hs], by simp [List.foldl_cons, h, hl]⟩

theorem fuseWaypoints_twice {α : Type} [Scalar α] (p : PlannerMpc α)
    (waypoints : List (Isometry α)) :
    fuseWaypoints p (fuseWaypoints p waypoints) = fuseWaypoints p waypoints := by
  cases waypoints with
  | nil => rfl
  | cons front rest =>
    obtain ⟨s, hs, hl⟩ := foldl_fuseStep_again p rest.dropLast [front]
    have h1 : fuseWaypoints p (front :: rest) = front :: (s ++ [rest.getLastD front]) := by
      simp [fuseWaypoints, hs]
    rw [h1, fuseWaypoints_interior, hl]
    simp

theorem fuseWaypoints_mem {α : Type} [Scalar α] (p : PlannerMpc α)
    (waypoints : List (Isometry α)) (w : Isometry α) (h : w ∈ fuseWaypoints p waypoints) :
    w ∈ waypoints := by
  cases waypoints with
  | nil => simp [fuseWaypoints] at h
  | cons front rest =>
    obtain ⟨s, hs, hsub⟩ := foldl_fuseStep_sublist p rest.dropLast [front]
    have h1 : fuseWaypoints p (front :: rest) = front :: (s ++ [rest.getLastD front]) := by
      simp [fuseWaypoints, hs]
    rw [h1, List.mem_cons, List.mem_append, List.mem_singleton] at h
    rcases h with h | h | h
    · rw [h]; exact List.mem_cons_self _ _
    · exact List.mem_cons_of_mem _ ((List.dropLast_sublist rest).subset (hsub.subset h))
    · rw [h]
      cases rest with
      | nil => exact List.mem_cons_self _ _
      | cons a l =>
        apply List.mem_cons_of_mem
        rw [List.getLastD_eq_getLast?]
        have := List.getLast_mem (List.cons_ne_nil a l)
        rw [List.getLast?_eq_getLast _ (List.cons_ne_nil a l)]
        exact this

/-- C29. For every arithmetic, planner (the fusion tolerances are fields of
it) and waypoint list, the empty and the one-element list included,
`fuseWaypoints (fuseWaypoints w) = fuseWaypoints w`. -/
theorem fuseWaypoints_idempotent {α : Type} [Scalar α] (p : PlannerMpc α)
    (waypoints : List (Isometry α)) :
    fuseWaypoints p (fuseWaypoints p waypoints) = fuseWaypoints p waypoints :=
  fuseWaypoints_twice p waypoints

theorem fuseStep_identity_nearStepX :
    fuseStep defaultPlanner [Isometry.identity] nearStepX = [Isometry.identity] := by
  have hn : Real.sqrt ((0 - 1 / 200) * (0 - 1 / 200)) = 1 / 200 := by
    have e : ((0 : ℝ) - 1 / 200) * (0 - 1 / 200) = (1 / 200) ^ 2 := by norm_num
    rw [e, Real.sqrt_sq (by norm_num)]
  simp only [fuseStep, List.getLastD, List.getLast, homogeneousError, head3_mkVec6,
    tail3_mkVec6, relativeRotation_identity_nearStepX, orientationError_identity]
  simp only [Vec3.sub, Vec3.norm, Isometry.identity, nearStepX, defaultPlanner,
    lit_real, lt_real, sqrt_real, Rat.cast_zero, sub_self, mul_zero, add_zero, hn,
    Real.sqrt_zero]
  norm_num

/-- C26, the code at the failing input. The waypoints are the identity pose,
the pose `nearStepX` at `(1/200, 0, 0)` (within both fusion tolerances of
the identity pose) and the pose `unitStepX` at `(1, 0, 0)`. The output of
`fuseWaypoints` is the identity pose followed by `unitStepX`: the retained
waypoint keeps its translation `(0, 0, 0)`, which is not the average
`(1/400, 0, 0)` of the two translations. For every arithmetic and input,
every waypoint of the output is a waypoint of the input. -/
theorem fuseWaypoints_no_average :
    fuseStep defaultPlanner [Isometry.identity] nearStepX = [Isometry.identity]
      ∧ fuseWaypoints defaultPlanner [Isometry.identity, nearStepX, unitStepX]
          = [Isometry.identity, unitStepX]
      ∧ (Isometry.identity : Isometry ℝ).translation = ⟨0, 0, 0⟩
      ∧ (Isometry.identity : Isometry ℝ).translation.x
          ≠ ((Isometry.identity : Isometry ℝ).translation.x + nearStepX.translation.x) / 2
      ∧ ∀ (α : Type) [Scalar α] (p : PlannerMpc α) (waypoints : List (Isometry α))
          (w : Isometry α), w ∈ fuseWaypoints p waypoints → w ∈ waypoints := by
  refine ⟨fuseStep_identity_nearStepX, ?_, ?_, ?_, ?_⟩
  · have h := fuseWaypoints_interior defaultPlanner Isometry.identity unitStepX [nearStepX]
    simp only [List.singleton_append, List.foldl_cons, List.foldl_nil,
      fuseStep_identity_nearStepX] at h
    exact h
  · simp [Isometry.identity]
  · simp [Isometry.identity, nearStepX]
    norm_num
  · intro α _ p waypoints w h
    exact fuseWaypoints_mem p waypoints w h

end FusionAgain

/-! ## Mesh collision cost -/

section MeshCost

theorem meshPointCost_eq_add (p : PlannerMpc ℝ) (tree : KdTreeFLANN ℝ) (pose : Isometry ℝ)
    (total_cost : ℝ) (pt : Vec3 ℝ) :
    meshPointCost p tree pose total_cost pt = total_cost + meshPointTerm p tree pose pt := by
  unfold meshPointCost meshPointTerm meshBarrierAt
  simp only
  split
  · simp
  · split
    · rfl
    · simp

theorem foldl_meshPointCost_eq_sum (p : PlannerMpc ℝ) (tree : KdTreeFLANN ℝ)
    (pose : Isometry ℝ) (mesh_points : List (Vec3 ℝ)) :
    ∀ total_cost : ℝ, mesh_points.foldl (meshPointCost p tree pose) total_cost
      = total_cost + (mesh_points.map (meshPointTerm p tree pose)).sum := by
  induction mesh_points with
  | nil => intro t; simp
  | cons pt l ih =>
    intro t
    rw [List.foldl_cons, ih, meshPointCost_eq_add, List.map_cons, List.sum_cons, add_assoc]

theorem meshBarrierAt_of_lt (p : PlannerMpc ℝ) (d : ℝ) (h : d < p.collision_margin) :
    meshBarrierAt p d
      = p.w_obs * (d - p.collision_margin) ^ 2 / (2 * p.collision_margin) := by
  simp only [meshBarrierAt, lt_real, h, decide_True, if_true, lit_real]
  push_cast
  ring

theorem meshBarrierAt_of_le (p : PlannerMpc ℝ) (d : ℝ) (h : p.collision_margin ≤ d) :
    meshBarrierAt p d = 0 := by
  have hn : ¬ d < p.collision_margin := not_lt.mpr h
  simp [meshBarrierAt, hn]

theorem meshBarrierAt_eq_min (p : PlannerMpc ℝ) (d : ℝ) :
    meshBarrierAt p d
      = p.w_obs * (min (d - p.collision_margin) 0) ^ 2 / (2 * p.collision_margin) := by
  rcases lt_or_le d p.collision_margin with h | h
  · rw [meshBarrierAt_of_lt p d h, min_eq_left (by linarith)]
  · rw [meshBarrierAt_of_le p d h, min_eq_right (by linarith)]
    simp

theorem meshBarrierAt_bounds (p : PlannerMpc ℝ) (hw : 0 ≤ p.w_obs)
    (hm : 0 < p.collision_margin) (d : ℝ) (hd : 0 ≤ d) :
    0 ≤ meshBarrierAt p d ∧ meshBarrierAt p d ≤ p.w_obs * p.collision_margin / 2 := by
  rcases lt_or_le d p.collision_margin with h | h
  · rw [meshBarrierAt_of_lt p d h]
    constructor
    · positivity
    · rw [div_le_div_iff₀ (by linarith) two_pos]
      have h1 : (d - p.collision_margin) ^ 2 ≤ p.collision_margin ^ 2 := by nlinarith
      nlinarith [mul_le_mul_of_nonneg_left h1 hw]
  · rw [meshBarrierAt_of_le p d h]
    exact ⟨le_rfl, by positivity⟩

theorem meshBarrierAt_tendsto (p : PlannerMpc ℝ) :
    Filter.Tendsto (meshBarrierAt p) (nhds p.collision_margin) (nhds 0) := by
  have hf : meshBarrierAt p
      = fun d => p.w_obs * (min (d - p.collision_margin) 0) ^ 2 / (2 * p.collision_margin) :=
    funext (meshBarrierAt_eq_min p)
  have hc : Continuous
      (fun d : ℝ => p.w_obs * (min (d - p.collision_margin) 0) ^ 2
        / (2 * p.collision_margin)) := by
    fun_prop
  have h0 : p.w_obs * (min (p.collision_margin - p.collision_margin) 0) ^ 2
      / (2 * p.collision_margin) = 0 := by
    simp
  rw [hf]
  have := hc.tendsto p.collision_margin
  rwa [h0] at this

theorem meshPointTerm_bounds (p : PlannerMpc ℝ) (tree : KdTreeFLANN ℝ) (pose : Isometry ℝ)
    (hw : 0 ≤ p.w_obs) (hm : 0 < p.collision_margin) (pt : Vec3 ℝ) :
    0 ≤ meshPointTerm p tree pose pt
      ∧ meshPointTerm p tree pose pt ≤ p.w_obs * p.collision_margin / 2 := by
  unfold meshPointTerm
  split
  · simp only [lit_real, Rat.cast_zero]
    exact ⟨le_rfl, by positivity⟩
  · exact meshBarrierAt_bounds p hw hm _ (Real.sqrt_nonneg _)

theorem sum_meshPointTerm_bounds (p : PlannerMpc ℝ) (tree : KdTreeFLANN ℝ)
    (pose : Isometry ℝ) (hw : 0 ≤ p.w_obs) (hm : 0 < p.collision_margin)
    (mesh_points : List (Vec3 ℝ)) :
    0 ≤ (mesh_points.map (meshPointTerm p tree pose)).sum
      ∧ (mesh_points.map (meshPointTerm p tree pose)).sum
          ≤ mesh_points.length * (p.w_obs * p.collision_margin / 2) := by
  induction mesh_points with
  | nil => simp
  | cons pt l ih =>
    obtain ⟨h1, h2⟩ := meshPointTerm_bounds p tree pose hw hm pt
    obtain ⟨i1, i2⟩ := ih
    simp only [List.map_cons, List.sum_cons, List.length_cons, Nat.cast_add, Nat.cast_one]
    constructor
    · linarith
    · linarith

theorem meshCollisionCost_eq_sum (p : PlannerMpc ℝ) (tree : KdTreeFLANN ℝ)
    (htree : p.kd_tree = some tree) (pose : Isometry ℝ) :
    meshCollisionCost p pose
      = some ((p.ee_mesh_cloud.map (meshPointTerm p tree pose)).sum) := by
  rw [meshCollisionCost_of_tree p tree htree, foldl_meshPointCost_eq_sum, zero_add]

/-- C22. In exact arithmetic, with `w_obs >= 0` and `collision_margin > 0`.
With the tree set, `meshCollisionCost` of every pose is the sum over the `n`
mesh points of the amount of each point, it is non-negative and at most
`n * w_obs * collision_margin / 2`. The amount of a point is `0` when the
search finds no neighbour and otherwise the value at the neighbour distance
`d` of the barrier, which is `w_obs * (d - collision_margin)^2 /
(2 * collision_margin)` for `d < collision_margin` and `0` from the margin
on, lies between `0` and `w_obs * collision_margin / 2` for every `d >= 0`,
and tends to `0` as `d` tends to the margin. With an empty mesh the cost is
`0`. -/
theorem meshCollisionCost_spec (p : PlannerMpc ℝ) (hw : 0 ≤ p.w_obs)
    (hm : 0 < p.collision_margin) :
    (∀ tree, p.kd_tree = some tree → ∀ pose : Isometry ℝ,
        ∃ c : ℝ, meshCollisionCost p pose = some c
          ∧ c = (p.ee_mesh_cloud.map (fun pt =>
                  match tree.nearestKSearch
                      ((pose.linear.mulVec pt).add pose.translation) with
                  | none => 0
                  | some nn_dist2 => meshBarrierAt p (Real.sqrt nn_dist2))).sum
          ∧ 0 ≤ c
          ∧ c ≤ p.ee_mesh_cloud.length * (p.w_obs * p.collision_margin / 2))
      ∧ (∀ d, d < p.collision_margin →
          meshBarrierAt p d
            = p.w_obs * (d - p.collision_margin) ^ 2 / (2 * p.collision_margin))
      ∧ (∀ d, p.collision_margin ≤ d → meshBarrierAt p d = 0)
      ∧ (∀ d, 0 ≤ d →
          0 ≤ meshBarrierAt p d ∧ meshBarrierAt p d ≤ p.w_obs * p.collision_margin / 2)
      ∧ Filter.Tendsto (meshBarrierAt p) (nhds p.collision_margin) (nhds 0)
      ∧ (p.ee_mesh_cloud = [] → ∀ pose : Isometry ℝ, meshCollisionCost p pose = some 0) := by
  refine ⟨?_, meshBarrierAt_of_lt p, meshBarrierAt_of_le p, meshBarrierAt_bounds p hw hm,
    meshBarrierAt_tendsto p, meshCollisionCost_no_mesh p⟩
  intro tree htree pose
  obtain ⟨h1, h2⟩ := sum_meshPointTerm_bounds p tree pose hw hm p.ee_mesh_cloud
  refine ⟨_, meshCollisionCost_eq_sum p tree htree pose, ?_, h1, h2⟩
  congr 1
  apply List.map_congr_left
  intro pt _
  cases h : tree.nearestKSearch ((pose.linear.mulVec pt).add pose.translation) with
  | none => simp [meshPointTerm, h]
  | some nn_dist2 => simp [meshPointTerm, h]

/-- Witness of C22: the planner `plannerWithMesh` with one mesh point, the
default `w_obs = 5` and `collision_margin = 0.05`. -/
theorem meshCollisionCost_spec_witness :
    (0 ≤ plannerWithMesh.w_obs ∧ 0 < plannerWithMesh.collision_margin)
    ∧ (∀ tree, plannerWithMesh.kd_tree = some tree → ∀ pose : Isometry ℝ,
        ∃ c : ℝ, meshCollisionCost plannerWithMesh pose = some c
          ∧ c = (plannerWithMesh.ee_mesh_cloud.map (fun pt =>
                  match tree.nearestKSearch
                      ((pose.linear.mulVec pt).add pose.translation) with
                  | none => 0
                  | some nn_dist2 => meshBarrierAt plannerWithMesh (Real.sqrt nn_dist2))).sum
          ∧ 0 ≤ c
          ∧ c ≤ plannerWithMesh.ee_mesh_cloud.length
              * (plannerWithMesh.w_obs * plannerWithMesh.collision_margin / 2))
      ∧ (∀ d, d < plannerWithMesh.collision_margin →
          meshBarrierAt plannerWithMesh d
            = plannerWithMesh.w_obs * (d - plannerWithMesh.collision_margin) ^ 2
                / (2 * plannerWithMesh.collision_margin))
      ∧ (∀ d, plannerWithMesh.collision_margin ≤ d → meshBarrierAt plannerWithMesh d = 0)
      ∧ (∀ d, 0 ≤ d →
          0 ≤ meshBarrierAt plannerWithMesh d
            ∧ meshBarrierAt plannerWithMesh d
                ≤ plannerWithMesh.w_obs * plannerWithMesh.collision_margin / 2)
      ∧ Filter.Tendsto (meshBarrierAt plannerWithMesh)
          (nhds plannerWithMesh.collision_margin) (nhds 0)
      ∧ (plannerWithMesh.ee_mesh_cloud = [] →
          ∀ pose : Isometry ℝ, meshCollisionCost plannerWithMesh pose = some 0) := by
  have hw : 0 ≤ plannerWithMesh.w_obs := by simp [plannerWithMesh]
  have hm : 0 < plannerWithMesh.collision_margin := by simp [plannerWithMesh]
  exact ⟨⟨hw, hm⟩, meshCollisionCost_spec plannerWithMesh hw hm⟩

end MeshCost

/-! ## Minimum number of visible points -/

section MinVisible

theorem toInt_real_of_nonneg (x : ℝ) (h : 0 ≤ x) : (Scalar.toInt x : Int) = ⌊x⌋ := by
  show (if 0 ≤ x then ⌊x⌋ else ⌈x⌉) = ⌊x⌋
  rw [if_pos h]

theorem generateWaypointsSetup_of_cloud {α : Type} [Scalar α] (p : PlannerMpc α)
    (init goal : Isometry α) (cloud : List (Vec3 α)) (hcloud : p.obstacle_cloud = some cloud) :
    generateWaypointsSetup p init goal
      = some { p with
          H_0 := init,
          H_goal := goal,
          min_visible_points :=
            Scalar.toInt (p.min_visible_ratio * Scalar.ofNat cloud.length) } := by
  simp only [generateWaypointsSetup, hcloud]

theorem visibilityCost_eq_zero_iff (pcl : PclFilters ℝ) (p : PlannerMpc ℝ)
    (points : List (Vec3 ℝ)) (hcloud : p.obstacle_cloud = some points) (hne : points ≠ [])
    (halpha : 0 < p.alpha_visibility) (pose : Isometry ℝ) :
    visibilityCost pcl p pose = 0
      ↔ p.min_visible_points ≤ (visibleCount pcl p points pose : Int) := by
  rw [visibilityCost_of_cloud pcl p points hcloud hne]
  constructor
  · intro h
    by_contra hlt
    have h' : ((visibleCount pcl p points pose : Int) : ℝ) < (p.min_visible_points : ℝ) :=
      Int.cast_lt.mpr (not_le.mp hlt)
    have hd : (0 : ℝ) < (p.min_visible_points : ℝ) - (visibleCount pcl p points pose : ℝ) := by
      simpa using h'
    rw [if_pos hd] at h
    have hpos := mul_pos halpha hd
    linarith [Real.add_one_lt_exp (ne_of_gt hpos)]
  · intro h
    have h' : (p.min_visible_points : ℝ) ≤ ((visibleCount pcl p points pose : Int) : ℝ) :=
      Int.cast_le.mpr h
    rw [if_neg]
    simpa using h'

theorem min_visible_points_of_setup (p : PlannerMpc ℝ) (init goal : Isometry ℝ)
    (cloud : List (Vec3 ℝ)) (hcloud : p.obstacle_cloud = some cloud)
    (hratio : 0 ≤ p.min_visible_ratio) :
    ∃ p' : PlannerMpc ℝ, generateWaypointsSetup p init goal = some p'
      ∧ p'.min_visible_points = ⌊p.min_visible_ratio * cloud.length⌋
      ∧ p'.obstacle_cloud = some cloud
      ∧ p'.alpha_visibility = p.alpha_visibility := by
  refine ⟨_, generateWaypointsSetup_of_cloud p init goal cloud hcloud, ?_, hcloud, rfl⟩
  exact toInt_real_of_nonneg _ (mul_nonneg hratio (Nat.cast_nonneg _))

theorem threePoints_floor : ⌊(1 / 2 : ℝ) * (3 : ℕ)⌋ = 1 := by
  rw [Int.floor_eq_iff]
  norm_num

/-- C23, counterexample. The default-constructed planner has
`min_visible_ratio = 0.5`; with the three obstacle points `threePoints` the
call of `generateWaypoints` sets `min_visible_points = 1`, which is not
`0.5 * 3`. With that threshold a pose that sees one point only (the filter
`keepFirst`) has visibility cost `0`: it is not penalised. -/
theorem min_visible_points_truncated :
    ∃ p' : PlannerMpc ℝ,
      generateWaypointsSetup plannerThreePoints Isometry.identity goalPose = some p'
        ∧ p'.min_visible_points = 1
        ∧ (p'.min_visible_points : ℝ)
            ≠ plannerThreePoints.min_visible_ratio * (threePoints.length : ℝ)
        ∧ (∀ (HorizonDim : Nat) (getAction : Nat → Isometry ℝ → List ℝ),
            ∃ r, generateWaypoints HorizonDim plannerThreePoints getAction
                Isometry.identity goalPose = some r
              ∧ r.min_visible_points = 1)
        ∧ ∀ pose : Isometry ℝ,
            visibleCount keepFirst p' threePoints pose = 1
              ∧ visibilityCost keepFirst p' pose = 0 := by
  have hratio : (0 : ℝ) ≤ plannerThreePoints.min_visible_ratio := by
    simp [plannerThreePoints]
  have hval : ⌊plannerThreePoints.min_visible_ratio * (threePoints.length : ℝ)⌋ = 1 := by
    have : plannerThreePoints.min_visible_ratio * (threePoints.length : ℝ)
        = (1 / 2 : ℝ) * (3 : ℕ) := by
      simp [plannerThreePoints, threePoints]
    rw [this, threePoints_floor]
  obtain ⟨p', h1, h2, h3, _⟩ := min_visible_points_of_setup plannerThreePoints
    Isometry.identity goalPose threePoints rfl hratio
  rw [hval] at h2
  refine ⟨p', h1, h2, ?_, ?_, ?_⟩
  · rw [h2]
    simp [plannerThreePoints, threePoints]
    norm_num
  · intro HorizonDim getAction
    refine ⟨_, generateWaypoints_of_cloud HorizonDim plannerThreePoints getAction
      Isometry.identity goalPose threePoints rfl, ?_⟩
    exact (toInt_real_of_nonneg
      (plannerThreePoints.min_visible_ratio * (threePoints.length : ℝ))
      (mul_nonneg hratio (Nat.cast_nonneg _))).trans hval
  · intro pose
    have hv : visibleCount keepFirst p' threePoints pose = 1 := by
      simp [visibleCount, keepFirst, threePoints]
    refine ⟨hv, ?_⟩
    rw [visibilityCost_of_cloud keepFirst p' threePoints h3 (by simp [threePoints]), hv, h2]
    simp

/-- C23, amended. In exact arithmetic, for a planner with the obstacle cloud
set, `min_visible_ratio >= 0` and `min_visible_ratio * n < 2^31`, with `n`
the number of obstacle points (the product is then within the range of a
32-bit `int`): the call of `generateWaypoints` sets the member
`min_visible_points` to the largest integer not above `min_visible_ratio * n`,
which lies between `0` and `2^31 - 1`; and with a non-empty cloud and
`alpha_visibility > 0`, `visibilityCost` of the planner so set is `0` exactly
for the poses whose visible point count is at least that integer. -/
theorem min_visible_points_floor (p : PlannerMpc ℝ) (init goal : Isometry ℝ)
    (cloud : List (Vec3 ℝ)) (hcloud : p.obstacle_cloud = some cloud)
    (hratio : 0 ≤ p.min_visible_ratio)
    (hrange : p.min_visible_ratio * cloud.length < 2147483648) :
    ∃ p' : PlannerMpc ℝ, generateWaypointsSetup p init goal = some p'
      ∧ p'.min_visible_points = ⌊p.min_visible_ratio * cloud.length⌋
      ∧ (0 ≤ p'.min_visible_points ∧ p'.min_visible_points ≤ 2147483647)
      ∧ (∀ (HorizonDim : Nat) (getAction : Nat → Isometry ℝ → List ℝ),
          ∃ r, generateWaypoints HorizonDim p getAction init goal = some r
            ∧ r.min_visible_points = ⌊p.min_visible_ratio * cloud.length⌋)
      ∧ (cloud ≠ [] → 0 < p.alpha_visibility → ∀ (pcl : PclFilters ℝ) (pose : Isometry ℝ),
          (visibilityCost pcl p' pose = 0
            ↔ ⌊p.min_visible_ratio * cloud.length⌋
                ≤ (visibleCount pcl p' cloud pose : Int))) := by
  obtain ⟨p', h1, h2, h3, h4⟩ := min_visible_points_of_setup p init goal cloud hcloud hratio
  refine ⟨p', h1, h2, ?_, ?_, ?_⟩
  · rw [h2]
    refine ⟨Int.floor_nonneg.mpr (mul_nonneg hratio (Nat.cast_nonneg _)), ?_⟩
    have hlt : ⌊p.min_visible_ratio * (cloud.length : ℝ)⌋ < 2147483648 := by
      rw [Int.floor_lt]
      exact_mod_cast hrange
    omega
  · intro HorizonDim getAction
    refine ⟨_, generateWaypoints_of_cloud HorizonDim p getAction init goal cloud hcloud, ?_⟩
    exact toInt_real_of_nonneg _ (mul_nonneg hratio (Nat.cast_nonneg _))
  · intro hne halpha pcl pose
    rw [← h2]
    exact visibilityCost_eq_zero_iff pcl p' cloud h3 hne (by rw [h4]; exact halpha) pose

/-- Witness of C23 as amended: the default-constructed planner with the
three obstacle points `threePoints`. -/
theorem min_visible_points_floor_witness :
    (plannerThreePoints.obstacle_cloud = some threePoints
      ∧ 0 ≤ plannerThreePoints.min_visible_ratio
      ∧ plannerThreePoints.min_visible_ratio * threePoints.length < 2147483648)
    ∧ ∃ p' : PlannerMpc ℝ,
        generateWaypointsSetup plannerThreePoints Isometry.identity goalPose = some p'
      ∧ p'.min_visible_points = ⌊plannerThreePoints.min_visible_ratio * threePoints.length⌋
      ∧ (0 ≤ p'.min_visible_points ∧ p'.min_visible_points ≤ 2147483647)
      ∧ (∀ (HorizonDim : Nat) (getAction : Nat → Isometry ℝ → List ℝ),
          ∃ r, generateWaypoints HorizonDim plannerThreePoints getAction
              Isometry.identity goalPose = some r
            ∧ r.min_visible_points
                = ⌊plannerThreePoints.min_visible_ratio * threePoints.length⌋)
      ∧ (threePoints ≠ [] → 0 < plannerThreePoints.alpha_visibility →
          ∀ (pcl : PclFilters ℝ) (pose : Isometry ℝ),
            (visibilityCost pcl p' pose = 0
              ↔ ⌊plannerThreePoints.min_visible_ratio * threePoints.length⌋
                  ≤ (visibleCount pcl p' threePoints pose : Int))) := by
  have hratio : (0 : ℝ) ≤ plannerThreePoints.min_visible_ratio := by
    simp [plannerThreePoints]
  have hrange : plannerThreePoints.min_visible_ratio * (threePoints.length : ℝ)
      < 2147483648 := by
    simp [plannerThreePoints, threePoints]
    norm_num
  exact ⟨⟨rfl, hratio, hrange⟩,
    min_visible_points_floor plannerThreePoints Isometry.identity goalPose threePoints rfl
      hratio hrange⟩

end MinVisible

/-! ## Pose cost -/

section PoseCost

theorem Vec3.squaredNorm_nonneg (v : Vec3 ℝ) : 0 ≤ v.squaredNorm := by
  simp only [Vec3.squaredNorm]
  nlinarith [mul_self_nonneg v.x, mul_self_nonneg v.y, mul_self_nonneg v.z]

theorem poseCost_nonneg (p : PlannerMpc ℝ) (pose : Isometry ℝ) (wp wq : ℝ) (hwp : 0 ≤ wp)
    (hwq : 0 ≤ wq) (hl : 0 ≤ p.w_look_at_goal) : 0 ≤ poseCost p pose wp wq := by
  unfold poseCost
  simp only
  apply add_nonneg
  · exact add_nonneg (mul_nonneg hwp (Vec3.squaredNorm_nonneg _))
      (mul_nonneg hwq (Vec3.squaredNorm_nonneg _))
  · split
    · rw [mul_assoc]
      exact mul_nonneg hl (mul_self_nonneg _)
    · simp

/-- The third column of a matrix with orthonormal columns has unit length. -/
theorem Mat3.IsOrthonormal.col2_unit {R : Mat3 ℝ} (h : R.IsOrthonormal) :
    R.m02 * R.m02 + R.m12 * R.m12 + R.m22 * R.m22 = 1 := by
  have := congrArg Mat3.m22 h
  simpa [Mat3.transpose, Mat3.mul, Mat3.identity] using this

/-- Look-at term of `poseCost` at the goal pose: the direction to the look-at
point is the camera axis scaled by `look_at_goal_distance`. -/
theorem lookAt_dir_goal (G : Isometry ℝ) (d : ℝ) :
    (G.translation.add (G.linear.mulVec ⟨Scalar.lit 0, Scalar.lit 0, d⟩)).sub G.translation
      = ⟨G.linear.m02 * d, G.linear.m12 * d, G.linear.m22 * d⟩ := by
  simp [Vec3.add, Vec3.sub, Mat3.mulVec]

theorem lookAt_dist_goal (G : Isometry ℝ) (d : ℝ) (h : G.linear.IsOrthonormal) (hd : 0 ≤ d) :
    (⟨G.linear.m02 * d, G.linear.m12 * d, G.linear.m22 * d⟩ : Vec3 ℝ).norm = d := by
  simp only [Vec3.norm, sqrt_real]
  have e : G.linear.m02 * d * (G.linear.m02 * d) + G.linear.m12 * d * (G.linear.m12 * d)
      + G.linear.m22 * d * (G.linear.m22 * d) = d ^ 2 := by
    linear_combination d ^ 2 * h.col2_unit
  rw [e, Real.sqrt_sq hd]

theorem poseCost_goal (p : PlannerMpc ℝ) (wp wq : ℝ) (h : p.H_goal.linear.IsOrthonormal)
    (hd : 0 ≤ p.look_at_goal_distance) : poseCost p p.H_goal wp wq = 0 := by
  unfold poseCost
  simp only [homogeneousError_self_zero p.H_goal h, head3_mkVec6, tail3_mkVec6,
    lookAt_dir_goal, lookAt_dist_goal p.H_goal p.look_at_goal_distance h hd]
  have hz : (⟨0, 0, 0⟩ : Vec3 ℝ).squaredNorm = 0 := by simp [Vec3.squaredNorm]
  rw [hz, mul_zero, mul_zero, zero_add, zero_add]
  split
  · rename_i hlt
    have hpos : 0 < p.look_at_goal_distance := by
      simp only [lt_real, lit_real, decide_eq_true_eq] at hlt
      have : (0 : ℝ) < ((1 / 100000000 : ℚ) : ℝ) := by norm_num
      linarith
    have hc : p.H_goal.linear.col2.dot
        (Vec3.divScalar ⟨p.H_goal.linear.m02 * p.look_at_goal_distance,
          p.H_goal.linear.m12 * p.look_at_goal_distance,
          p.H_goal.linear.m22 * p.look_at_goal_distance⟩ p.look_at_goal_distance) = 1 := by
      simp only [Mat3.col2, Vec3.dot, Vec3.divScalar]
      rw [mul_div_assoc, mul_div_assoc, mul_div_assoc, div_self hpos.ne', mul_one, mul_one,
        mul_one]
      exact h.col2_unit
    rw [hc]
    have h1 : ¬ ((1 : ℝ) < 1) := lt_irrefl 1
    have h2 : ¬ ((1 : ℝ) < -1) := by norm_num
    simp only [lt_real, lit_real, Rat.cast_one, Rat.cast_neg, h1, h2, decide_False,
      Bool.false_eq_true, if_false, acos_real, Real.arccos_one, mul_zero]
  · simp

/-- C28. In exact arithmetic, for non-negative weights `wp`, `wq` and
`w_look_at_goal`: `poseCost` is non-negative at every pose, and when the
goal pose has an orthonormal rotation and `look_at_goal_distance >= 0` the
goal pose has `poseCost` zero, the minimum. -/
theorem poseCost_min_at_goal (p : PlannerMpc ℝ) (wp wq : ℝ) (hwp : 0 ≤ wp) (hwq : 0 ≤ wq)
    (hl : 0 ≤ p.w_look_at_goal) :
    (∀ pose : Isometry ℝ, 0 ≤ poseCost p pose wp wq)
      ∧ (p.H_goal.linear.IsOrthonormal → 0 ≤ p.look_at_goal_distance →
          poseCost p p.H_goal wp wq = 0
            ∧ ∀ pose : Isometry ℝ, poseCost p p.H_goal wp wq ≤ poseCost p pose wp wq) := by
  refine ⟨fun pose => poseCost_nonneg p pose wp wq hwp hwq hl, fun h hd => ?_⟩
  have h0 := poseCost_goal p wp wq h hd
  refine ⟨h0, fun pose => ?_⟩
  rw [h0]
  exact poseCost_nonneg p pose wp wq hwp hwq hl

theorem goalPose_orthonormal : goalPose.linear.IsOrthonormal :=
  identity_orthonormal

/-- Witness of C28: the planner `plannerWithObstacle`, whose goal is
`goalPose`, with the tracking weights `w_p = 100` and `w_q = 10`. -/
theorem poseCost_min_at_goal_witness :
    (0 ≤ plannerWithObstacle.w_p ∧ 0 ≤ plannerWithObstacle.w_q
      ∧ 0 ≤ plannerWithObstacle.w_look_at_goal
      ∧ plannerWithObstacle.H_goal.linear.IsOrthonormal
      ∧ 0 ≤ plannerWithObstacle.look_at_goal_distance)
    ∧ (∀ pose : Isometry ℝ,
        0 ≤ poseCost plannerWithObstacle pose plannerWithObstacle.w_p plannerWithObstacle.w_q)
    ∧ (plannerWithObstacle.H_goal.linear.IsOrthonormal →
        0 ≤ plannerWithObstacle.look_at_goal_distance →
        poseCost plannerWithObstacle plannerWithObstacle.H_goal plannerWithObstacle.w_p
            plannerWithObstacle.w_q = 0
          ∧ ∀ pose : Isometry ℝ,
              poseCost plannerWithObstacle plannerWithObstacle.H_goal plannerWithObstacle.w_p
                  plannerWithObstacle.w_q
                ≤ poseCost plannerWithObstacle pose plannerWithObstacle.w_p
                    plannerWithObstacle.w_q) := by
  have hwp : 0 ≤ plannerWithObstacle.w_p := by simp [plannerWithObstacle]
  have hwq : 0 ≤ plannerWithObstacle.w_q := by simp [plannerWithObstacle]
  have hl : 0 ≤ plannerWithObstacle.w_look_at_goal := by simp [plannerWithObstacle]
  have hd : 0 ≤ plannerWithObstacle.look_at_goal_distance := by
    simp [plannerWithObstacle]
    norm_num
  exact ⟨⟨hwp, hwq, hl, goalPose_orthonormal, hd⟩,
    poseCost_min_at_goal plannerWithObstacle plannerWithObstacle.w_p plannerWithObstacle.w_q
      hwp hwq hl⟩

end PoseCost

/-! ## Orientation error of a half turn -/

section HalfTurn

theorem halfTurn_trace (n : Vec3 ℝ) (hn : n.x * n.x + n.y * n.y + n.z * n.z = 1) :
    (axisAngleRotation n Real.pi).trace = -1 := by
  simp only [Mat3.trace, axisAngleRotation, Real.cos_pi, Real.sin_pi]
  linear_combination 2 * hn

theorem halfTurn_eps (n : Vec3 ℝ) :
    rotationEps (axisAngleRotation n Real.pi) = ⟨0, 0, 0⟩ := by
  simp only [rotationEps, axisAngleRotation, Real.cos_pi, Real.sin_pi, Vec3.mk.injEq]
  refine ⟨?_, ?_, ?_⟩ <;> ring

theorem halfTurn_eps_norm (n : Vec3 ℝ) :
    (rotationEps (axisAngleRotation n Real.pi)).norm = 0 := by
  rw [halfTurn_eps]
  simp [Vec3.norm]

/-- Test `t > -0.99 || eps_norm > 1e-10` of `homogeneousError` at a half
turn: it fails, so the `else` branch is taken. -/
theorem halfTurn_test (n : Vec3 ℝ) (hn : n.x * n.x + n.y * n.y + n.z * n.z = 1) :
    (Scalar.lt (Scalar.lit (-99 / 100)) (axisAngleRotation n Real.pi).trace
      || Scalar.lt (Scalar.lit (1 / 10000000000))
          (rotationEps (axisAngleRotation n Real.pi)).norm) = false := by
  rw [halfTurn_trace n hn, halfTurn_eps_norm]
  simp only [lt_real, lit_real, Bool.or_eq_false_iff, decide_eq_false_iff_not, not_lt]
  constructor <;> norm_num

theorem orientationError_halfTurn (n : Vec3 ℝ)
    (hn : n.x * n.x + n.y * n.y + n.z * n.z = 1) :
    orientationError (axisAngleRotation n Real.pi)
      = ⟨Real.pi * (n.x * n.x), Real.pi * (n.y * n.y), Real.pi * (n.z * n.z)⟩ := by
  unfold orientationError
  simp only [halfTurn_test n hn, Bool.false_eq_true, if_false]
  simp only [axisAngleRotation, Real.cos_pi, half_pi_real, lit_real, Vec3.mk.injEq]
  refine ⟨?_, ?_, ?_⟩ <;> (push_cast; ring)

theorem halfTurn_norm_sq (n : Vec3 ℝ) (hn : n.x * n.x + n.y * n.y + n.z * n.z = 1) :
    Real.pi * (n.x * n.x) * (Real.pi * (n.x * n.x))
        + Real.pi * (n.y * n.y) * (Real.pi * (n.y * n.y))
        + Real.pi * (n.z * n.z) * (Real.pi * (n.z * n.z))
      = Real.pi ^ 2 * (1 - 2 * ((n.x * n.y) ^ 2 + (n.y * n.z) ^ 2 + (n.z * n.x) ^ 2)) := by
  linear_combination Real.pi ^ 2 * (n.x * n.x + n.y * n.y + n.z * n.z + 1) * hn

theorem cross_terms_zero_iff (n : Vec3 ℝ) (hn : n.x * n.x + n.y * n.y + n.z * n.z = 1) :
    (n.x * n.y) ^ 2 + (n.y * n.z) ^ 2 + (n.z * n.x) ^ 2 = 0
      ↔ (n.y = 0 ∧ n.z = 0) ∨ (n.x = 0 ∧ n.z = 0) ∨ (n.x = 0 ∧ n.y = 0) := by
  have _h := hn
  constructor
  · intro h
    have h1 : (n.x * n.y) ^ 2 = 0 := by
      nlinarith [sq_nonneg (n.x * n.y), sq_nonneg (n.y * n.z), sq_nonneg (n.z * n.x)]
    have h2 : (n.y * n.z) ^ 2 = 0 := by
      nlinarith [sq_nonneg (n.x * n.y), sq_nonneg (n.y * n.z), sq_nonneg (n.z * n.x)]
    have h3 : (n.z * n.x) ^ 2 = 0 := by
      nlinarith [sq_nonneg (n.x * n.y), sq_nonneg (n.y * n.z), sq_nonneg (n.z * n.x)]
    have a1 := mul_eq_zero.mp (pow_eq_zero_iff two_ne_zero |>.mp h1)
    have a2 := mul_eq_zero.mp (pow_eq_zero_iff two_ne_zero |>.mp h2)
    have a3 := mul_eq_zero.mp (pow_eq_zero_iff two_ne_zero |>.mp h3)
    rcases a1 with hx | hy
    · rcases a2 with hy | hz
      · exact Or.inr (Or.inr ⟨hx, hy⟩)
      · exact Or.inr (Or.inl ⟨hx, hz⟩)
    · rcases a3 with hz | hx
      · exact Or.inl ⟨hy, hz⟩
      · exact Or.inr (Or.inr ⟨hx, hy⟩)
  · rintro (⟨h1, h2⟩ | ⟨h1, h2⟩ | ⟨h1, h2⟩) <;> simp [h1, h2]

theorem halfTurn_error_norm (n : Vec3 ℝ) (hn : n.x * n.x + n.y * n.y + n.z * n.z = 1) :
    ((orientationError (axisAngleRotation n Real.pi)).norm = Real.pi
        ↔ (n.y = 0 ∧ n.z = 0) ∨ (n.x = 0 ∧ n.z = 0) ∨ (n.x = 0 ∧ n.y = 0))
      ∧ (¬ ((n.y = 0 ∧ n.z = 0) ∨ (n.x = 0 ∧ n.z = 0) ∨ (n.x = 0 ∧ n.y = 0)) →
          (orientationError (axisAngleRotation n Real.pi)).norm < Real.pi) := by
  have hpi := Real.pi_pos
  have hq : 0 ≤ (n.x * n.y) ^ 2 + (n.y * n.z) ^ 2 + (n.z * n.x) ^ 2 := by positivity
  have hnorm : (orientationError (axisAngleRotation n Real.pi)).norm
      = Real.sqrt (Real.pi ^ 2
          * (1 - 2 * ((n.x * n.y) ^ 2 + (n.y * n.z) ^ 2 + (n.z * n.x) ^ 2))) := by
    rw [orientationError_halfTurn n hn]
    simp only [Vec3.norm, sqrt_real]
    rw [halfTurn_norm_sq n hn]
  have hle : Real.pi ^ 2
      * (1 - 2 * ((n.x * n.y) ^ 2 + (n.y * n.z) ^ 2 + (n.z * n.x) ^ 2)) ≤ Real.pi ^ 2 := by
    nlinarith [sq_nonneg Real.pi]
  have hiff : (orientationError (axisAngleRotation n Real.pi)).norm = Real.pi
      ↔ (n.x * n.y) ^ 2 + (n.y * n.z) ^ 2 + (n.z * n.x) ^ 2 = 0 := by
    rw [hnorm]
    constructor
    · intro h
      have h2 := congrArg (fun x => x ^ 2) h
      simp only at h2
      have hnn : 0 ≤ Real.pi ^ 2
          * (1 - 2 * ((n.x * n.y) ^ 2 + (n.y * n.z) ^ 2 + (n.z * n.x) ^ 2)) := by
        by_contra hneg
        rw [Real.sqrt_eq_zero_of_nonpos (le_of_lt (not_le.mp hneg))] at h
        linarith
      rw [Real.sq_sqrt hnn] at h2
      have hp2 : 0 < Real.pi ^ 2 := by positivity
      nlinarith
    · intro h
      rw [h]
      norm_num
      exact Real.sqrt_sq hpi.le
  refine ⟨hiff.trans (cross_terms_zero_iff n hn), fun hno => ?_⟩
  have hne : (n.x * n.y) ^ 2 + (n.y * n.z) ^ 2 + (n.z * n.x) ^ 2 ≠ 0 :=
    fun h => hno ((cross_terms_zero_iff n hn).mp h)
  have hqpos : 0 < (n.x * n.y) ^ 2 + (n.y * n.z) ^ 2 + (n.z * n.x) ^ 2 :=
    lt_of_le_of_ne hq (Ne.symm hne)
  rw [hnorm]
  have hp2 : 0 < Real.pi ^ 2 := by positivity
  calc Real.sqrt (Real.pi ^ 2
          * (1 - 2 * ((n.x * n.y) ^ 2 + (n.y * n.z) ^ 2 + (n.z * n.x) ^ 2)))
      < Real.sqrt (Real.pi ^ 2) := by
        apply Real.sqrt_lt_sqrt_iff_of_pos hp2 |>.mpr
        nlinarith
    _ = Real.pi := Real.sqrt_sq hpi.le

theorem halfTurnZ_axisAngle :
    relativeRotation halfTurnZ Isometry.identity = axisAngleRotation ⟨0, 0, 1⟩ Real.pi := by
  rw [relativeRotation_identity_right]
  simp [halfTurnZ, axisAngleRotation, Real.cos_pi, Real.sin_pi]

/-- C30. In exact arithmetic, when the relative rotation
`H1.rotation() * H2.rotation().transpose()` of two poses is the rotation by
`π` about a unit axis `n`: the test `t > -0.99 || eps_norm > 1e-10` of
`homogeneousError` fails (the singular branch is taken), the rotational part
of the error is `π * (nx^2, ny^2, nz^2)`, its norm is `π` exactly when two
of the three components of `n` are zero (`n` is a coordinate axis), and it
is strictly below `π` for every other axis. -/
theorem homogeneousError_half_turn (H1 H2 : Isometry ℝ) (n : Vec3 ℝ)
    (hn : n.x * n.x + n.y * n.y + n.z * n.z = 1)
    (hrel : relativeRotation H1 H2 = axisAngleRotation n Real.pi) :
    (Scalar.lt (Scalar.lit (-99 / 100)) (relativeRotation H1 H2).trace
        || Scalar.lt (Scalar.lit (1 / 10000000000))
            (rotationEps (relativeRotation H1 H2)).norm) = false
      ∧ tail3 (homogeneousError H1 H2)
          = ⟨Real.pi * (n.x * n.x), Real.pi * (n.y * n.y), Real.pi * (n.z * n.z)⟩
      ∧ ((tail3 (homogeneousError H1 H2)).norm = Real.pi
          ↔ (n.y = 0 ∧ n.z = 0) ∨ (n.x = 0 ∧ n.z = 0) ∨ (n.x = 0 ∧ n.y = 0))
      ∧ (¬ ((n.y = 0 ∧ n.z = 0) ∨ (n.x = 0 ∧ n.z = 0) ∨ (n.x = 0 ∧ n.y = 0)) →
          (tail3 (homogeneousError H1 H2)).norm < Real.pi) := by
  have ht : tail3 (homogeneousError H1 H2) = orientationError (axisAngleRotation n Real.pi) := by
    rw [homogeneousError, tail3_mkVec6, hrel]
  rw [ht, hrel]
  exact ⟨halfTurn_test n hn, orientationError_halfTurn n hn, halfTurn_error_norm n hn⟩

/-- Witness of C30: the half turn about the z axis against the identity. -/
theorem homogeneousError_half_turn_witness :
    ((0 : ℝ) * 0 + 0 * 0 + 1 * 1 = 1
      ∧ relativeRotation halfTurnZ Isometry.identity = axisAngleRotation ⟨0, 0, 1⟩ Real.pi)
    ∧ (Scalar.lt (Scalar.lit (-99 / 100)) (relativeRotation halfTurnZ Isometry.identity).trace
        || Scalar.lt (Scalar.lit (1 / 10000000000))
            (rotationEps (relativeRotation halfTurnZ Isometry.identity)).norm) = false
      ∧ tail3 (homogeneousError halfTurnZ Isometry.identity)
          = ⟨Real.pi * ((0 : ℝ) * 0), Real.pi * ((0 : ℝ) * 0), Real.pi * ((1 : ℝ) * 1)⟩
      ∧ ((tail3 (homogeneousError halfTurnZ Isometry.identity)).norm = Real.pi
          ↔ ((0 : ℝ) = 0 ∧ (1 : ℝ) = 0) ∨ ((0 : ℝ) = 0 ∧ (1 : ℝ) = 0)
              ∨ ((0 : ℝ) = 0 ∧ (0 : ℝ) = 0))
      ∧ (¬ (((0 : ℝ) = 0 ∧ (1 : ℝ) = 0) ∨ ((0 : ℝ) = 0 ∧ (1 : ℝ) = 0)
              ∨ ((0 : ℝ) = 0 ∧ (0 : ℝ) = 0)) →
          (tail3 (homogeneousError halfTurnZ Isometry.identity)).norm < Real.pi) :=
  ⟨⟨by norm_num, halfTurnZ_axisAngle⟩,
    homogeneousError_half_turn halfTurnZ Isometry.identity ⟨0, 0, 1⟩ (by norm_num)
      halfTurnZ_axisAngle⟩

end HalfTurn

/-! ## Straight-line scenario -/

section StraightLine

/-- Lower bounds on the number of optimizer invocations: the loop never
lowers the count, and an iteration within the budget adds at least one. -/
theorem generateWaypointsLoop_calls_ge {α : Type} [Scalar α] (HorizonDim : Nat)
    (p : PlannerMpc α) (getAction : Nat → Isometry α → List α) (H_goal : Isometry α)
    (iter : Int) (H_0 : Isometry α) (waypoints : List (Isometry α)) (calls : Nat) :
    calls ≤ (generateWaypointsLoop HorizonDim p getAction H_goal iter H_0 waypoints calls).2
      ∧ (iter < p.max_iterations →
          calls + 1
            ≤ (generateWaypointsLoop HorizonDim p getAction H_goal iter H_0 waypoints calls).2) := by
  induction iter, H_0, waypoints, calls
    using generateWaypointsLoop.induct HorizonDim p getAction H_goal with
  | case1 iter H_0 waypoints calls hlt U_opt H_next hexit =>
    rw [generateWaypointsLoop, if_pos hlt]
    simp only [U_opt, H_next] at hexit
    simp only
    rw [if_pos hexit]
    exact ⟨Nat.le_succ _, fun _ => le_rfl⟩
  | case2 iter H_0 waypoints calls hlt U_opt H_next hexit ih =>
    rw [generateWaypointsLoop, if_pos hlt]
    simp only [U_opt, H_next] at hexit ih
    simp only
    rw [if_neg hexit]
    exact ⟨le_trans (Nat.le_succ _) ih.1, fun _ => ih.1⟩
  | case3 iter H_0 waypoints calls hge =>
    rw [generateWaypointsLoop, if_neg hge]
    exact ⟨le_rfl, fun h => absurd h hge⟩

/-- One iteration that neither converges nor is the last of the budget
moves on to the predicted pose. -/
theorem generateWaypointsLoop_continue {α : Type} [Scalar α] (HorizonDim : Nat)
    (p : PlannerMpc α) (getAction : Nat → Isometry α → List α) (H_goal : Isometry α)
    (iter : Int) (H_0 : Isometry α) (waypoints : List (Isometry α)) (calls : Nat)
    (hlt : iter < p.max_iterations) (hlast : iter ≠ p.max_iterations - 1)
    (hfar : withinTolerance p (nextPose HorizonDim H_0 (getAction calls H_0)) H_goal = false) :
    generateWaypointsLoop HorizonDim p getAction H_goal iter H_0 waypoints calls
      = generateWaypointsLoop HorizonDim p getAction H_goal (iter + 1)
          (nextPose HorizonDim H_0 (getAction calls H_0))
          (waypoints ++ [nextPose HorizonDim H_0 (getAction calls H_0)]) (calls + 1) := by
  rw [generateWaypointsLoop, if_pos hlt]
  simp only [hfar, Bool.false_or, beq_iff_eq, hlast, if_false]

/-- Translation of the pose predicted for the next step: the current
translation plus the first three controls. -/
theorem nextPose_translation (HorizonDim : Nat) (hH : 1 ≤ HorizonDim) (H_0 : Isometry ℝ)
    (U_opt : List ℝ) :
    (nextPose HorizonDim H_0 U_opt).translation
      = ⟨H_0.translation.x + U_opt.getD 0 0, H_0.translation.y + U_opt.getD 1 0,
         H_0.translation.z + U_opt.getD 2 0⟩ := by
  obtain ⟨n, rfl⟩ : ∃ n, HorizonDim = n + 1 := ⟨HorizonDim - 1, by omega⟩
  have h1 : (rollout (n + 1) H_0 U_opt).getD 1 (fun _ => Scalar.lit 0)
      = initialState H_0 + controlColumn U_opt 0 := by
    simp only [rollout, rolloutFrom]
    rw [List.getD_eq_getElem?_getD, List.getElem?_cons_succ, rolloutFrom_zero]
    rfl
  simp only [nextPose, h1]
  simp [stateToIsometry, head3, initialState, mkVec6, controlColumn, ActionDim]

theorem first_control_le (U_opt : List ℝ) (hi : ℝ) (h0 : 0 ≤ hi)
    (hb : ∀ u, U_opt[0]? = some u → u ≤ hi) : U_opt.getD 0 0 ≤ hi := by
  rw [List.getD_eq_getElem?_getD]
  cases h : U_opt[0]? with
  | none => simpa using h0
  | some u => simpa using hb u h

/-- A pose whose x coordinate is at most `0.2` is not within the position
tolerance `0.01` of the goal at `(0.3, 0, 0)`. -/
theorem withinTolerance_goalPose_far (H : Isometry ℝ) (hx : H.translation.x ≤ 2 / 10) :
    withinTolerance plannerEmptyCloud H goalPose = false := by
  have hs : (1 / 10 : ℝ) ≤ Real.sqrt ((H.translation.x - 3 / 10) * (H.translation.x - 3 / 10)
      + (H.translation.y - 0) * (H.translation.y - 0)
      + (H.translation.z - 0) * (H.translation.z - 0)) := by
    apply Real.le_sqrt_of_sq_le
    nlinarith [mul_self_nonneg (H.translation.y - 0), mul_self_nonneg (H.translation.z - 0)]
  have hn : ¬ (Real.sqrt ((H.translation.x - 3 / 10) * (H.translation.x - 3 / 10)
      + (H.translation.y - 0) * (H.translation.y - 0)
      + (H.translation.z - 0) * (H.translation.z - 0)) < ((1 / 100 : ℚ) : ℝ)) := by
    push_cast
    linarith
  simp only [withinTolerance, homogeneousError, head3_mkVec6, Vec3.sub, Vec3.norm, goalPose,
    plannerEmptyCloud, lt_real, sqrt_real, lit_real, hn, decide_False, Bool.false_and]

theorem straight_line_calls (HorizonDim : Nat) (hH : 1 ≤ HorizonDim)
    (getAction : Nat → Isometry ℝ → List ℝ)
    (hb : ∀ (n : Nat) (H : Isometry ℝ) (u : ℝ), (getAction n H)[0]? = some u → u ≤ 1 / 10) :
    withinTolerance plannerEmptyCloud
        (nextPose HorizonDim Isometry.identity (getAction 0 Isometry.identity)) goalPose = false
      ∧ withinTolerance plannerEmptyCloud
          (nextPose HorizonDim
            (nextPose HorizonDim Isometry.identity (getAction 0 Isometry.identity))
            (getAction 1
              (nextPose HorizonDim Isometry.identity (getAction 0 Isometry.identity))))
          goalPose = false
      ∧ 3 ≤ (generateWaypointsLoop HorizonDim plannerEmptyCloud getAction goalPose 0
          Isometry.identity [Isometry.identity] 0).2 := by
  have hx1 : (nextPose HorizonDim Isometry.identity
      (getAction 0 Isometry.identity)).translation.x ≤ 1 / 10 := by
    rw [nextPose_translation HorizonDim hH]
    have := first_control_le (getAction 0 Isometry.identity) (1 / 10) (by norm_num)
      (hb 0 Isometry.identity)
    have hid : (Isometry.identity : Isometry ℝ).translation.x = 0 := by
      simp [Isometry.identity]
    show (Isometry.identity : Isometry ℝ).translation.x
      + (getAction 0 Isometry.identity).getD 0 0 ≤ 1 / 10
    rw [hid, zero_add]
    exact this
  have hx2 : (nextPose HorizonDim
      (nextPose HorizonDim Isometry.identity (getAction 0 Isometry.identity))
      (getAction 1 (nextPose HorizonDim Isometry.identity
        (getAction 0 Isometry.identity)))).translation.x ≤ 2 / 10 := by
    rw [nextPose_translation HorizonDim hH]
    have := first_control_le (getAction 1 (nextPose HorizonDim Isometry.identity
      (getAction 0 Isometry.identity))) (1 / 10) (by norm_num) (hb 1 _)
    simp only
    linarith
  have hf1 := withinTolerance_goalPose_far _ (le_trans hx1 (by norm_num))
  have hf2 := withinTolerance_goalPose_far _ hx2
  refine ⟨hf1, hf2, ?_⟩
  have hmax : plannerEmptyCloud.max_iterations = 20 := rfl
  rw [generateWaypointsLoop_continue HorizonDim plannerEmptyCloud getAction goalPose 0
      Isometry.identity [Isometry.identity] 0 (by rw [hmax]; decide) (by rw [hmax]; decide) hf1,
    generateWaypointsLoop_continue HorizonDim plannerEmptyCloud getAction goalPose (0 + 1)
      _ _ (0 + 1) (by rw [hmax]; decide) (by rw [hmax]; decide) hf2]
  exact (generateWaypointsLoop_calls_ge HorizonDim plannerEmptyCloud getAction goalPose
    (0 + 1 + 1) _ _ (0 + 1 + 1)).2 (by rw [hmax]; decide)

/-- C27. In exact arithmetic, in the scenario with the default-constructed
planner and an empty obstacle cloud (tolerances `0.01`, bounds `±0.1`,
`max_iterations = 20`), init the identity pose and goal the identity
rotation at `(0.3, 0, 0)`: for every horizon of at least one step and every
optimizer whose results respect the per-axis bounds, `generateWaypoints`
returns a list whose last pose is the goal; the poses predicted in the first
and in the second iteration are not within tolerance of the goal, so the
loop does not leave before its third iteration; and the optimizer runs at
least three times. -/
theorem generateWaypoints_straight_line (HorizonDim : Nat) (hH : 1 ≤ HorizonDim)
    (getAction : Nat → Isometry ℝ → List ℝ)
    (hb : ∀ (n : Nat) (H : Isometry ℝ) (idx : Nat) (u : ℝ),
      (getAction n H)[idx]? = some u →
        (idx % ActionDim < 3 →
          plannerEmptyCloud.dp_min ≤ u ∧ u ≤ plannerEmptyCloud.dp_max)
        ∧ (3 ≤ idx % ActionDim →
          plannerEmptyCloud.dtheta_min ≤ u ∧ u ≤ plannerEmptyCloud.dtheta_max)) :
    ∃ r : GenerateResult ℝ,
      generateWaypoints HorizonDim plannerEmptyCloud getAction Isometry.identity goalPose
          = some r
        ∧ r.waypoints.getLast? = some goalPose
        ∧ withinTolerance plannerEmptyCloud
            (nextPose HorizonDim Isometry.identity (getAction 0 Isometry.identity))
            goalPose = false
        ∧ withinTolerance plannerEmptyCloud
            (nextPose HorizonDim
              (nextPose HorizonDim Isometry.identity (getAction 0 Isometry.identity))
              (getAction 1
                (nextPose HorizonDim Isometry.identity (getAction 0 Isometry.identity))))
            goalPose = false
        ∧ 3 ≤ r.optimizer_calls := by
  have hb0 : ∀ (n : Nat) (H : Isometry ℝ) (u : ℝ),
      (getAction n H)[0]? = some u → u ≤ 1 / 10 := by
    intro n H u hu
    have := ((hb n H 0 u hu).1 (by decide)).2
    simp only [plannerEmptyCloud, lit_real] at this
    push_cast at this
    exact this
  obtain ⟨h1, h2, h3⟩ := straight_line_calls HorizonDim hH getAction hb0
  obtain ⟨_, hlast⟩ := generateWaypoints_last HorizonDim plannerEmptyCloud getAction
    Isometry.identity goalPose (by decide)
  exact ⟨_, generateWaypoints_of_cloud HorizonDim plannerEmptyCloud getAction
    Isometry.identity goalPose [] rfl, hlast, h1, h2, h3⟩

theorem zeroOptimizer_bounds (n : Nat) (H : Isometry ℝ) (idx : Nat) (u : ℝ)
    (hu : (zeroOptimizer 1 n H)[idx]? = some u) :
    (idx % ActionDim < 3 → plannerEmptyCloud.dp_min ≤ u ∧ u ≤ plannerEmptyCloud.dp_max)
      ∧ (3 ≤ idx % ActionDim →
        plannerEmptyCloud.dtheta_min ≤ u ∧ u ≤ plannerEmptyCloud.dtheta_max) := by
  have h0 : u = 0 := by
    simp only [zeroOptimizer, List.getElem?_replicate] at hu
    split at hu
    · exact (Option.some.inj hu).symm
    · simp at hu
  subst h0
  simp only [plannerEmptyCloud, lit_real]
  push_cast
  constructor <;> intro _ <;> constructor <;> norm_num

/-- Witness of C27: one step in the horizon and the optimizer that returns
the zero control sequence. -/
theorem generateWaypoints_straight_line_witness :
    (1 ≤ 1
      ∧ ∀ (n : Nat) (H : Isometry ℝ) (idx : Nat) (u : ℝ),
        (zeroOptimizer 1 n H)[idx]? = some u →
          (idx % ActionDim < 3 →
            plannerEmptyCloud.dp_min ≤ u ∧ u ≤ plannerEmptyCloud.dp_max)
          ∧ (3 ≤ idx % ActionDim →
            plannerEmptyCloud.dtheta_min ≤ u ∧ u ≤ plannerEmptyCloud.dtheta_max))
    ∧ ∃ r : GenerateResult ℝ,
      generateWaypoints 1 plannerEmptyCloud (zeroOptimizer 1) Isometry.identity goalPose
          = some r
        ∧ r.waypoints.getLast? = some goalPose
        ∧ withinTolerance plannerEmptyCloud
            (nextPose 1 Isometry.identity (zeroOptimizer 1 0 Isometry.identity))
            goalPose = false
        ∧ withinTolerance plannerEmptyCloud
            (nextPose 1
              (nextPose 1 Isometry.identity (zeroOptimizer 1 0 Isometry.identity))
              (zeroOptimizer 1 1
                (nextPose 1 Isometry.identity (zeroOptimizer 1 0 Isometry.identity))))
            goalPose = false
        ∧ 3 ≤ r.optimizer_calls :=
  ⟨⟨le_rfl, zeroOptimizer_bounds⟩,
    generateWaypoints_straight_line 1 le_rfl (zeroOptimizer 1) zeroOptimizer_bounds⟩

end StraightLine

/-! ## MPPI update with `mppi_lambda = 0` -/

section ZeroLambda

end ZeroLambda

end WaypointsPlanner
